import Mathlib

/-!
AOPT: mass-spring assembly, backtracking line search, gradient descent.

A shallow embedding of

* `include/Functions/MassSpringProblem2DSparse.hh` (the sparse assembler),
* `include/Algorithms/LineSearch.hh` (backtracking line search),
* `include/Algorithms/GradientDescent.hh` (the solver),

followed by theorems about them.

Conventions of the embedding.

* `double` is modelled by `ℚ` (exact arithmetic), `int` by `ℤ`, container sizes by `ℕ`.
* The guards of the two insertion methods compute `2 * v` in 32-bit `int`; there the
  product is wrapped to 32 bits (`int32`), so a vertex from `2^30` on doubles to a
  negative number.  The index products `2 * v` of the evaluators are taken in `ℤ`:
  on an `x` whose length is an `int`, as `n_unknowns()` is, a doubled index inside
  `x` does not overflow, and for a vertex from `2^30` on the read is outside `x`
  with the wrapped index (negative) as with the exact one.
* `Vec` (`Eigen::VectorXd`) is a list of scalars.  Eigen checks index ranges and
  operand sizes with assertions; here an access or an operation that violates
  one yields `Fault.bounds`, and nothing is said about what an unchecked build
  would do afterwards.
* `while (true)` of the line search is cut by a fuel parameter; running out of
  fuel is `Fault.fuel`, so "the loop is still running after `fuel` passes" and
  "the loop returned" are different results.
* The scratch vectors `xe_` and `cs_xe_` are members; an evaluator starts from the
  vectors of the state and threads them through its loops.  Each pass writes the
  entries it hands to the local element before the element is called, so the
  contents a call leaves behind are not kept in the state.
* The output buffers of a local element (`ge_`, `he_`, `cs_ge_`, `cs_he_`) are read
  through the element itself: `eval_gradient xe coeff p` is entry `p` after the call.
* Console output is not modelled.
-/

namespace AOPT

/-! ## Faults and vectors -/

/-- How a run can fail to produce a value. -/
inductive Fault where
  /-- An index or a size is out of range. -/
  | bounds
  /-- The fuel given to an unbounded loop is used up. -/
  | fuel
  deriving DecidableEq

/-- The value of an `int` expression whose exact value is `z`: `z` wrapped to 32 bits
(two's complement). -/
def int32 (z : Int) : Int := (z + 2 ^ 31) % 2 ^ 32 - 2 ^ 31

/-- The type `Eigen::VectorXd`. -/
abbrev Vec := List ℚ

/-- The read `v[i]` with an `int` index. -/
def Vec.read (v : Vec) (i : Int) : Except Fault ℚ :=
  if 0 ≤ i then
    match v[i.toNat]? with
    | some a => .ok a
    | none => .error .bounds
  else .error .bounds

/-- The write `v[i] = a` with an `int` index. -/
def Vec.write (v : Vec) (i : Int) (a : ℚ) : Except Fault Vec :=
  if 0 ≤ i ∧ i.toNat < v.length then .ok (v.set i.toNat a) else .error .bounds

/-- The update `v[i] += a` with an `int` index. -/
def Vec.addAt (v : Vec) (i : Int) (a : ℚ) : Except Fault Vec := do
  let old ← Vec.read v i
  Vec.write v i (old + a)

/-- The inner product `a.dot(b)`; the operands must have one size. -/
def Vec.dot (a b : Vec) : Except Fault ℚ :=
  if a.length = b.length then .ok (List.zipWith (fun u v => u * v) a b).sum
  else .error .bounds

/-- The product `t * v` of a scalar and a vector. -/
def Vec.smul (t : ℚ) (v : Vec) : Vec := v.map (fun u => t * u)

/-- The sum `a + b`; the operands must have one size. -/
def Vec.add (a b : Vec) : Except Fault Vec :=
  if a.length = b.length then .ok (List.zipWith (fun u v => u + v) a b)
  else .error .bounds

/-- The difference `a - b`; the operands must have one size. -/
def Vec.sub (a b : Vec) : Except Fault Vec :=
  if a.length = b.length then .ok (List.zipWith (fun u v => u - v) a b)
  else .error .bounds

/-- The value `v.squaredNorm()`. -/
def Vec.squaredNorm (v : Vec) : ℚ := (v.map (fun u => u * u)).sum

/-- The read `l[i]` of a `std::vector` with a `size_t` index. -/
def idx {α : Type} (l : List α) (i : Nat) : Except Fault α :=
  match l[i]? with
  | some a => .ok a
  | none => .error .bounds

/-- The call `v.resize(n); v.setZero()` with an `int` size. -/
def Vec.zero (n : Int) : Except Fault Vec :=
  if 0 ≤ n then .ok (List.replicate n.toNat 0) else .error .bounds

/-! ## Local element models

`ParametricFunctionBase` is the interface of a local element (`func_`, and the
anchor element `cse_` of class `ConstrainedSpringElement2D`); neither is part of
the sources at hand, so both are parameters.  `eval_gradient xe coeff p` is the
entry `p` of the out-parameter after the call, `eval_hessian xe coeff p q` the
entry `(p, q)`. -/

/-- A local element: energy, gradient and Hessian of a coordinate vector `xe`
under coefficients `coeff`. -/
structure ParametricFunctionBase where
  n_unknowns : Nat
  eval_f : Vec → Vec → ℚ
  eval_gradient : Vec → Vec → Nat → ℚ
  eval_hessian : Vec → Vec → Nat → Nat → ℚ

/-! ## Sparse matrices -/

/-- The type `Eigen::Triplet<double>`: `(row, col, value)`. -/
structure T where
  row : Int
  col : Int
  value : ℚ
  deriving DecidableEq

/-- The sum of the values of the triplets of `ts` that sit at `(r, c)`. -/
def tripletSum (ts : List T) (r c : Int) : ℚ :=
  ((ts.filter (fun t => t.row = r ∧ t.col = c)).map T.value).sum

/-- The type `Eigen::SparseMatrix<double>`, by its shape and its coefficients. -/
structure SMat where
  rows : Nat
  cols : Nat
  coeff : Int → Int → ℚ

/-- Modelled from the spec: `Eigen::SparseMatrix::setFromTriplets` on a matrix that
was resized to `n × n`, "with additive accumulation on duplicate (row,col) pairs";
every triplet must lie inside the matrix. -/
def SMat.setFromTriplets (n : Int) (ts : List T) : Except Fault SMat :=
  if 0 ≤ n ∧ ∀ t ∈ ts, 0 ≤ t.row ∧ t.row < n ∧ 0 ≤ t.col ∧ t.col < n then
    .ok { rows := n.toNat, cols := n.toNat, coeff := tripletSum ts }
  else .error .bounds

/-! ## `MassSpringProblem2DSparse` -/

/-- The members of `MassSpringProblem2DSparse`.  Of the matrices `he_` and `cs_he_`
the state keeps the shape `(rows, cols)`. -/
structure MassSpringProblem2DSparse where
  n_ : Int
  springs_ : List (Int × Int)
  func_ : ParametricFunctionBase
  ks_ : List ℚ
  ls_ : List ℚ
  xe_ : Vec
  ge_ : Vec
  he_ : Nat × Nat
  attached_node_indices_ : List Int
  cse_ : ParametricFunctionBase
  weights_ : List ℚ
  desired_points_ : List ℚ
  cs_xe_ : Vec
  cs_ge_ : Vec
  cs_he_ : Nat × Nat

namespace MassSpringProblem2DSparse

/-- The constructor `MassSpringProblem2DSparse(_spring, _n_unknowns)`.  It resizes
`xe_`, `ge_` and `he_`; every other container is default-constructed, hence empty.
`cse` is the behaviour of the default-constructed member `cse_`.  The entries of a
resized buffer are written by the evaluators before they are read; they start
as `0` here. -/
def construct (spring : ParametricFunctionBase) (cse : ParametricFunctionBase)
    (n_unknowns : Int) : MassSpringProblem2DSparse :=
  { n_ := n_unknowns
    springs_ := []
    func_ := spring
    ks_ := []
    ls_ := []
    xe_ := List.replicate spring.n_unknowns 0
    ge_ := List.replicate spring.n_unknowns 0
    he_ := (spring.n_unknowns, spring.n_unknowns)
    attached_node_indices_ := []
    cse_ := cse
    weights_ := []
    desired_points_ := []
    cs_xe_ := []
    cs_ge_ := []
    cs_he_ := (0, 0) }

/-- The method `n_unknowns()`. -/
def n_unknowns (P : MassSpringProblem2DSparse) : Int := P.n_

/-- The method `add_spring_element(_v_idx0, _v_idx1, _k, _l)`.  The products
`2 * _v_idx0` and `2 * _v_idx1` of the guard are `int` products. -/
def add_spring_element (P : MassSpringProblem2DSparse) (v_idx0 v_idx1 : Int) (k l : ℚ) :
    MassSpringProblem2DSparse :=
  if int32 (2 * v_idx0) > P.n_ ∨ v_idx0 < 0 ∨ int32 (2 * v_idx1) ≥ P.n_ ∨ v_idx1 < 0 then
    P
  else
    { P with
      springs_ := P.springs_ ++ [(v_idx0, v_idx1)]
      ks_ := P.ks_ ++ [k]
      ls_ := P.ls_ ++ [l] }

/-- The method `add_constrained_spring_element(_v_idx, _w, _px, _py)`.  The product
`2 * _v_idx` of the guard is an `int` product. -/
def add_constrained_spring_element (P : MassSpringProblem2DSparse) (v_idx : Int)
    (w px py : ℚ) : MassSpringProblem2DSparse :=
  if int32 (2 * v_idx) > P.n_ ∨ v_idx < 0 then
    P
  else
    { P with
      attached_node_indices_ := P.attached_node_indices_ ++ [v_idx]
      weights_ := P.weights_ ++ [w]
      desired_points_ := P.desired_points_ ++ [px] ++ [py] }

/-- The statements that load the coordinates of the two nodes of spring `i` into
the scratch vector `xe_` and build `coeff`; returns `(xe_, coeff)`. -/
def load_spring (P : MassSpringProblem2DSparse) (x xe : Vec) (i : Nat) :
    Except Fault (Vec × Vec) := do
  let s ← idx P.springs_ i
  -- xe_[0] = _x[2 * springs_[i].first]
  let xe ← Vec.write xe 0 (← Vec.read x (2 * s.1))
  let xe ← Vec.write xe 1 (← Vec.read x (2 * s.1 + 1))
  let xe ← Vec.write xe 2 (← Vec.read x (2 * s.2))
  let xe ← Vec.write xe 3 (← Vec.read x (2 * s.2 + 1))
  -- coeff[0] = ks_[i]; coeff[1] = ls_[i]
  let k ← idx P.ks_ i
  let l ← idx P.ls_ i
  return (xe, [k, l])

/-- The statements that load the coordinates of anchor `i` into the scratch
vector `cs_xe_` and build `cs_coeff`; returns `(cs_xe_, cs_coeff)`. -/
def load_anchor (P : MassSpringProblem2DSparse) (x cs_xe : Vec) (i : Nat) :
    Except Fault (Vec × Vec) := do
  let v ← idx P.attached_node_indices_ i
  -- cs_xe_[0] = _x[2 * attached_node_indices_[i]]
  let cs_xe ← Vec.write cs_xe 0 (← Vec.read x (2 * v))
  let cs_xe ← Vec.write cs_xe 1 (← Vec.read x (2 * v + 1))
  -- cs_coeff[0] = weights_[i]
  let w ← idx P.weights_ i
  return (cs_xe, [w])

/-- The body of the spring loop of `eval_f`; the loop state is `(energy, xe_)`. -/
def eval_f_spring (P : MassSpringProblem2DSparse) (x : Vec) (st : ℚ × Vec) (i : Nat) :
    Except Fault (ℚ × Vec) := do
  let (xe, coeff) ← load_spring P x st.2 i
  return (st.1 + P.func_.eval_f xe coeff, xe)

/-- The body of the anchor loop of `eval_f`; the loop state is `(energy, cs_xe_)`. -/
def eval_f_anchor (P : MassSpringProblem2DSparse) (x : Vec) (st : ℚ × Vec) (i : Nat) :
    Except Fault (ℚ × Vec) := do
  let (cs_xe, cs_coeff) ← load_anchor P x st.2 i
  return (st.1 + P.cse_.eval_f cs_xe cs_coeff, cs_xe)

/-- The method `eval_f(_x)`. -/
def eval_f (P : MassSpringProblem2DSparse) (x : Vec) : Except Fault ℚ := do
  let energy : ℚ := 0
  let st ← (List.range P.springs_.length).foldlM (eval_f_spring P x) (energy, P.xe_)
  let st ← (List.range P.attached_node_indices_.length).foldlM (eval_f_anchor P x)
    (st.1, P.cs_xe_)
  return st.1

/-- The body of the spring loop of `eval_gradient`; the loop state is `(_g, xe_)`. -/
def eval_gradient_spring (P : MassSpringProblem2DSparse) (x : Vec) (st : Vec × Vec)
    (i : Nat) : Except Fault (Vec × Vec) := do
  let (xe, coeff) ← load_spring P x st.2 i
  let ge := P.func_.eval_gradient xe coeff
  let s ← idx P.springs_ i
  -- _g[2 * springs_[i].first] += ge_[0]
  let g ← Vec.addAt st.1 (2 * s.1) (ge 0)
  let g ← Vec.addAt g (2 * s.1 + 1) (ge 1)
  let g ← Vec.addAt g (2 * s.2) (ge 2)
  let g ← Vec.addAt g (2 * s.2 + 1) (ge 3)
  return (g, xe)

/-- The body of the anchor loop of `eval_gradient`; the loop state is `(_g, cs_xe_)`. -/
def eval_gradient_anchor (P : MassSpringProblem2DSparse) (x : Vec) (st : Vec × Vec)
    (i : Nat) : Except Fault (Vec × Vec) := do
  let (cs_xe, cs_coeff) ← load_anchor P x st.2 i
  let cs_ge := P.cse_.eval_gradient cs_xe cs_coeff
  let v ← idx P.attached_node_indices_ i
  -- _g[2 * attached_node_indices_[i]] += cs_ge_[0]
  let g ← Vec.addAt st.1 (2 * v) (cs_ge 0)
  let g ← Vec.addAt g (2 * v + 1) (cs_ge 1)
  return (g, cs_xe)

/-- The method `eval_gradient(_x, _g)`; the result is `_g` after the call.  The
content of `_g` before the call is discarded by `resize` and `setZero`, so it is
no argument. -/
def eval_gradient (P : MassSpringProblem2DSparse) (x : Vec) : Except Fault Vec := do
  let g ← Vec.zero P.n_unknowns
  let st ← (List.range P.springs_.length).foldlM (eval_gradient_spring P x) (g, P.xe_)
  let st ← (List.range P.attached_node_indices_.length).foldlM (eval_gradient_anchor P x)
    (st.1, P.cs_xe_)
  return st.1

/-- The sixteen `emplace_back` calls of the spring loop of `eval_hessian`. -/
def spring_triplets (id0 id1 id2 id3 : Int) (he : Nat → Nat → ℚ) : List T :=
  [ ⟨id0, id0, he 0 0⟩, ⟨id0, id1, he 0 1⟩, ⟨id0, id2, he 0 2⟩, ⟨id0, id3, he 0 3⟩,
    ⟨id1, id0, he 1 0⟩, ⟨id1, id1, he 1 1⟩, ⟨id1, id2, he 1 2⟩, ⟨id1, id3, he 1 3⟩,
    ⟨id2, id0, he 2 0⟩, ⟨id2, id1, he 2 1⟩, ⟨id2, id2, he 2 2⟩, ⟨id2, id3, he 2 3⟩,
    ⟨id3, id0, he 3 0⟩, ⟨id3, id1, he 3 1⟩, ⟨id3, id2, he 3 2⟩, ⟨id3, id3, he 3 3⟩ ]

/-- The four `emplace_back` calls of the anchor loop of `eval_hessian`. -/
def anchor_triplets (idx0 idx1 : Int) (cs_he : Nat → Nat → ℚ) : List T :=
  [ ⟨idx0, idx0, cs_he 0 0⟩, ⟨idx0, idx1, cs_he 0 1⟩,
    ⟨idx1, idx0, cs_he 1 0⟩, ⟨idx1, idx1, cs_he 1 1⟩ ]

/-- The body of the spring loop of `eval_hessian`; the loop state is
`(triplets, xe_)`. -/
def eval_hessian_spring (P : MassSpringProblem2DSparse) (x : Vec) (st : List T × Vec)
    (i : Nat) : Except Fault (List T × Vec) := do
  let s ← idx P.springs_ i
  let id0 := 2 * s.1
  let id1 := 2 * s.1 + 1
  let id2 := 2 * s.2
  let id3 := 2 * s.2 + 1
  -- xe_[0] = _x[id0]
  let xe ← Vec.write st.2 0 (← Vec.read x id0)
  let xe ← Vec.write xe 1 (← Vec.read x id1)
  let xe ← Vec.write xe 2 (← Vec.read x id2)
  let xe ← Vec.write xe 3 (← Vec.read x id3)
  let k ← idx P.ks_ i
  let l ← idx P.ls_ i
  let he := P.func_.eval_hessian xe [k, l]
  return (st.1 ++ spring_triplets id0 id1 id2 id3 he, xe)

/-- The body of the anchor loop of `eval_hessian`; the loop state is
`(triplets, cs_xe_)`. -/
def eval_hessian_anchor (P : MassSpringProblem2DSparse) (x : Vec) (st : List T × Vec)
    (i : Nat) : Except Fault (List T × Vec) := do
  let v ← idx P.attached_node_indices_ i
  let idx0 := 2 * v
  let idx1 := idx0 + 1
  let cs_xe ← Vec.write st.2 0 (← Vec.read x idx0)
  let cs_xe ← Vec.write cs_xe 1 (← Vec.read x idx1)
  let w ← idx P.weights_ i
  let cs_he := P.cse_.eval_hessian cs_xe [w]
  return (st.1 ++ anchor_triplets idx0 idx1 cs_he, cs_xe)

/-- The local variable `triplets` of `eval_hessian` when both loops are done.
The spring loop runs over `ks_.size()`. -/
def eval_hessian_triplets (P : MassSpringProblem2DSparse) (x : Vec) :
    Except Fault (List T) := do
  let triplets : List T := []
  let st ← (List.range P.ks_.length).foldlM (eval_hessian_spring P x) (triplets, P.xe_)
  let st ← (List.range P.attached_node_indices_.length).foldlM (eval_hessian_anchor P x)
    (st.1, P.cs_xe_)
  return st.1

/-- The method `eval_hessian(_x, _h)`; the result is `_h` after the call. -/
def eval_hessian (P : MassSpringProblem2DSparse) (x : Vec) : Except Fault SMat := do
  let triplets ← eval_hessian_triplets P x
  SMat.setFromTriplets P.n_unknowns triplets

end MassSpringProblem2DSparse

/-! ## The objective interface used by the solver

`GradientDescent::solve` and `LineSearch::backtracking_line_search` are
templates over any `Problem` with `n_unknowns`, `eval_f` and `eval_gradient`.
`eval_gradient x` is the content of the out-parameter after the call. -/

/-- A `FunctionBase`-style objective. -/
structure Problem where
  n_unknowns : Nat
  eval_f : Vec → ℚ
  eval_gradient : Vec → Vec

/-! ## `LineSearch::backtracking_line_search` -/

/-- The `while (true)` loop of `backtracking_line_search`, at most `fuel` passes,
started with step `t`. -/
def backtracking_loop (problem : Problem) (x dx : Vec) (f_x grad_dot_dx alpha tau : ℚ) :
    Nat → ℚ → Except Fault ℚ
  | 0, _ => .error .fuel
  | fuel + 1, t => do
    -- x_new = _x + t * _dx
    let x_new ← Vec.add x (Vec.smul t dx)
    let f_x_new := problem.eval_f x_new
    if f_x_new ≤ f_x + alpha * t * grad_dot_dx then
      .ok t
    else
      -- t *= _tau
      backtracking_loop problem x dx f_x grad_dot_dx alpha tau fuel (t * tau)

/-- The function `LineSearch::backtracking_line_search(_problem, _x, _g, _dx, _t0, _alpha, _tau)`. -/
def backtracking_line_search (fuel : Nat) (problem : Problem) (x g dx : Vec)
    (t0 alpha tau : ℚ) : Except Fault ℚ := do
  let t := t0
  let f_x := problem.eval_f x
  let grad_dot_dx ← Vec.dot g dx
  backtracking_loop problem x dx f_x grad_dot_dx alpha tau fuel t

/-- The default value `0.5` of the parameter `_alpha`. -/
def default_alpha : ℚ := 1 / 2

/-- The default value `0.75` of the parameter `_tau`. -/
def default_tau : ℚ := 3 / 4

/-! ## `GradientDescent::solve`

The run is instrumented with a log of the calls it makes to the problem and to
the line search, in the order they are made. -/

/-- One call made by `solve`. -/
inductive Event where
  /-- The call `_problem->eval_f(x)`. -/
  | eval_f (x : Vec)
  /-- The call `_problem->eval_gradient(x, g)`. -/
  | eval_gradient (x : Vec)
  /-- The call `backtracking_line_search(_problem, x, g, dx, t0, alpha, tau)` and the
  step it returned. -/
  | line_search (x g dx : Vec) (t0 alpha tau : ℚ) (result : ℚ)

/-- The variables of `solve` that live across passes of its loop, and the log. -/
structure SolveState where
  x : Vec
  alpha : ℚ
  log : List Event

/-- One pass through the body of `while (iter < _max_iters)`.  The flag of the
result is `true` when the pass left the loop by `break`. -/
def solve_body (lsFuel : Nat) (problem : Problem) (e2 : ℚ) (s : SolveState) :
    Except Fault (Bool × SolveState) := do
  -- _problem->eval_gradient(x, g)
  let g := problem.eval_gradient s.x
  let log := s.log ++ [Event.eval_gradient s.x]
  if Vec.squaredNorm g < e2 then
    -- break
    return (true, { x := s.x, alpha := s.alpha, log := log })
  else
    let f_x := problem.eval_f s.x
    let log := log ++ [Event.eval_f s.x]
    let f_x_vec : Vec := [f_x]
    let alpha ← backtracking_line_search lsFuel problem s.x g f_x_vec s.alpha
      default_alpha default_tau
    let log := log ++ [Event.line_search s.x g f_x_vec s.alpha default_alpha default_tau alpha]
    -- x = x - alpha * g
    let x ← Vec.sub s.x (Vec.smul alpha g)
    -- f_x = _problem->eval_f(x)
    let log := log ++ [Event.eval_f x]
    return (false, { x := x, alpha := alpha, log := log })

/-- The loop `while (iter < _max_iters)`, with `remaining = _max_iters - iter`
passes left. -/
def solve_loop (lsFuel : Nat) (problem : Problem) (e2 : ℚ) :
    Nat → SolveState → Except Fault SolveState
  | 0, s => .ok s
  | remaining + 1, s => do
    let r ← solve_body lsFuel problem e2 s
    if r.1 then .ok r.2 else solve_loop lsFuel problem e2 remaining r.2

/-- The function `GradientDescent::solve`, with the log of its calls. -/
def solve_logged (lsFuel : Nat) (problem : Problem) (initial_x : Vec) (eps : ℚ)
    (max_iters : Int) : Except Fault SolveState := do
  let e2 := eps * eps
  let x := initial_x
  let alpha : ℚ := 1
  -- double f_x = _problem->eval_f(x)
  let log := [Event.eval_f x]
  solve_loop lsFuel problem e2 max_iters.toNat { x := x, alpha := alpha, log := log }

/-- The function `GradientDescent::solve(_problem, _initial_x, _eps, _max_iters)`. -/
def solve (lsFuel : Nat) (problem : Problem) (initial_x : Vec) (eps : ℚ)
    (max_iters : Int) : Except Fault Vec := do
  let s ← solve_logged lsFuel problem initial_x eps max_iters
  return s.x

/-! ## Definitions used to state the properties

Total readings of the stored elements, the sums that the claims describe, and the
updates of the assembler without their range checks. -/

/-- The coordinate `x[i]` as a number; `0` when `i` is outside the vector. -/
def Vec.get (x : Vec) (i : Int) : ℚ := if 0 ≤ i then x.getD i.toNat 0 else 0

namespace MassSpringProblem2DSparse

/-- The vertex pair of stored spring `i`. -/
def spring (P : MassSpringProblem2DSparse) (i : Nat) : Int × Int := P.springs_.getD i 0

/-- The global slots `(2a, 2a+1, 2b, 2b+1)` of stored spring `i`. -/
def spring_slots (P : MassSpringProblem2DSparse) (i : Nat) : List Int :=
  [2 * (P.spring i).1, 2 * (P.spring i).1 + 1, 2 * (P.spring i).2, 2 * (P.spring i).2 + 1]

/-- The local coordinates `(x[2a], x[2a+1], x[2b], x[2b+1])` of stored spring `i`. -/
def spring_xe (P : MassSpringProblem2DSparse) (x : Vec) (i : Nat) : Vec :=
  (P.spring_slots i).map (Vec.get x)

/-- The coefficients `[k, l]` of stored spring `i`. -/
def spring_coeff (P : MassSpringProblem2DSparse) (i : Nat) : Vec :=
  [P.ks_.getD i 0, P.ls_.getD i 0]

/-- The vertex of stored anchor `i`. -/
def anchor (P : MassSpringProblem2DSparse) (i : Nat) : Int :=
  P.attached_node_indices_.getD i 0

/-- The global slots `(2 idx, 2 idx + 1)` of stored anchor `i`. -/
def anchor_slots (P : MassSpringProblem2DSparse) (i : Nat) : List Int :=
  [2 * P.anchor i, 2 * P.anchor i + 1]

/-- The local coordinates `(x[2 idx], x[2 idx + 1])` of stored anchor `i`. -/
def anchor_xe (P : MassSpringProblem2DSparse) (x : Vec) (i : Nat) : Vec :=
  (P.anchor_slots i).map (Vec.get x)

/-- The coefficients `[w]` of stored anchor `i`. -/
def anchor_coeff (P : MassSpringProblem2DSparse) (i : Nat) : Vec :=
  [P.weights_.getD i 0]

/-- A state on which no access of the evaluators leaves its container: the
parallel lists have one length, every stored vertex has both coordinates inside
`0 .. n_ - 1`, and a scratch vector that is written has the size of its element. -/
structure Evaluable (P : MassSpringProblem2DSparse) : Prop where
  ks_len : P.ks_.length = P.springs_.length
  ls_len : P.ls_.length = P.springs_.length
  weights_len : P.weights_.length = P.attached_node_indices_.length
  spring_range : ∀ i, i < P.springs_.length →
    0 ≤ (P.spring i).1 ∧ 2 * (P.spring i).1 + 1 < P.n_ ∧
    0 ≤ (P.spring i).2 ∧ 2 * (P.spring i).2 + 1 < P.n_
  anchor_range : ∀ i, i < P.attached_node_indices_.length →
    0 ≤ P.anchor i ∧ 2 * P.anchor i + 1 < P.n_
  xe_size : P.springs_ = [] ∨ P.xe_.length = 4
  cs_xe_size : P.attached_node_indices_ = [] ∨ P.cs_xe_.length = 2

/-- The energy that the claim on `eval_f` describes: the local spring energies of
all stored springs plus the local anchor energies of all stored anchors. -/
def energy_sum (P : MassSpringProblem2DSparse) (x : Vec) : ℚ :=
  ((List.range P.springs_.length).map
      (fun i => P.func_.eval_f (P.spring_xe x i) (P.spring_coeff i))).sum +
    ((List.range P.attached_node_indices_.length).map
      (fun i => P.cse_.eval_f (P.anchor_xe x i) (P.anchor_coeff i))).sum

/-- The vector `v` after `v[i] += a`, for an index inside `v`. -/
def addAtD (v : Vec) (i : Int) (a : ℚ) : Vec := v.set i.toNat (Vec.get v i + a)

/-- The part of slot `m` in one element: the sum of the entries `vals p` whose slot
`slots[p]` is `m`. -/
def slot_sum (slots : List Int) (vals : Nat → ℚ) (m : Int) : ℚ :=
  ((List.range slots.length).map (fun p => if slots.getD p 0 = m then vals p else 0)).sum

/-- The entry `m` of the gradient that the claim on `eval_gradient` describes. -/
def gradient_sum (P : MassSpringProblem2DSparse) (x : Vec) (m : Int) : ℚ :=
  ((List.range P.springs_.length).map (fun i =>
      slot_sum (P.spring_slots i)
        (P.func_.eval_gradient (P.spring_xe x i) (P.spring_coeff i)) m)).sum +
    ((List.range P.attached_node_indices_.length).map (fun i =>
      slot_sum (P.anchor_slots i)
        (P.cse_.eval_gradient (P.anchor_xe x i) (P.anchor_coeff i)) m)).sum

/-- The four updates of `_g` in the spring loop, without checks. -/
def scatter_spring (P : MassSpringProblem2DSparse) (x : Vec) (g : Vec) (i : Nat) : Vec :=
  let ge := P.func_.eval_gradient (P.spring_xe x i) (P.spring_coeff i)
  addAtD (addAtD (addAtD (addAtD g (2 * (P.spring i).1) (ge 0))
    (2 * (P.spring i).1 + 1) (ge 1)) (2 * (P.spring i).2) (ge 2))
    (2 * (P.spring i).2 + 1) (ge 3)

/-- The two updates of `_g` in the anchor loop, without checks. -/
def scatter_anchor (P : MassSpringProblem2DSparse) (x : Vec) (g : Vec) (i : Nat) : Vec :=
  let cs_ge := P.cse_.eval_gradient (P.anchor_xe x i) (P.anchor_coeff i)
  addAtD (addAtD g (2 * P.anchor i) (cs_ge 0)) (2 * P.anchor i + 1) (cs_ge 1)

/-- The sixteen triplets of stored spring `i`. -/
def spring_block (P : MassSpringProblem2DSparse) (x : Vec) (i : Nat) : List T :=
  spring_triplets (2 * (P.spring i).1) (2 * (P.spring i).1 + 1) (2 * (P.spring i).2)
    (2 * (P.spring i).2 + 1) (P.func_.eval_hessian (P.spring_xe x i) (P.spring_coeff i))

/-- The four triplets of stored anchor `i`. -/
def anchor_block (P : MassSpringProblem2DSparse) (x : Vec) (i : Nat) : List T :=
  anchor_triplets (2 * P.anchor i) (2 * P.anchor i + 1)
    (P.cse_.eval_hessian (P.anchor_xe x i) (P.anchor_coeff i))

/-- The triplet list that the claim on `eval_hessian` describes: the block of every
stored spring, then the block of every stored anchor. -/
def triplets_all (P : MassSpringProblem2DSparse) (x : Vec) : List T :=
  (List.range P.springs_.length).flatMap (P.spring_block x) ++
    (List.range P.attached_node_indices_.length).flatMap (P.anchor_block x)

end MassSpringProblem2DSparse

/-- The state of `solve` when it enters its loop. -/
def solve_init (initial_x : Vec) : SolveState :=
  { x := initial_x, alpha := 1, log := [Event.eval_f initial_x] }

/-- Runs `k` passes of the loop body of `solve` from `s`; `none` when one of them
leaves the loop by `break`. -/
def passes (lsFuel : Nat) (problem : Problem) (e2 : ℚ) :
    Nat → SolveState → Except Fault (Option SolveState)
  | 0, s => .ok (some s)
  | k + 1, s => do
    let r ← solve_body lsFuel problem e2 s
    if r.1 then .ok none else passes lsFuel problem e2 k r.2

/-- The log of a pass that continues: gradient, energy, line search, energy. -/
def pass_log (problem : Problem) (s : SolveState) (alpha : ℚ) (x1 : Vec) : List Event :=
  s.log ++ [Event.eval_gradient s.x] ++ [Event.eval_f s.x] ++
    [Event.line_search s.x (problem.eval_gradient s.x) [problem.eval_f s.x] s.alpha
      default_alpha default_tau alpha] ++ [Event.eval_f x1]

/-- Whether an event is a line search call. -/
def Event.isLineSearch : Event → Bool
  | .line_search _ _ _ _ _ _ _ => true
  | _ => false

/-- The number of line search calls in a log. -/
def line_search_count (log : List Event) : Nat := (log.filter Event.isLineSearch).length

/-! ## Sample elements and sample states

A linear spring without rest length and a quadratic anchor, for evaluating the
assembler at concrete inputs, and three small objectives for evaluating the
solver.  They stand for no class of the sources. -/

/-- A local spring `k/2 * ((x0 - x2)^2 + (x1 - x3)^2)` with its gradient and Hessian. -/
def sample_spring : ParametricFunctionBase :=
  { n_unknowns := 4
    eval_f := fun xe c =>
      c.getD 0 0 / 2 * ((xe.getD 0 0 - xe.getD 2 0) ^ 2 + (xe.getD 1 0 - xe.getD 3 0) ^ 2)
    eval_gradient := fun xe c p =>
      match p with
      | 0 => c.getD 0 0 * (xe.getD 0 0 - xe.getD 2 0)
      | 1 => c.getD 0 0 * (xe.getD 1 0 - xe.getD 3 0)
      | 2 => c.getD 0 0 * (xe.getD 2 0 - xe.getD 0 0)
      | 3 => c.getD 0 0 * (xe.getD 3 0 - xe.getD 1 0)
      | _ => 0
    eval_hessian := fun _ c p q =>
      if p = q then c.getD 0 0 else if p + 2 = q ∨ q + 2 = p then - c.getD 0 0 else 0 }

/-- A local anchor `w/2 * (x0^2 + x1^2)` with its gradient and Hessian. -/
def sample_anchor : ParametricFunctionBase :=
  { n_unknowns := 2
    eval_f := fun xe c => c.getD 0 0 / 2 * (xe.getD 0 0 ^ 2 + xe.getD 1 0 ^ 2)
    eval_gradient := fun xe c p =>
      match p with
      | 0 => c.getD 0 0 * xe.getD 0 0
      | 1 => c.getD 0 0 * xe.getD 1 0
      | _ => 0
    eval_hessian := fun _ c p q => if p = q then c.getD 0 0 else 0 }

/-- Two vertices joined by one spring with `k = 1`, `l = 1`. -/
def two_vertex_problem : MassSpringProblem2DSparse :=
  ((MassSpringProblem2DSparse.construct sample_spring sample_anchor 4).add_spring_element
    0 1 1 1)

/-- The two-vertex problem with vertex `0` anchored (`w = 1`, target `(0, 0)`). -/
def anchored_problem : MassSpringProblem2DSparse :=
  two_vertex_problem.add_constrained_spring_element 0 1 0 0

/-- A problem on two unknowns whose only spring was added with vertex `1`: the
guard `2 * _v_idx0 > n_` lets it in. -/
def edge_problem : MassSpringProblem2DSparse :=
  (MassSpringProblem2DSparse.construct sample_spring sample_anchor 2).add_spring_element 1 0 1 1

/-- The objective `f(x) = 2 x^2` in one unknown, with its gradient `4 x`. -/
def quad : Problem :=
  { n_unknowns := 1
    eval_f := fun x => 2 * x.getD 0 0 ^ 2
    eval_gradient := fun x => [4 * x.getD 0 0] }

/-- The objective `f(x) = x^2 / 2` in one unknown, with its gradient `x`. -/
def half_quad : Problem :=
  { n_unknowns := 1
    eval_f := fun x => x.getD 0 0 ^ 2 / 2
    eval_gradient := fun x => [x.getD 0 0] }

/-- The objective `f(x, y) = x^2 + y^2` in two unknowns, with its gradient. -/
def bowl : Problem :=
  { n_unknowns := 2
    eval_f := fun x => x.getD 0 0 ^ 2 + x.getD 1 0 ^ 2
    eval_gradient := fun x => [2 * x.getD 0 0, 2 * x.getD 1 0] }

/-! ## Sequences of insertions

A problem is built by the constructor followed by calls of the two insertion
methods.  The default arguments of the methods are constants of their own. -/

/-- The default value `1.` of the parameter `_k` of `add_spring_element`. -/
def default_k : ℚ := 1

/-- The default value `1.` of the parameter `_l` of `add_spring_element`. -/
def default_l : ℚ := 1

/-- The default value `1.` of the parameter `_w` of `add_constrained_spring_element`. -/
def default_w : ℚ := 1

/-- The default value `0.` of the parameters `_px` and `_py` of
`add_constrained_spring_element`. -/
def default_p : ℚ := 0

/-- One call of an insertion method, with its arguments. -/
inductive Op where
  /-- The call `add_spring_element(v_idx0, v_idx1, k, l)`. -/
  | spring (v_idx0 v_idx1 : Int) (k l : ℚ)
  /-- The call `add_constrained_spring_element(v_idx, w, px, py)`. -/
  | anchor (v_idx : Int) (w px py : ℚ)

namespace MassSpringProblem2DSparse

/-- The state after one call of an insertion method. -/
def apply (P : MassSpringProblem2DSparse) : Op → MassSpringProblem2DSparse
  | .spring v_idx0 v_idx1 k l => P.add_spring_element v_idx0 v_idx1 k l
  | .anchor v_idx w px py => P.add_constrained_spring_element v_idx w px py

/-- The state after construction and the calls `ops`, in order. -/
def build (spring cse : ParametricFunctionBase) (n_unknowns : Int) (ops : List Op) :
    MassSpringProblem2DSparse :=
  ops.foldl apply (construct spring cse n_unknowns)

/-- What the two guards do enforce on the stored vertices: they are not negative,
and their doubled index, wrapped to 32 bits, is at most `n_` (below `n_` for the
second vertex of a spring). -/
def GuardedRanges (P : MassSpringProblem2DSparse) : Prop :=
  (∀ s ∈ P.springs_, 0 ≤ s.1 ∧ int32 (2 * s.1) ≤ P.n_ ∧ 0 ≤ s.2 ∧ int32 (2 * s.2) < P.n_) ∧
  ∀ v ∈ P.attached_node_indices_, 0 ≤ v ∧ int32 (2 * v) ≤ P.n_

end MassSpringProblem2DSparse

/-- The local element `F` on `n` coordinates is consistent: along every line
`t ↦ xe + t * d` through every point `xe` the local energy has, at `t = 0`, the
derivative `eval_gradient(xe) . d` that its local gradient predicts. -/
def Consistent (F : ParametricFunctionBase) (n : Nat) : Prop :=
  ∀ (xe d coeff : Vec), xe.length = n → d.length = n →
    HasDerivAt (fun t : ℚ => F.eval_f (List.zipWith (fun u v => u + t * v) xe d) coeff)
      ((List.range n).map (fun p => F.eval_gradient xe coeff p * d.getD p 0)).sum 0

/-- The Armijo test `f(x + t * dx) ≤ f(x) + alpha * t * (g . dx)` of the line
search, for operands of one size. -/
def armijo (problem : Problem) (x g dx : Vec) (alpha t : ℚ) : Prop :=
  problem.eval_f (List.zipWith (fun u v => u + v) x (Vec.smul t dx)) ≤
    problem.eval_f x + alpha * t * (List.zipWith (fun u v => u * v) g dx).sum

instance armijo_decidable (problem : Problem) (x g dx : Vec) (alpha t : ℚ) :
    Decidable (armijo problem x g dx alpha t) :=
  inferInstanceAs (Decidable (_ ≤ _))

/-- The starting step and the returned step of every line search call of a log, in
the order of the calls. -/
def line_search_steps : List Event → List (ℚ × ℚ)
  | [] => []
  | Event.line_search _ _ _ t0 _ _ result :: rest => (t0, result) :: line_search_steps rest
  | Event.eval_f _ :: rest => line_search_steps rest
  | Event.eval_gradient _ :: rest => line_search_steps rest

/-- The first search of the list starts from `start`, and each later search starts
from the step that the search before it returned. -/
def warm_started (start : ℚ) : List (ℚ × ℚ) → Prop
  | [] => True
  | step :: rest => step.1 = start ∧ warm_started step.2 rest

/-- The step returned by the last search of the list; `start` when there is none. -/
def last_step (start : ℚ) : List (ℚ × ℚ) → ℚ
  | [] => start
  | step :: rest => last_step step.2 rest

/-- The objective `f(x) = x` in one unknown, with its gradient `1`. -/
def ramp : Problem :=
  { n_unknowns := 1
    eval_f := fun x => x.getD 0 0
    eval_gradient := fun _ => [1] }

/-- The state of `solve` on `half_quad` from `x = -4` after its first pass. -/
def warm_pass1 : SolveState :=
  { x := [-37 / 16], alpha := 27 / 64,
    log := pass_log half_quad (solve_init [-4]) (27 / 64) [-37 / 16] }

/-- The state of `solve` on `half_quad` from `x = -4` after its second pass. -/
def warm_pass2 : SolveState :=
  { x := [-1369 / 1024], alpha := 27 / 64,
    log := pass_log half_quad warm_pass1 (27 / 64) [-1369 / 1024] }

/-- Two insertion calls that agree in everything but the target point `(px, py)` of
an anchor. -/
def Op.same_but_target : Op → Op → Prop
  | .spring i j k l, .spring i2 j2 k2 l2 => i = i2 ∧ j = j2 ∧ k = k2 ∧ l = l2
  | .anchor i w _ _, .anchor i2 w2 _ _ => i = i2 ∧ w = w2
  | .spring _ _ _ _, .anchor _ _ _ _ => False
  | .anchor _ _ _ _, .spring _ _ _ _ => False

namespace MassSpringProblem2DSparse

/-- The parallel lists of a state are aligned. -/
def Aligned (P : MassSpringProblem2DSparse) : Prop :=
  P.springs_.length = P.ks_.length ∧ P.ks_.length = P.ls_.length ∧
  P.attached_node_indices_.length = P.weights_.length ∧
  P.desired_points_.length = 2 * P.attached_node_indices_.length

end MassSpringProblem2DSparse

/-- The two-vertex problem with vertex `0` anchored, with the anchor buffers sized as
the anchor element needs them (the constructor does not size them). -/
def sized_anchored_problem : MassSpringProblem2DSparse :=
  { anchored_problem with cs_xe_ := [0, 0], cs_ge_ := [0, 0], cs_he_ := (2, 2) }

/-! ## `MassSpringSystemT::add_constrained_spring_elements`

The class `SpringGraph` of the member `sg_` is not part of the sources at hand; the
accessors that the method calls are the fields of the record below. -/

/-- The member `sg_` as the method reads it: `n_edges()`, `from_vertex(i)`,
`to_vertex(i)`, `coefficient(i)` and `length(i)`. -/
structure SpringGraph where
  n_edges : Nat
  from_vertex : Nat → Int
  to_vertex : Nat → Int
  coefficient : Nat → ℚ
  length : Nat → ℚ

/-- The members of `MassSpringSystemT` that the method uses: the spring graph `sg_`
and the shared pointer `msp_`, which is `none` when it is null. -/
structure MassSpringSystemT where
  sg_ : SpringGraph
  msp_ : Option MassSpringProblem2DSparse

namespace MassSpringSystemT

/-- The statement `msp_.get()->add_spring_element(v_idx0, v_idx1, k, l)`; `none` when
`msp_` is null. -/
def msp_add_spring_element (S : MassSpringSystemT) (v_idx0 v_idx1 : Int) (k l : ℚ) :
    Option MassSpringSystemT :=
  match S.msp_ with
  | none => none
  | some P => some { S with msp_ := some (P.add_spring_element v_idx0 v_idx1 k l) }

/-- The method `add_constrained_spring_elements(_scenario)`.  The factors `1.5`,
`2.0` and `0.8` are the rationals `3/2`, `2` and `4/5`. -/
def add_constrained_spring_elements (S : MassSpringSystemT) (scenario : Int) :
    Option MassSpringSystemT :=
  if scenario = 1 then
    -- for (size_t i = 0; i < sg_.n_edges(); ++i)
    (List.range S.sg_.n_edges).foldlM (fun (S : MassSpringSystemT) i =>
      S.msp_add_spring_element (S.sg_.from_vertex i) (S.sg_.to_vertex i)
        (S.sg_.coefficient i * (3 / 2)) (S.sg_.length i)) S
  else if scenario = 2 then
    (List.range S.sg_.n_edges).foldlM (fun (S : MassSpringSystemT) i =>
      S.msp_add_spring_element (S.sg_.from_vertex i) (S.sg_.to_vertex i)
        (S.sg_.coefficient i * 2) (S.sg_.length i * (4 / 5))) S
  else
    -- std::cout << "Error: Invalid scenario for constrained elements!"
    some S

/-- The problem after the calls `add_spring_element(from_vertex(i), to_vertex(i),
k i, l i)` for the edges `0 .. n - 1`, in order. -/
def add_edges (sg : SpringGraph) (k l : Nat → ℚ) (n : Nat) (P : MassSpringProblem2DSparse) :
    MassSpringProblem2DSparse :=
  (List.range n).foldl (fun P i => P.add_spring_element (sg.from_vertex i) (sg.to_vertex i)
    (k i) (l i)) P

end MassSpringSystemT

/-- A graph with the two edges `(0, 1)` (coefficient `2`, length `1`) and `(1, 0)`
(coefficient `4`, length `5`). -/
def sample_graph : SpringGraph :=
  { n_edges := 2
    from_vertex := fun i => i
    to_vertex := fun i => 1 - i
    coefficient := fun i => 2 + 2 * i
    length := fun i => 1 + 4 * i }

/-- A system over the sample graph whose problem is the anchored two-vertex problem. -/
def sample_system : MassSpringSystemT :=
  { sg_ := sample_graph, msp_ := some anchored_problem }

/-! ## Basic facts about `Except Fault`, loops and vectors -/

theorem int32_def (z : Int) : int32 z = (z + 2147483648) % 4294967296 - 2147483648 := by
  simp only [int32]
  norm_num

/-- An exact value inside the range of `int` is not changed by the wrap. -/
theorem int32_eq (z : Int) (h0 : -2147483648 ≤ z) (h1 : z < 2147483648) : int32 z = z := by
  rw [int32_def]
  omega

theorem ok_bind {α β : Type} (a : α) (f : α → Except Fault β) :
    (Except.ok a >>= f) = f a := rfl

theorem error_bind {α β : Type} (e : Fault) (f : α → Except Fault β) :
    ((Except.error e : Except Fault α) >>= f) = Except.error e := rfl

theorem pure_eq_ok {α : Type} (a : α) : (pure a : Except Fault α) = Except.ok a := rfl

theorem bind_eq_ok {α β : Type} {x : Except Fault α} {f : α → Except Fault β} {b : β}
    (h : (x >>= f) = Except.ok b) : ∃ a, x = Except.ok a ∧ f a = Except.ok b := by
  cases x with
  | error e => simp [error_bind] at h
  | ok a => exact ⟨a, rfl, h⟩

/-- A loop over `0 .. n-1` whose passes all succeed and keep an invariant runs to
the end, and its final state is the one of the loop without checks. -/
theorem foldlM_range_ok {σ : Type} (f : σ → Nat → Except Fault σ) (g : σ → Nat → σ)
    (Inv : σ → Prop) (n : Nat) (s0 : σ) (h0 : Inv s0)
    (hstep : ∀ s i, i < n → Inv s → f s i = Except.ok (g s i) ∧ Inv (g s i)) :
    (List.range n).foldlM f s0 = Except.ok ((List.range n).foldl g s0) ∧
      Inv ((List.range n).foldl g s0) := by
  induction n with
  | zero => exact ⟨rfl, h0⟩
  | succ m ih =>
    have ihm := ih (fun s i hi hs => hstep s i (Nat.lt_succ_of_lt hi) hs)
    have hs := hstep _ m (Nat.lt_succ_self m) ihm.2
    rw [List.range_succ, List.foldlM_append, ihm.1, List.foldl_append]
    simp [ok_bind, pure_eq_ok, hs.1, hs.2]

theorem Vec.read_ok (v : Vec) (i : Int) (h0 : 0 ≤ i) (h1 : i < v.length) :
    Vec.read v i = Except.ok (Vec.get v i) := by
  have h2 : i.toNat < v.length := by omega
  simp [Vec.read, Vec.get, h0, h2]

theorem Vec.write_ok (v : Vec) (i : Int) (a : ℚ) (h0 : 0 ≤ i) (h1 : i < v.length) :
    Vec.write v i a = Except.ok (v.set i.toNat a) := by
  have h2 : i.toNat < v.length := by omega
  simp [Vec.write, h0, h2]

theorem idx_ok {α : Type} (l : List α) (i : Nat) (d : α) (h : i < l.length) :
    idx l i = Except.ok (l.getD i d) := by
  simp [idx, h]

theorem Vec.addAt_ok (v : Vec) (i : Int) (a : ℚ) (h0 : 0 ≤ i) (h1 : i < v.length) :
    Vec.addAt v i a = Except.ok (v.set i.toNat (Vec.get v i + a)) := by
  simp [Vec.addAt, Vec.read_ok v i h0 h1, ok_bind, Vec.write_ok v i _ h0 h1]

namespace MassSpringProblem2DSparse

theorem load_spring_ok (P : MassSpringProblem2DSparse) (hP : P.Evaluable) (x xe : Vec)
    (hx : (x.length : Int) = P.n_) (hxe : xe.length = 4) (i : Nat)
    (hi : i < P.springs_.length) :
    load_spring P x xe i = Except.ok (P.spring_xe x i, P.spring_coeff i) := by
  obtain ⟨ha, ha1, hb, hb1⟩ := hP.spring_range i hi
  have r0 := Vec.read_ok x (2 * (P.spring i).1) (by omega) (by omega)
  have r1 := Vec.read_ok x (2 * (P.spring i).1 + 1) (by omega) (by omega)
  have r2 := Vec.read_ok x (2 * (P.spring i).2) (by omega) (by omega)
  have r3 := Vec.read_ok x (2 * (P.spring i).2 + 1) (by omega) (by omega)
  have hs := idx_ok P.springs_ i 0 hi
  have hk := idx_ok P.ks_ i 0 (by rw [hP.ks_len]; exact hi)
  have hl := idx_ok P.ls_ i 0 (by rw [hP.ls_len]; exact hi)
  match xe, hxe with
  | [p, q, r, s], _ =>
    simp only [spring, List.getD_eq_getElem?_getD] at r0 r1 r2 r3
    simp [load_spring, hs, hk, hl, ok_bind, r0, r1, r2, r3, Vec.write, pure_eq_ok,
      spring_xe, spring_slots, spring_coeff, spring]

theorem load_anchor_ok (P : MassSpringProblem2DSparse) (hP : P.Evaluable) (x cs_xe : Vec)
    (hx : (x.length : Int) = P.n_) (hxe : cs_xe.length = 2) (i : Nat)
    (hi : i < P.attached_node_indices_.length) :
    load_anchor P x cs_xe i = Except.ok (P.anchor_xe x i, P.anchor_coeff i) := by
  obtain ⟨ha, ha1⟩ := hP.anchor_range i hi
  have r0 := Vec.read_ok x (2 * P.anchor i) (by omega) (by omega)
  have r1 := Vec.read_ok x (2 * P.anchor i + 1) (by omega) (by omega)
  have hs := idx_ok P.attached_node_indices_ i 0 hi
  have hw := idx_ok P.weights_ i 0 (by rw [hP.weights_len]; exact hi)
  match cs_xe, hxe with
  | [p, q], _ =>
    simp only [anchor, List.getD_eq_getElem?_getD] at r0 r1
    simp [load_anchor, hs, hw, ok_bind, r0, r1, Vec.write, pure_eq_ok,
      anchor_xe, anchor_slots, anchor_coeff, anchor]

theorem foldl_range_fst_sum {β : Type} (term : Nat → ℚ) (upd : Nat → β) (n : Nat)
    (e0 : ℚ) (b0 : β) :
    ((List.range n).foldl (fun (st : ℚ × β) i => (st.1 + term i, upd i)) (e0, b0)).1 =
      e0 + ((List.range n).map term).sum := by
  induction n with
  | zero => simp
  | succ m ih =>
    rw [List.range_succ, List.foldl_append, List.map_append, List.sum_append]
    simp [ih, add_assoc]

theorem spring_xe_length (P : MassSpringProblem2DSparse) (x : Vec) (i : Nat) :
    (P.spring_xe x i).length = 4 := rfl

theorem anchor_xe_length (P : MassSpringProblem2DSparse) (x : Vec) (i : Nat) :
    (P.anchor_xe x i).length = 2 := rfl

/-- The spring loop of `eval_f` on an evaluable state. -/
theorem eval_f_spring_loop (P : MassSpringProblem2DSparse) (hP : P.Evaluable) (x : Vec)
    (hx : (x.length : Int) = P.n_) (e0 : ℚ) :
    ∃ xe, (List.range P.springs_.length).foldlM (eval_f_spring P x) (e0, P.xe_) =
      Except.ok (e0 + ((List.range P.springs_.length).map
        (fun i => P.func_.eval_f (P.spring_xe x i) (P.spring_coeff i))).sum, xe) := by
  rcases hP.xe_size with h | h
  · exact ⟨P.xe_, by simp [h, pure_eq_ok]⟩
  · have key := foldlM_range_ok (eval_f_spring P x)
      (fun st i => (st.1 + P.func_.eval_f (P.spring_xe x i) (P.spring_coeff i), P.spring_xe x i))
      (fun st => st.2.length = 4) P.springs_.length (e0, P.xe_) h
      (fun st i hi hst => by
        refine ⟨?_, rfl⟩
        simp [eval_f_spring, load_spring_ok P hP x st.2 hx hst i hi, ok_bind, pure_eq_ok])
    refine ⟨((List.range P.springs_.length).foldl (fun (st : ℚ × Vec) i =>
      (st.1 + P.func_.eval_f (P.spring_xe x i) (P.spring_coeff i), P.spring_xe x i))
      (e0, P.xe_)).2, ?_⟩
    rw [key.1]
    exact congrArg Except.ok (Prod.ext (foldl_range_fst_sum _ _ _ _ _) rfl)

/-- The anchor loop of `eval_f` on an evaluable state. -/
theorem eval_f_anchor_loop (P : MassSpringProblem2DSparse) (hP : P.Evaluable) (x : Vec)
    (hx : (x.length : Int) = P.n_) (e0 : ℚ) :
    ∃ xe, (List.range P.attached_node_indices_.length).foldlM (eval_f_anchor P x)
        (e0, P.cs_xe_) =
      Except.ok (e0 + ((List.range P.attached_node_indices_.length).map
        (fun i => P.cse_.eval_f (P.anchor_xe x i) (P.anchor_coeff i))).sum, xe) := by
  rcases hP.cs_xe_size with h | h
  · exact ⟨P.cs_xe_, by simp [h, pure_eq_ok]⟩
  · have key := foldlM_range_ok (eval_f_anchor P x)
      (fun st i => (st.1 + P.cse_.eval_f (P.anchor_xe x i) (P.anchor_coeff i), P.anchor_xe x i))
      (fun st => st.2.length = 2) P.attached_node_indices_.length (e0, P.cs_xe_) h
      (fun st i hi hst => by
        refine ⟨?_, rfl⟩
        simp [eval_f_anchor, load_anchor_ok P hP x st.2 hx hst i hi, ok_bind, pure_eq_ok])
    refine ⟨((List.range P.attached_node_indices_.length).foldl (fun (st : ℚ × Vec) i =>
      (st.1 + P.cse_.eval_f (P.anchor_xe x i) (P.anchor_coeff i), P.anchor_xe x i))
      (e0, P.cs_xe_)).2, ?_⟩
    rw [key.1]
    exact congrArg Except.ok (Prod.ext (foldl_range_fst_sum _ _ _ _ _) rfl)

/-- On an evaluable state `eval_f` returns, and returns the sum of the local
energies of the stored elements. -/
theorem eval_f_ok (P : MassSpringProblem2DSparse) (hP : P.Evaluable) (x : Vec)
    (hx : (x.length : Int) = P.n_) : eval_f P x = Except.ok (energy_sum P x) := by
  obtain ⟨xe, h1⟩ := eval_f_spring_loop P hP x hx 0
  obtain ⟨cs_xe, h2⟩ := eval_f_anchor_loop P hP x hx
    (0 + ((List.range P.springs_.length).map
        (fun i => P.func_.eval_f (P.spring_xe x i) (P.spring_coeff i))).sum)
  simp only [eval_f]
  rw [h1, ok_bind, h2, ok_bind, pure_eq_ok, energy_sum, zero_add]

theorem addAtD_length (v : Vec) (i : Int) (a : ℚ) : (addAtD v i a).length = v.length := by
  simp [addAtD]

theorem addAt_eq (v : Vec) (i : Int) (a : ℚ) (h0 : 0 ≤ i) (h1 : i < v.length) :
    Vec.addAt v i a = Except.ok (addAtD v i a) := Vec.addAt_ok v i a h0 h1

theorem get_addAtD (v : Vec) (i m : Int) (a : ℚ) (h0 : 0 ≤ i) (h1 : i < v.length) :
    Vec.get (addAtD v i a) m = Vec.get v m + if i = m then a else 0 := by
  have h2 : i.toNat < v.length := by omega
  by_cases hm : 0 ≤ m
  · by_cases him : i = m
    · subst him
      simp [addAtD, Vec.get, hm, h2]
    · have hne : i.toNat ≠ m.toNat := by omega
      simp [addAtD, Vec.get, hm, him, List.getElem?_set, hne]
  · have him : i ≠ m := by omega
    simp [Vec.get, hm, him]

theorem scatter_spring_length (P : MassSpringProblem2DSparse) (x g : Vec) (i : Nat) :
    (scatter_spring P x g i).length = g.length := by
  simp [scatter_spring, addAtD_length]

theorem scatter_anchor_length (P : MassSpringProblem2DSparse) (x g : Vec) (i : Nat) :
    (scatter_anchor P x g i).length = g.length := by
  simp [scatter_anchor, addAtD_length]

theorem get_scatter_spring (P : MassSpringProblem2DSparse) (hP : P.Evaluable) (x g : Vec)
    (hg : (g.length : Int) = P.n_) (i : Nat) (hi : i < P.springs_.length) (m : Int) :
    Vec.get (scatter_spring P x g i) m = Vec.get g m +
      slot_sum (P.spring_slots i)
        (P.func_.eval_gradient (P.spring_xe x i) (P.spring_coeff i)) m := by
  obtain ⟨ha, ha1, hb, hb1⟩ := hP.spring_range i hi
  simp only [scatter_spring]
  rw [get_addAtD _ _ _ _ (by omega) (by simp only [addAtD_length]; omega),
    get_addAtD _ _ _ _ (by omega) (by simp only [addAtD_length]; omega),
    get_addAtD _ _ _ _ (by omega) (by simp only [addAtD_length]; omega),
    get_addAtD _ _ _ _ (by omega) (by omega)]
  simp [slot_sum, spring_slots, List.range_succ]
  ring

theorem get_scatter_anchor (P : MassSpringProblem2DSparse) (hP : P.Evaluable) (x g : Vec)
    (hg : (g.length : Int) = P.n_) (i : Nat) (hi : i < P.attached_node_indices_.length)
    (m : Int) :
    Vec.get (scatter_anchor P x g i) m = Vec.get g m +
      slot_sum (P.anchor_slots i)
        (P.cse_.eval_gradient (P.anchor_xe x i) (P.anchor_coeff i)) m := by
  obtain ⟨ha, ha1⟩ := hP.anchor_range i hi
  simp only [scatter_anchor]
  rw [get_addAtD _ _ _ _ (by omega) (by simp only [addAtD_length]; omega),
    get_addAtD _ _ _ _ (by omega) (by omega)]
  simp [slot_sum, anchor_slots, List.range_succ]
  ring

theorem eval_gradient_spring_ok (P : MassSpringProblem2DSparse) (hP : P.Evaluable)
    (x : Vec) (hx : (x.length : Int) = P.n_) (st : Vec × Vec)
    (hg : (st.1.length : Int) = P.n_) (hxe : st.2.length = 4) (i : Nat)
    (hi : i < P.springs_.length) :
    eval_gradient_spring P x st i = Except.ok (scatter_spring P x st.1 i, P.spring_xe x i) := by
  obtain ⟨ha, ha1, hb, hb1⟩ := hP.spring_range i hi
  have hs := idx_ok P.springs_ i 0 hi
  have e0 := addAt_eq st.1 (2 * (P.spring i).1)
    (P.func_.eval_gradient (P.spring_xe x i) (P.spring_coeff i) 0) (by omega) (by omega)
  have e1 := addAt_eq (addAtD st.1 (2 * (P.spring i).1)
    (P.func_.eval_gradient (P.spring_xe x i) (P.spring_coeff i) 0)) (2 * (P.spring i).1 + 1)
    (P.func_.eval_gradient (P.spring_xe x i) (P.spring_coeff i) 1) (by omega)
    (by simp only [addAtD_length]; omega)
  have e2 := addAt_eq (addAtD (addAtD st.1 (2 * (P.spring i).1)
    (P.func_.eval_gradient (P.spring_xe x i) (P.spring_coeff i) 0)) (2 * (P.spring i).1 + 1)
    (P.func_.eval_gradient (P.spring_xe x i) (P.spring_coeff i) 1)) (2 * (P.spring i).2)
    (P.func_.eval_gradient (P.spring_xe x i) (P.spring_coeff i) 2) (by omega)
    (by simp only [addAtD_length]; omega)
  have e3 := addAt_eq (addAtD (addAtD (addAtD st.1 (2 * (P.spring i).1)
    (P.func_.eval_gradient (P.spring_xe x i) (P.spring_coeff i) 0)) (2 * (P.spring i).1 + 1)
    (P.func_.eval_gradient (P.spring_xe x i) (P.spring_coeff i) 1)) (2 * (P.spring i).2)
    (P.func_.eval_gradient (P.spring_xe x i) (P.spring_coeff i) 2)) (2 * (P.spring i).2 + 1)
    (P.func_.eval_gradient (P.spring_xe x i) (P.spring_coeff i) 3) (by omega)
    (by simp only [addAtD_length]; omega)
  simp only [eval_gradient_spring, load_spring_ok P hP x st.2 hx hxe i hi, ok_bind, hs]
  simp only [spring] at e0 e1 e2 e3
  rw [e0, ok_bind, e1, ok_bind, e2, ok_bind, e3, ok_bind]
  rfl

theorem eval_gradient_anchor_ok (P : MassSpringProblem2DSparse) (hP : P.Evaluable)
    (x : Vec) (hx : (x.length : Int) = P.n_) (st : Vec × Vec)
    (hg : (st.1.length : Int) = P.n_) (hxe : st.2.length = 2) (i : Nat)
    (hi : i < P.attached_node_indices_.length) :
    eval_gradient_anchor P x st i =
      Except.ok (scatter_anchor P x st.1 i, P.anchor_xe x i) := by
  obtain ⟨ha, ha1⟩ := hP.anchor_range i hi
  have hs := idx_ok P.attached_node_indices_ i 0 hi
  have e0 := addAt_eq st.1 (2 * P.anchor i)
    (P.cse_.eval_gradient (P.anchor_xe x i) (P.anchor_coeff i) 0) (by omega) (by omega)
  have e1 := addAt_eq (addAtD st.1 (2 * P.anchor i)
    (P.cse_.eval_gradient (P.anchor_xe x i) (P.anchor_coeff i) 0)) (2 * P.anchor i + 1)
    (P.cse_.eval_gradient (P.anchor_xe x i) (P.anchor_coeff i) 1) (by omega)
    (by simp only [addAtD_length]; omega)
  simp only [eval_gradient_anchor, load_anchor_ok P hP x st.2 hx hxe i hi, ok_bind, hs]
  simp only [anchor] at e0 e1
  rw [e0, ok_bind, e1, ok_bind]
  rfl

theorem foldl_range_scatter (upd : Vec → Nat → Vec) (c : Nat → Vec) (term : Nat → Int → ℚ)
    (N : Int) (n : Nat) (hlen : ∀ g i, (upd g i).length = g.length)
    (hget : ∀ g i m, i < n → (g.length : Int) = N →
      Vec.get (upd g i) m = Vec.get g m + term i m)
    (g0 xe0 : Vec) (hg0 : (g0.length : Int) = N) :
    (((List.range n).foldl (fun (st : Vec × Vec) i => (upd st.1 i, c i)) (g0, xe0)).1.length
        = g0.length) ∧
      ∀ m, Vec.get ((List.range n).foldl (fun (st : Vec × Vec) i => (upd st.1 i, c i))
        (g0, xe0)).1 m = Vec.get g0 m + ((List.range n).map (fun i => term i m)).sum := by
  induction n with
  | zero => simp
  | succ k ih =>
    have ihk := ih (fun g i m hi hg => hget g i m (Nat.lt_succ_of_lt hi) hg)
    rw [List.range_succ, List.foldl_append]
    refine ⟨by simp [hlen, ihk.1], fun m => ?_⟩
    simp only [List.foldl_cons, List.foldl_nil, List.map_append, List.sum_append,
      List.map_cons, List.map_nil, List.sum_cons, List.sum_nil, add_zero]
    rw [hget _ k m (Nat.lt_succ_self k) (by rw [ihk.1]; exact hg0), ihk.2 m, add_assoc]

/-- A scatter loop of `eval_gradient`: if every pass succeeds on states of the
right sizes, the loop returns and has added the part of every pass to every slot. -/
theorem scatter_loop_ok (f : Vec × Vec → Nat → Except Fault (Vec × Vec))
    (upd : Vec → Nat → Vec) (c : Nat → Vec) (term : Nat → Int → ℚ) (N : Int) (k n : Nat)
    (hstep : ∀ st i, i < n → (st.1.length : Int) = N → st.2.length = k →
      f st i = Except.ok (upd st.1 i, c i))
    (hlen : ∀ g i, (upd g i).length = g.length) (hc : ∀ i, (c i).length = k)
    (hget : ∀ g i m, i < n → (g.length : Int) = N →
      Vec.get (upd g i) m = Vec.get g m + term i m)
    (g0 xe0 : Vec) (hg0 : (g0.length : Int) = N) (h0 : n = 0 ∨ xe0.length = k) :
    ∃ r, (List.range n).foldlM f (g0, xe0) = Except.ok r ∧ (r.1.length : Int) = N ∧
      ∀ m, Vec.get r.1 m = Vec.get g0 m + ((List.range n).map (fun i => term i m)).sum := by
  rcases h0 with h0 | h0
  · subst h0
    exact ⟨(g0, xe0), by simp [pure_eq_ok], hg0, by simp⟩
  · have key := foldlM_range_ok f (fun st i => (upd st.1 i, c i))
      (fun st => (st.1.length : Int) = N ∧ st.2.length = k) n (g0, xe0) ⟨hg0, h0⟩
      (fun st i hi hst => ⟨hstep st i hi hst.1 hst.2, by simp [hlen, hst.1, hc]⟩)
    have pure := foldl_range_scatter upd c term N n hlen hget g0 xe0 hg0
    exact ⟨_, key.1, key.2.1, pure.2⟩

theorem get_replicate_zero (n : Nat) (m : Int) : Vec.get (List.replicate n 0) m = 0 := by
  unfold Vec.get
  split
  · rw [List.getD_eq_getElem?_getD]
    cases h : (List.replicate n (0 : ℚ))[m.toNat]? with
    | none => rfl
    | some a =>
      have := List.mem_replicate.1 (List.getElem?_mem h)
      simp [this.2]
  · rfl

/-- On an evaluable state `eval_gradient` returns a vector of length `n_unknowns()`
whose entry `m` is the sum, over the stored springs and anchors, of the local
gradient entries scattered to slot `m`. -/
theorem eval_gradient_ok (P : MassSpringProblem2DSparse) (hP : P.Evaluable) (x : Vec)
    (hx : (x.length : Int) = P.n_) :
    ∃ g, eval_gradient P x = Except.ok g ∧ (g.length : Int) = P.n_unknowns ∧
      ∀ m, Vec.get g m = gradient_sum P x m := by
  have hn : 0 ≤ P.n_ := by omega
  have hz : Vec.zero P.n_unknowns = Except.ok (List.replicate P.n_.toNat 0) := by
    simp [Vec.zero, n_unknowns, hn]
  have hzl : (((List.replicate P.n_.toNat (0 : ℚ)).length : Nat) : Int) = P.n_ := by
    simp [hn]
  obtain ⟨r1, h1, l1, s1⟩ := scatter_loop_ok (eval_gradient_spring P x) (scatter_spring P x)
    (P.spring_xe x)
    (fun i m => slot_sum (P.spring_slots i)
        (P.func_.eval_gradient (P.spring_xe x i) (P.spring_coeff i)) m)
    P.n_ 4 P.springs_.length
    (fun st i hi hg hxe => eval_gradient_spring_ok P hP x hx st hg hxe i hi)
    (scatter_spring_length P x) (spring_xe_length P x)
    (fun g i m hi hg => get_scatter_spring P hP x g hg i hi m)
    (List.replicate P.n_.toNat 0) P.xe_ hzl
    (by rcases hP.xe_size with h | h
        · exact Or.inl (by simp [h])
        · exact Or.inr h)
  obtain ⟨r2, h2, l2, s2⟩ := scatter_loop_ok (eval_gradient_anchor P x) (scatter_anchor P x)
    (P.anchor_xe x)
    (fun i m => slot_sum (P.anchor_slots i)
        (P.cse_.eval_gradient (P.anchor_xe x i) (P.anchor_coeff i)) m)
    P.n_ 2 P.attached_node_indices_.length
    (fun st i hi hg hxe => eval_gradient_anchor_ok P hP x hx st hg hxe i hi)
    (scatter_anchor_length P x) (anchor_xe_length P x)
    (fun g i m hi hg => get_scatter_anchor P hP x g hg i hi m)
    r1.1 P.cs_xe_ l1
    (by rcases hP.cs_xe_size with h | h
        · exact Or.inl (by simp [h])
        · exact Or.inr h)
  refine ⟨r2.1, ?_, l2, fun m => ?_⟩
  · simp only [eval_gradient]
    rw [hz, ok_bind, h1, ok_bind, h2, ok_bind, pure_eq_ok]
  · rw [s2 m, s1 m, get_replicate_zero, zero_add, gradient_sum]

theorem foldl_range_append {β : Type} (blk : Nat → List T) (upd : Nat → β) (n : Nat)
    (ts0 : List T) (b0 : β) :
    ((List.range n).foldl (fun (st : List T × β) i => (st.1 ++ blk i, upd i)) (ts0, b0)).1 =
      ts0 ++ (List.range n).flatMap blk := by
  induction n with
  | zero => simp
  | succ m ih =>
    rw [List.range_succ, List.foldl_append, List.flatMap_append]
    simp [ih, List.append_assoc]

theorem eval_hessian_spring_ok (P : MassSpringProblem2DSparse) (hP : P.Evaluable) (x : Vec)
    (hx : (x.length : Int) = P.n_) (st : List T × Vec) (hxe : st.2.length = 4) (i : Nat)
    (hi : i < P.springs_.length) :
    eval_hessian_spring P x st i =
      Except.ok (st.1 ++ P.spring_block x i, P.spring_xe x i) := by
  obtain ⟨ha, ha1, hb, hb1⟩ := hP.spring_range i hi
  have r0 := Vec.read_ok x (2 * (P.spring i).1) (by omega) (by omega)
  have r1 := Vec.read_ok x (2 * (P.spring i).1 + 1) (by omega) (by omega)
  have r2 := Vec.read_ok x (2 * (P.spring i).2) (by omega) (by omega)
  have r3 := Vec.read_ok x (2 * (P.spring i).2 + 1) (by omega) (by omega)
  have hs := idx_ok P.springs_ i 0 hi
  have hk := idx_ok P.ks_ i 0 (by rw [hP.ks_len]; exact hi)
  have hl := idx_ok P.ls_ i 0 (by rw [hP.ls_len]; exact hi)
  obtain ⟨ts, xe⟩ := st
  match xe, hxe with
  | [p, q, r, s], _ =>
    simp only [spring, List.getD_eq_getElem?_getD] at r0 r1 r2 r3
    simp [eval_hessian_spring, hs, hk, hl, ok_bind, r0, r1, r2, r3, Vec.write, pure_eq_ok,
      spring_block, spring_xe, spring_slots, spring_coeff, spring]

theorem eval_hessian_anchor_ok (P : MassSpringProblem2DSparse) (hP : P.Evaluable) (x : Vec)
    (hx : (x.length : Int) = P.n_) (st : List T × Vec) (hxe : st.2.length = 2) (i : Nat)
    (hi : i < P.attached_node_indices_.length) :
    eval_hessian_anchor P x st i =
      Except.ok (st.1 ++ P.anchor_block x i, P.anchor_xe x i) := by
  obtain ⟨ha, ha1⟩ := hP.anchor_range i hi
  have r0 := Vec.read_ok x (2 * P.anchor i) (by omega) (by omega)
  have r1 := Vec.read_ok x (2 * P.anchor i + 1) (by omega) (by omega)
  have hs := idx_ok P.attached_node_indices_ i 0 hi
  have hw := idx_ok P.weights_ i 0 (by rw [hP.weights_len]; exact hi)
  obtain ⟨ts, xe⟩ := st
  match xe, hxe with
  | [p, q], _ =>
    simp only [anchor, List.getD_eq_getElem?_getD] at r0 r1
    simp [eval_hessian_anchor, hs, hw, ok_bind, r0, r1, Vec.write, pure_eq_ok,
      anchor_block, anchor_xe, anchor_slots, anchor_coeff, anchor]

/-- On an evaluable state the triplet list of `eval_hessian` is the list of the
element blocks. -/
theorem eval_hessian_triplets_ok (P : MassSpringProblem2DSparse) (hP : P.Evaluable)
    (x : Vec) (hx : (x.length : Int) = P.n_) :
    eval_hessian_triplets P x = Except.ok (P.triplets_all x) := by
  have k1 : (List.range P.ks_.length).foldlM (eval_hessian_spring P x) ([], P.xe_) =
      Except.ok ((List.range P.springs_.length).foldl (fun (st : List T × Vec) i =>
        (st.1 ++ P.spring_block x i, P.spring_xe x i)) ([], P.xe_)) := by
    rw [hP.ks_len]
    rcases hP.xe_size with h | h
    · simp [h, pure_eq_ok]
    · exact (foldlM_range_ok (eval_hessian_spring P x)
        (fun st i => (st.1 ++ P.spring_block x i, P.spring_xe x i))
        (fun st => st.2.length = 4) P.springs_.length ([], P.xe_) h
        (fun st i hi hst => ⟨eval_hessian_spring_ok P hP x hx st hst i hi, rfl⟩)).1
  have k2 : ∀ ts0 : List T, (List.range P.attached_node_indices_.length).foldlM
      (eval_hessian_anchor P x) (ts0, P.cs_xe_) =
      Except.ok ((List.range P.attached_node_indices_.length).foldl
        (fun (st : List T × Vec) i => (st.1 ++ P.anchor_block x i, P.anchor_xe x i))
        (ts0, P.cs_xe_)) := by
    intro ts0
    rcases hP.cs_xe_size with h | h
    · simp [h, pure_eq_ok]
    · exact (foldlM_range_ok (eval_hessian_anchor P x)
        (fun st i => (st.1 ++ P.anchor_block x i, P.anchor_xe x i))
        (fun st => st.2.length = 2) P.attached_node_indices_.length (ts0, P.cs_xe_) h
        (fun st i hi hst => ⟨eval_hessian_anchor_ok P hP x hx st hst i hi, rfl⟩)).1
  simp only [eval_hessian_triplets]
  rw [k1, ok_bind, k2, ok_bind, pure_eq_ok, foldl_range_append, foldl_range_append,
    List.nil_append, triplets_all]

theorem triplets_all_range (P : MassSpringProblem2DSparse) (hP : P.Evaluable) (x : Vec) :
    ∀ t ∈ P.triplets_all x, 0 ≤ t.row ∧ t.row < P.n_ ∧ 0 ≤ t.col ∧ t.col < P.n_ := by
  intro t ht
  simp only [triplets_all, List.mem_append, List.mem_flatMap, List.mem_range] at ht
  rcases ht with ⟨i, hi, ht⟩ | ⟨i, hi, ht⟩
  · obtain ⟨ha, ha1, hb, hb1⟩ := hP.spring_range i hi
    simp only [spring_block, spring_triplets, List.mem_cons, List.mem_singleton,
      List.mem_nil_iff, or_false] at ht
    rcases ht with h | h | h | h | h | h | h | h | h | h | h | h | h | h | h | h <;>
      subst h <;> refine ⟨?_, ?_, ?_, ?_⟩ <;> simp only [] <;> omega
  · obtain ⟨ha, ha1⟩ := hP.anchor_range i hi
    simp only [anchor_block, anchor_triplets, List.mem_cons, List.mem_singleton,
      List.mem_nil_iff, or_false] at ht
    rcases ht with h | h | h | h <;>
      subst h <;> refine ⟨?_, ?_, ?_, ?_⟩ <;> simp only [] <;> omega

/-- On an evaluable state `eval_hessian` returns an `n × n` matrix whose
coefficient at `(r, c)` is the sum of the values of the triplets of the element blocks
at `(r, c)`. -/
theorem eval_hessian_ok (P : MassSpringProblem2DSparse) (hP : P.Evaluable) (x : Vec)
    (hx : (x.length : Int) = P.n_) :
    ∃ H, eval_hessian P x = Except.ok H ∧ H.rows = P.n_unknowns.toNat ∧
      H.cols = P.n_unknowns.toNat ∧ ∀ r c, H.coeff r c = tripletSum (P.triplets_all x) r c := by
  have hn : 0 ≤ P.n_ := by omega
  refine ⟨{ rows := P.n_.toNat, cols := P.n_.toNat, coeff := tripletSum (P.triplets_all x) },
    ?_, rfl, rfl, fun r c => rfl⟩
  simp only [eval_hessian]
  rw [eval_hessian_triplets_ok P hP x hx, ok_bind, SMat.setFromTriplets, n_unknowns,
    if_pos ⟨hn, triplets_all_range P hP x⟩]

theorem spring_block_length (P : MassSpringProblem2DSparse) (x : Vec) (i : Nat) :
    (P.spring_block x i).length = 16 := rfl

theorem anchor_block_length (P : MassSpringProblem2DSparse) (x : Vec) (i : Nat) :
    (P.anchor_block x i).length = 4 := rfl

/-- The block of a spring is the list of all `(slot[p], slot[q], he(p, q))`,
`p, q = 0 .. 3`, row by row. -/
theorem spring_block_entries (P : MassSpringProblem2DSparse) (x : Vec) (i : Nat) :
    P.spring_block x i = (List.range 4).flatMap (fun p => (List.range 4).map (fun q =>
      ({ row := (P.spring_slots i).getD p 0, col := (P.spring_slots i).getD q 0,
         value := P.func_.eval_hessian (P.spring_xe x i) (P.spring_coeff i) p q } : T))) := by
  rfl

/-- The block of an anchor is the list of all `(slot[p], slot[q], cs_he(p, q))`,
`p, q = 0 .. 1`, row by row. -/
theorem anchor_block_entries (P : MassSpringProblem2DSparse) (x : Vec) (i : Nat) :
    P.anchor_block x i = (List.range 2).flatMap (fun p => (List.range 2).map (fun q =>
      ({ row := (P.anchor_slots i).getD p 0, col := (P.anchor_slots i).getD q 0,
         value := P.cse_.eval_hessian (P.anchor_xe x i) (P.anchor_coeff i) p q } : T))) := by
  rfl

theorem flatMap_length_const {α : Type} (f : Nat → List α) (c n : Nat)
    (h : ∀ i, (f i).length = c) : ((List.range n).flatMap f).length = c * n := by
  induction n with
  | zero => simp
  | succ m ih =>
    rw [List.range_succ, List.flatMap_append, List.length_append, ih]
    simp [h, Nat.mul_succ]

theorem triplets_all_length (P : MassSpringProblem2DSparse) (x : Vec) :
    (P.triplets_all x).length =
      16 * P.springs_.length + 4 * P.attached_node_indices_.length := by
  rw [triplets_all, List.length_append,
    flatMap_length_const _ 16 _ (spring_block_length P x),
    flatMap_length_const _ 4 _ (anchor_block_length P x)]

end MassSpringProblem2DSparse

/-! ## States that cannot and states that can be evaluated -/


namespace MassSpringProblem2DSparse

theorem foldlM_range_first_fault {σ : Type} (f : σ → Nat → Except Fault σ) (s0 : σ) (n : Nat)
    (hn : 0 < n) (h0 : ∀ r, f s0 0 ≠ Except.ok r) :
    ∀ r, (List.range n).foldlM f s0 ≠ Except.ok r := by
  intro r h
  obtain ⟨m, rfl⟩ : ∃ m, n = m + 1 := ⟨n - 1, by omega⟩
  rw [List.range_succ_eq_map, List.foldlM_cons] at h
  obtain ⟨s1, h1, _⟩ := bind_eq_ok h
  exact h0 s1 h1

theorem load_anchor_faults (P : MassSpringProblem2DSparse) (x : Vec) (i : Nat) :
    ∀ r, load_anchor P x [] i ≠ Except.ok r := by
  intro r h
  simp only [load_anchor] at h
  obtain ⟨v, _, h⟩ := bind_eq_ok h
  obtain ⟨a, _, h⟩ := bind_eq_ok h
  obtain ⟨xe, hw, _⟩ := bind_eq_ok h
  simp [Vec.write] at hw

/-- Once an anchor is stored and `cs_xe_` is empty, as the constructor leaves it,
none of the three evaluators returns. -/
theorem anchor_faults (P : MassSpringProblem2DSparse) (x : Vec) (hcs : P.cs_xe_ = [])
    (ha : P.attached_node_indices_ ≠ []) :
    (∀ e, eval_f P x ≠ Except.ok e) ∧ (∀ g, eval_gradient P x ≠ Except.ok g) ∧
      (∀ H, eval_hessian P x ≠ Except.ok H) := by
  have hn : 0 < P.attached_node_indices_.length := List.length_pos.2 ha
  refine ⟨?_, ?_, ?_⟩
  · intro e h
    simp only [eval_f] at h
    obtain ⟨st, _, h⟩ := bind_eq_ok h
    obtain ⟨st2, h2, _⟩ := bind_eq_ok h
    rw [hcs] at h2
    refine foldlM_range_first_fault (eval_f_anchor P x) (st.1, []) _ hn ?_ st2 h2
    intro r hr
    simp only [eval_f_anchor] at hr
    obtain ⟨p, hp, _⟩ := bind_eq_ok hr
    exact load_anchor_faults P x 0 p hp
  · intro g h
    simp only [eval_gradient] at h
    obtain ⟨g0, _, h⟩ := bind_eq_ok h
    obtain ⟨st, _, h⟩ := bind_eq_ok h
    obtain ⟨st2, h2, _⟩ := bind_eq_ok h
    rw [hcs] at h2
    refine foldlM_range_first_fault (eval_gradient_anchor P x) (st.1, []) _ hn ?_ st2 h2
    intro r hr
    simp only [eval_gradient_anchor] at hr
    obtain ⟨p, hp, _⟩ := bind_eq_ok hr
    exact load_anchor_faults P x 0 p hp
  · intro H h
    simp only [eval_hessian] at h
    obtain ⟨ts, hts, _⟩ := bind_eq_ok h
    simp only [eval_hessian_triplets] at hts
    obtain ⟨st, _, h⟩ := bind_eq_ok hts
    obtain ⟨st2, h2, _⟩ := bind_eq_ok h
    rw [hcs] at h2
    refine foldlM_range_first_fault (eval_hessian_anchor P x) (st.1, []) _ hn ?_ st2 h2
    intro r hr
    simp only [eval_hessian_anchor] at hr
    obtain ⟨v, _, hr⟩ := bind_eq_ok hr
    obtain ⟨a, _, hr⟩ := bind_eq_ok hr
    obtain ⟨xe, hw, _⟩ := bind_eq_ok hr
    simp [Vec.write] at hw

/-- The constructor leaves the anchor scratch vector empty, and neither insertion
method resizes it. -/
theorem cs_xe_stays_empty (spring cse : ParametricFunctionBase) (n : Int)
    (P : MassSpringProblem2DSparse) (i j : Int) (k l w px py : ℚ) :
    (construct spring cse n).cs_xe_ = [] ∧
    (P.add_spring_element i j k l).cs_xe_ = P.cs_xe_ ∧
    (P.add_constrained_spring_element i w px py).cs_xe_ = P.cs_xe_ := by
  refine ⟨rfl, ?_, ?_⟩
  · unfold add_spring_element
    split <;> rfl
  · unfold add_constrained_spring_element
    split <;> rfl

/-- The state the constructor builds for a spring element of four unknowns is
evaluable, and its spring scratch vector has four entries. -/
theorem construct_evaluable (spring cse : ParametricFunctionBase) (n : Int)
    (h4 : spring.n_unknowns = 4) :
    (construct spring cse n).Evaluable ∧ (construct spring cse n).xe_.length = 4 ∧
      (construct spring cse n).n_ = n := by
  refine ⟨?_, by simp [construct, h4], rfl⟩
  constructor
  · rfl
  · rfl
  · rfl
  · intro i hi
    exact absurd hi (Nat.not_lt_zero i)
  · intro i hi
    exact absurd hi (Nat.not_lt_zero i)
  · exact Or.inl rfl
  · exact Or.inl rfl

/-- Adding a spring whose two vertices have both coordinates inside the unknown
vector keeps an evaluable state evaluable. -/
theorem add_spring_element_evaluable (P : MassSpringProblem2DSparse) (hP : P.Evaluable)
    (hxe : P.xe_.length = 4) (i j : Int) (k l : ℚ)
    (hi : 0 ≤ i ∧ 2 * i + 1 < P.n_) (hj : 0 ≤ j ∧ 2 * j + 1 < P.n_) :
    (P.add_spring_element i j k l).Evaluable ∧
      (P.add_spring_element i j k l).xe_.length = 4 ∧
      (P.add_spring_element i j k l).n_ = P.n_ := by
  have hg : ¬ (int32 (2 * i) > P.n_ ∨ i < 0 ∨ int32 (2 * j) ≥ P.n_ ∨ j < 0) := by
    rw [int32_def, int32_def]
    omega
  simp only [add_spring_element, if_neg hg]
  refine ⟨?_, hxe, trivial⟩
  constructor
  · simp [hP.ks_len]
  · simp [hP.ls_len]
  · exact hP.weights_len
  · intro m hm
    simp only [List.length_append, List.length_singleton] at hm
    by_cases hlt : m < P.springs_.length
    · have := hP.spring_range m hlt
      simpa [spring, List.getElem?_append_left hlt] using this
    · have hm2 : m = P.springs_.length := by omega
      subst hm2
      simp [spring, hi.1, hi.2, hj.1, hj.2]
  · exact hP.anchor_range
  · exact Or.inr hxe
  · exact hP.cs_xe_size

end MassSpringProblem2DSparse

/-! ## Facts about the line search and the solver -/

theorem backtracking_loop_armijo (problem : Problem) (x dx : Vec)
    (f_x grad_dot_dx alpha tau : ℚ) (fuel : Nat) :
    ∀ t0 t, backtracking_loop problem x dx f_x grad_dot_dx alpha tau fuel t0 = Except.ok t →
      ∃ x_new, Vec.add x (Vec.smul t dx) = Except.ok x_new ∧
        problem.eval_f x_new ≤ f_x + alpha * t * grad_dot_dx := by
  induction fuel with
  | zero => intro t0 t h; simp [backtracking_loop] at h
  | succ n ih =>
    intro t0 t h
    simp only [backtracking_loop] at h
    obtain ⟨x_new, hx, h⟩ := bind_eq_ok h
    split at h
    · injection h with h
      subst h
      exact ⟨x_new, hx, by assumption⟩
    · exact ih _ _ h

/-- A step returned with some fuel is returned with any larger fuel. -/
theorem backtracking_loop_mono (problem : Problem) (x dx : Vec)
    (f_x grad_dot_dx alpha tau : ℚ) (fuel : Nat) :
    ∀ t0 t, backtracking_loop problem x dx f_x grad_dot_dx alpha tau fuel t0 = Except.ok t →
      ∀ more, backtracking_loop problem x dx f_x grad_dot_dx alpha tau (fuel + more) t0 =
        Except.ok t := by
  induction fuel with
  | zero => intro t0 t h; simp [backtracking_loop] at h
  | succ n ih =>
    intro t0 t h more
    rw [show n + 1 + more = (n + more) + 1 by omega]
    simp only [backtracking_loop] at h ⊢
    obtain ⟨x_new, hx, h⟩ := bind_eq_ok h
    rw [hx, ok_bind]
    split at h
    · rename_i hc
      rw [if_pos hc]
      exact h
    · rename_i hc
      rw [if_neg hc]
      exact ih _ _ h more

theorem quad_line_search :
    backtracking_line_search 6 quad [1] [4] [-4] 1 (1 / 2) (3 / 4) = Except.ok (243 / 1024) := by
  simp [backtracking_line_search, backtracking_loop, Vec.dot, Vec.add, Vec.smul, quad, ok_bind]
  norm_num

theorem solve_body_stop (lsFuel : Nat) (problem : Problem) (e2 : ℚ) (s : SolveState)
    (h : Vec.squaredNorm (problem.eval_gradient s.x) < e2) :
    solve_body lsFuel problem e2 s =
      Except.ok (true, { x := s.x, alpha := s.alpha, log := s.log ++ [Event.eval_gradient s.x] }) := by
  simp [solve_body, h, pure_eq_ok]

theorem solve_body_go (lsFuel : Nat) (problem : Problem) (e2 : ℚ) (s : SolveState)
    (h : ¬ Vec.squaredNorm (problem.eval_gradient s.x) < e2) :
    solve_body lsFuel problem e2 s =
      (backtracking_line_search lsFuel problem s.x (problem.eval_gradient s.x)
          [problem.eval_f s.x] s.alpha default_alpha default_tau >>= fun alpha =>
        Vec.sub s.x (Vec.smul alpha (problem.eval_gradient s.x)) >>= fun x1 =>
          Except.ok (false, { x := x1, alpha := alpha, log := pass_log problem s alpha x1 })) := by
  simp only [solve_body, if_neg h, pass_log]
  rfl

theorem Vec.sub_ok (a b : Vec) (h : a.length = b.length) :
    Vec.sub a b = Except.ok (List.zipWith (fun u v => u - v) a b) := by
  simp [Vec.sub, h]

theorem Vec.smul_length (t : ℚ) (v : Vec) : (Vec.smul t v).length = v.length := by
  simp [Vec.smul]

/-- A pass that continues, read backwards. -/
theorem solve_body_continue (lsFuel : Nat) (problem : Problem) (e2 : ℚ) (s s1 : SolveState)
    (h : solve_body lsFuel problem e2 s = Except.ok (false, s1)) :
    ¬ Vec.squaredNorm (problem.eval_gradient s.x) < e2 ∧
    ∃ alpha x1, backtracking_line_search lsFuel problem s.x (problem.eval_gradient s.x)
        [problem.eval_f s.x] s.alpha default_alpha default_tau = Except.ok alpha ∧
      Vec.sub s.x (Vec.smul alpha (problem.eval_gradient s.x)) = Except.ok x1 ∧
      s1 = { x := x1, alpha := alpha, log := pass_log problem s alpha x1 } := by
  by_cases hc : Vec.squaredNorm (problem.eval_gradient s.x) < e2
  · rw [solve_body_stop lsFuel problem e2 s hc] at h
    injection h with h
    simp at h
  · refine ⟨hc, ?_⟩
    rw [solve_body_go lsFuel problem e2 s hc] at h
    obtain ⟨alpha, ha, h⟩ := bind_eq_ok h
    obtain ⟨x1, hx, h⟩ := bind_eq_ok h
    injection h with h
    injection h with _ h
    exact ⟨alpha, x1, ha, hx, h.symm⟩

/-- A pass that breaks, read backwards. -/
theorem solve_body_break (lsFuel : Nat) (problem : Problem) (e2 : ℚ) (s s1 : SolveState)
    (h : solve_body lsFuel problem e2 s = Except.ok (true, s1)) :
    Vec.squaredNorm (problem.eval_gradient s.x) < e2 ∧
      s1 = { x := s.x, alpha := s.alpha, log := s.log ++ [Event.eval_gradient s.x] } := by
  by_cases hc : Vec.squaredNorm (problem.eval_gradient s.x) < e2
  · refine ⟨hc, ?_⟩
    rw [solve_body_stop lsFuel problem e2 s hc] at h
    injection h with h
    injection h with _ h
    exact h.symm
  · rw [solve_body_go lsFuel problem e2 s hc] at h
    obtain ⟨alpha, ha, h⟩ := bind_eq_ok h
    obtain ⟨x1, hx, h⟩ := bind_eq_ok h
    injection h with h
    simp at h

theorem solve_loop_succ (lsFuel : Nat) (problem : Problem) (e2 : ℚ) (n : Nat) (s : SolveState) :
    solve_loop lsFuel problem e2 (n + 1) s =
      (solve_body lsFuel problem e2 s >>= fun r =>
        if r.1 then Except.ok r.2 else solve_loop lsFuel problem e2 n r.2) := rfl

theorem passes_succ (lsFuel : Nat) (problem : Problem) (e2 : ℚ) (k : Nat) (s : SolveState) :
    passes lsFuel problem e2 (k + 1) s =
      (solve_body lsFuel problem e2 s >>= fun r =>
        if r.1 then Except.ok none else passes lsFuel problem e2 k r.2) := rfl

/-- After `k` passes that continue, the loop goes on from the state they reached. -/
theorem solve_loop_passes (lsFuel : Nat) (problem : Problem) (e2 : ℚ) (k : Nat) :
    ∀ (s sk : SolveState) (n : Nat), passes lsFuel problem e2 k s = Except.ok (some sk) →
      solve_loop lsFuel problem e2 (k + n) s = solve_loop lsFuel problem e2 n sk := by
  induction k with
  | zero =>
    intro s sk n h
    simp only [passes] at h
    injection h with h
    injection h with h
    subst h
    simp
  | succ k ih =>
    intro s sk n h
    rw [passes_succ] at h
    obtain ⟨r, hr, h⟩ := bind_eq_ok h
    obtain ⟨b, s1⟩ := r
    cases b with
    | true => simp at h
    | false =>
      simp only [Bool.false_eq_true, if_false] at h
      rw [show k + 1 + n = (k + n) + 1 by omega, solve_loop_succ, hr, ok_bind]
      simp only [Bool.false_eq_true, if_false]
      exact ih s1 sk n h

theorem solve_logged_eq (lsFuel : Nat) (problem : Problem) (initial_x : Vec) (eps : ℚ)
    (max_iters : Int) :
    solve_logged lsFuel problem initial_x eps max_iters =
      solve_loop lsFuel problem (eps * eps) max_iters.toNat (solve_init initial_x) := rfl

theorem solve_eq (lsFuel : Nat) (problem : Problem) (initial_x : Vec) (eps : ℚ)
    (max_iters : Int) :
    solve lsFuel problem initial_x eps max_iters =
      (solve_logged lsFuel problem initial_x eps max_iters >>= fun s => Except.ok s.x) := rfl

theorem two_vertex_evaluable : two_vertex_problem.Evaluable :=
  (MassSpringProblem2DSparse.add_spring_element_evaluable _
    (MassSpringProblem2DSparse.construct_evaluable sample_spring sample_anchor 4 rfl).1
    rfl 0 1 1 1 (by decide) (by decide)).1

theorem quad_line_search_neg :
    backtracking_line_search 4 quad [-1] [-4] [2] 1 default_alpha default_tau =
      Except.ok (27 / 64) := by
  simp [backtracking_line_search, backtracking_loop, Vec.dot, Vec.add, Vec.smul, quad, ok_bind,
    default_alpha, default_tau]
  norm_num

theorem quad_line_search_init :
    backtracking_line_search 4 quad (solve_init [-1]).x
      (quad.eval_gradient (solve_init [-1]).x) [quad.eval_f (solve_init [-1]).x]
      (solve_init [-1]).alpha default_alpha default_tau = Except.ok (27 / 64) := by
  have e1 : quad.eval_gradient (solve_init [-1]).x = [-4] := by
    norm_num [quad, solve_init]
  have e2 : quad.eval_f (solve_init [-1]).x = 2 := by
    norm_num [quad, solve_init]
  rw [e1, e2]
  exact quad_line_search_neg

theorem line_search_count_pass (problem : Problem) (s : SolveState) (alpha : ℚ) (x1 : Vec) :
    line_search_count (pass_log problem s alpha x1) = line_search_count s.log + 1 := by
  simp [pass_log, line_search_count, List.filter_append, List.filter_cons, Event.isLineSearch]

/-- The loop makes at most one line search call per pass it is allowed. -/
theorem solve_loop_count (lsFuel : Nat) (problem : Problem) (e2 : ℚ) (n : Nat) :
    ∀ s r, solve_loop lsFuel problem e2 n s = Except.ok r →
      line_search_count r.log ≤ line_search_count s.log + n := by
  induction n with
  | zero =>
    intro s r h
    simp only [solve_loop] at h
    injection h with h
    subst h
    exact Nat.le_refl _
  | succ n ih =>
    intro s r h
    rw [solve_loop_succ] at h
    obtain ⟨p, hp, h⟩ := bind_eq_ok h
    obtain ⟨b, s1⟩ := p
    cases b with
    | true =>
      simp only [if_true] at h
      injection h with h
      subst h
      obtain ⟨_, e⟩ := solve_body_break lsFuel problem e2 s s1 hp
      rw [e]
      simp [line_search_count, List.filter_append, List.filter_cons, Event.isLineSearch]
    | false =>
      simp only [Bool.false_eq_true, if_false] at h
      obtain ⟨_, alpha, x1, _, _, e⟩ := solve_body_continue lsFuel problem e2 s s1 hp
      have := ih s1 r h
      rw [e] at this
      simp only [line_search_count_pass] at this
      omega

/-- A fault of the loop is the fault of one of its passes. -/
theorem solve_loop_error (lsFuel : Nat) (problem : Problem) (e2 : ℚ) (n : Nat) :
    ∀ s e, solve_loop lsFuel problem e2 n s = Except.error e →
      ∃ k sk, k < n ∧ passes lsFuel problem e2 k s = Except.ok (some sk) ∧
        solve_body lsFuel problem e2 sk = Except.error e := by
  induction n with
  | zero =>
    intro s e h
    simp [solve_loop] at h
  | succ n ih =>
    intro s e h
    rw [solve_loop_succ] at h
    cases hp : solve_body lsFuel problem e2 s with
    | error e1 =>
      rw [hp, error_bind] at h
      injection h with h
      subst h
      exact ⟨0, s, Nat.succ_pos n, rfl, hp⟩
    | ok p =>
      rw [hp, ok_bind] at h
      obtain ⟨b, s1⟩ := p
      cases b with
      | true => simp at h
      | false =>
        simp only [Bool.false_eq_true, if_false] at h
        obtain ⟨k, sk, hk, hpk, hb⟩ := ih s1 e h
        refine ⟨k + 1, sk, Nat.succ_lt_succ hk, ?_, hb⟩
        rw [passes_succ, hp, ok_bind]
        simpa using hpk

theorem half_quad_passes :
    passes 1 half_quad (1 / 100 * (1 / 100)) 1 (solve_init [-1]) =
      Except.ok (some { x := [0], alpha := 1,
                        log := pass_log half_quad (solve_init [-1]) 1 [0] }) := by
  have hc : ¬ Vec.squaredNorm (half_quad.eval_gradient (solve_init [-1]).x) <
      1 / 100 * (1 / 100) := by
    norm_num [Vec.squaredNorm, half_quad, solve_init]
  have hls : backtracking_line_search 1 half_quad (solve_init [-1]).x
      (half_quad.eval_gradient (solve_init [-1]).x) [half_quad.eval_f (solve_init [-1]).x]
      (solve_init [-1]).alpha default_alpha default_tau = Except.ok 1 := by
    simp [backtracking_line_search, backtracking_loop, Vec.dot, Vec.add, Vec.smul, half_quad,
      ok_bind, default_alpha, default_tau, solve_init]
    norm_num
  rw [passes_succ, solve_body_go 1 half_quad _ _ hc, hls, ok_bind]
  norm_num [Vec.sub, Vec.smul, half_quad, solve_init, ok_bind, passes, pass_log]

theorem quad_passes :
    passes 4 quad (1 / 100 * (1 / 100)) 1 (solve_init [-1]) =
      Except.ok (some { x := [11 / 16], alpha := 27 / 64,
                        log := pass_log quad (solve_init [-1]) (27 / 64) [11 / 16] }) := by
  have hc : ¬ Vec.squaredNorm (quad.eval_gradient (solve_init [-1]).x) <
      1 / 100 * (1 / 100) := by
    norm_num [Vec.squaredNorm, quad, solve_init]
  rw [passes_succ, solve_body_go 4 quad _ _ hc, quad_line_search_init, ok_bind]
  norm_num [Vec.sub, Vec.smul, quad, solve_init, ok_bind, passes, pass_log]

/-- The iterates before the one that `k` continuing passes reach all fail the
convergence test. -/
theorem passes_not_converged (lsFuel : Nat) (problem : Problem) (e2 : ℚ) (k : Nat) :
    ∀ (s sk : SolveState), passes lsFuel problem e2 k s = Except.ok (some sk) →
      ∀ j, j < k → ∃ sj, passes lsFuel problem e2 j s = Except.ok (some sj) ∧
        ¬ Vec.squaredNorm (problem.eval_gradient sj.x) < e2 := by
  induction k with
  | zero => intro s sk _ j hj; exact absurd hj (Nat.not_lt_zero j)
  | succ k ih =>
    intro s sk h j hj
    rw [passes_succ] at h
    obtain ⟨r, hr, h⟩ := bind_eq_ok h
    obtain ⟨b, s1⟩ := r
    cases b with
    | true => simp at h
    | false =>
      simp only [Bool.false_eq_true, if_false] at h
      cases j with
      | zero => exact ⟨s, rfl, (solve_body_continue lsFuel problem e2 s s1 hr).1⟩
      | succ j =>
        obtain ⟨sj, hsj, hc⟩ := ih s1 sk h j (Nat.lt_of_succ_lt_succ hj)
        refine ⟨sj, ?_, hc⟩
        rw [passes_succ, hr, ok_bind]
        simpa using hsj

/-- A line search that returns had operands of one size. -/
theorem backtracking_line_search_lengths (fuel : Nat) (problem : Problem) (x g dx : Vec)
    (t0 alpha tau t : ℚ)
    (h : backtracking_line_search fuel problem x g dx t0 alpha tau = Except.ok t) :
    g.length = dx.length ∧ x.length = dx.length := by
  simp only [backtracking_line_search] at h
  obtain ⟨gd, hgd, h⟩ := bind_eq_ok h
  obtain ⟨x_new, hx, _⟩ := backtracking_loop_armijo problem x dx _ gd alpha tau fuel t0 t h
  constructor
  · by_cases hl : g.length = dx.length
    · exact hl
    · simp [Vec.dot, hl] at hgd
  · by_cases hl : x.length = (Vec.smul t dx).length
    · rw [hl, Vec.smul_length]
    · simp [Vec.add, hl] at hx

/-- A pass faults only when its line search faults. -/
theorem solve_body_error (lsFuel : Nat) (problem : Problem) (e2 : ℚ) (s : SolveState)
    (e : Fault) (h : solve_body lsFuel problem e2 s = Except.error e) :
    ¬ Vec.squaredNorm (problem.eval_gradient s.x) < e2 ∧
    backtracking_line_search lsFuel problem s.x (problem.eval_gradient s.x)
        [problem.eval_f s.x] s.alpha default_alpha default_tau = Except.error e := by
  by_cases hc : Vec.squaredNorm (problem.eval_gradient s.x) < e2
  · rw [solve_body_stop lsFuel problem e2 s hc] at h
    exact absurd h (by simp)
  · refine ⟨hc, ?_⟩
    rw [solve_body_go lsFuel problem e2 s hc] at h
    cases hls : backtracking_line_search lsFuel problem s.x (problem.eval_gradient s.x)
        [problem.eval_f s.x] s.alpha default_alpha default_tau with
    | error e1 =>
      rw [hls, error_bind] at h
      injection h with h
      rw [h]
    | ok alpha =>
      rw [hls, ok_bind] at h
      obtain ⟨hg, hx⟩ := backtracking_line_search_lengths _ _ _ _ _ _ _ _ _ hls
      rw [Vec.sub_ok _ _ (by rw [Vec.smul_length, hx, hg]), ok_bind] at h
      exact absurd h (by simp)

/-! ## Facts about the insertion methods -/

namespace MassSpringProblem2DSparse

/-- The guard of `add_spring_element` rejects: the state is returned as it is. -/
theorem add_spring_element_rejected (P : MassSpringProblem2DSparse) (i j : Int) (k l : ℚ)
    (h : int32 (2 * i) > P.n_ ∨ i < 0 ∨ int32 (2 * j) ≥ P.n_ ∨ j < 0) :
    P.add_spring_element i j k l = P := by
  simp only [add_spring_element, if_pos h]

/-- The guard of `add_spring_element` accepts: one element is appended to each of
the three spring lists and nothing else changes. -/
theorem add_spring_element_accepted (P : MassSpringProblem2DSparse) (i j : Int) (k l : ℚ)
    (h : ¬ (int32 (2 * i) > P.n_ ∨ i < 0 ∨ int32 (2 * j) ≥ P.n_ ∨ j < 0)) :
    P.add_spring_element i j k l =
      { P with springs_ := P.springs_ ++ [(i, j)], ks_ := P.ks_ ++ [k], ls_ := P.ls_ ++ [l] } := by
  simp only [add_spring_element, if_neg h]

/-- The guard of `add_constrained_spring_element` rejects. -/
theorem add_constrained_spring_element_rejected (P : MassSpringProblem2DSparse) (i : Int)
    (w px py : ℚ) (h : int32 (2 * i) > P.n_ ∨ i < 0) :
    P.add_constrained_spring_element i w px py = P := by
  simp only [add_constrained_spring_element, if_pos h]

/-- The guard of `add_constrained_spring_element` accepts. -/
theorem add_constrained_spring_element_accepted (P : MassSpringProblem2DSparse) (i : Int)
    (w px py : ℚ) (h : ¬ (int32 (2 * i) > P.n_ ∨ i < 0)) :
    P.add_constrained_spring_element i w px py =
      { P with attached_node_indices_ := P.attached_node_indices_ ++ [i],
               weights_ := P.weights_ ++ [w],
               desired_points_ := P.desired_points_ ++ [px] ++ [py] } := by
  simp only [add_constrained_spring_element, if_neg h]

/-- What neither insertion method touches: `n_`, the element models and the
scratch buffers. -/
theorem apply_frame (P : MassSpringProblem2DSparse) (op : Op) :
    (P.apply op).n_ = P.n_ ∧ (P.apply op).func_ = P.func_ ∧ (P.apply op).cse_ = P.cse_ ∧
    (P.apply op).xe_ = P.xe_ ∧ (P.apply op).ge_ = P.ge_ ∧ (P.apply op).he_ = P.he_ ∧
    (P.apply op).cs_xe_ = P.cs_xe_ ∧ (P.apply op).cs_ge_ = P.cs_ge_ ∧
    (P.apply op).cs_he_ = P.cs_he_ := by
  cases op with
  | spring i j k l =>
    simp only [apply, add_spring_element]
    split <;> exact ⟨rfl, rfl, rfl, rfl, rfl, rfl, rfl, rfl, rfl⟩
  | anchor i w px py =>
    simp only [apply, add_constrained_spring_element]
    split <;> exact ⟨rfl, rfl, rfl, rfl, rfl, rfl, rfl, rfl, rfl⟩

/-- A property of the constructed state that every insertion keeps holds of every
built state. -/
theorem build_induction (spring cse : ParametricFunctionBase) (n : Int)
    (Inv : MassSpringProblem2DSparse → Prop) (h0 : Inv (construct spring cse n))
    (hstep : ∀ P op, Inv P → Inv (P.apply op)) :
    ∀ ops, Inv (build spring cse n ops) := by
  intro ops
  unfold build
  generalize construct spring cse n = P0 at h0
  induction ops generalizing P0 with
  | nil => exact h0
  | cons op ops ih => exact ih (P0.apply op) (hstep P0 op h0)

/-- The built state keeps `n_`, the element models and the scratch buffers of the
constructed state. -/
theorem build_frame (spring cse : ParametricFunctionBase) (n : Int) (ops : List Op) :
    (build spring cse n ops).n_ = n ∧ (build spring cse n ops).func_ = spring ∧
    (build spring cse n ops).cse_ = cse ∧
    (build spring cse n ops).xe_ = List.replicate spring.n_unknowns 0 ∧
    (build spring cse n ops).ge_ = List.replicate spring.n_unknowns 0 ∧
    (build spring cse n ops).he_ = (spring.n_unknowns, spring.n_unknowns) ∧
    (build spring cse n ops).cs_xe_ = [] ∧ (build spring cse n ops).cs_ge_ = [] ∧
    (build spring cse n ops).cs_he_ = (0, 0) := by
  refine build_induction spring cse n
    (fun P => P.n_ = n ∧ P.func_ = spring ∧ P.cse_ = cse ∧
      P.xe_ = List.replicate spring.n_unknowns 0 ∧
      P.ge_ = List.replicate spring.n_unknowns 0 ∧
      P.he_ = (spring.n_unknowns, spring.n_unknowns) ∧
      P.cs_xe_ = [] ∧ P.cs_ge_ = [] ∧ P.cs_he_ = (0, 0))
    ⟨rfl, rfl, rfl, rfl, rfl, rfl, rfl, rfl, rfl⟩ ?_ ops
  intro P op h
  obtain ⟨f1, f2, f3, f4, f5, f6, f7, f8, f9⟩ := apply_frame P op
  obtain ⟨h1, h2, h3, h4, h5, h6, h7, h8, h9⟩ := h
  exact ⟨f1.trans h1, f2.trans h2, f3.trans h3, f4.trans h4, f5.trans h5, f6.trans h6,
    f7.trans h7, f8.trans h8, f9.trans h9⟩

end MassSpringProblem2DSparse

namespace MassSpringProblem2DSparse

/-- The constructed state stores nothing, so the guarded ranges hold of it. -/
theorem construct_guardedRanges (spring cse : ParametricFunctionBase) (n : Int) :
    GuardedRanges (construct spring cse n) := by
  constructor
  · intro s hs
    simp [construct] at hs
  · intro v hv
    simp [construct] at hv

/-- Each insertion keeps the guarded ranges. -/
theorem apply_guardedRanges (P : MassSpringProblem2DSparse) (op : Op)
    (h : GuardedRanges P) : GuardedRanges (P.apply op) := by
  obtain ⟨hs, ha⟩ := h
  cases op with
  | spring i j k l =>
    simp only [apply]
    by_cases hg : int32 (2 * i) > P.n_ ∨ i < 0 ∨ int32 (2 * j) ≥ P.n_ ∨ j < 0
    · rw [add_spring_element_rejected P i j k l hg]
      exact ⟨hs, ha⟩
    · rw [add_spring_element_accepted P i j k l hg]
      refine ⟨?_, ha⟩
      intro s hmem
      rcases List.mem_append.1 hmem with h1 | h1
      · exact hs s h1
      · rw [List.mem_singleton] at h1
        subst h1
        show 0 ≤ i ∧ int32 (2 * i) ≤ P.n_ ∧ 0 ≤ j ∧ int32 (2 * j) < P.n_
        omega
  | anchor i w px py =>
    simp only [apply]
    by_cases hg : int32 (2 * i) > P.n_ ∨ i < 0
    · rw [add_constrained_spring_element_rejected P i w px py hg]
      exact ⟨hs, ha⟩
    · rw [add_constrained_spring_element_accepted P i w px py hg]
      refine ⟨hs, ?_⟩
      intro v hmem
      rcases List.mem_append.1 hmem with h1 | h1
      · exact ha v h1
      · rw [List.mem_singleton] at h1
        subst h1
        show 0 ≤ v ∧ int32 (2 * v) ≤ P.n_
        omega

/-- Every built state has the guarded ranges. -/
theorem build_guardedRanges (spring cse : ParametricFunctionBase) (n : Int) (ops : List Op) :
    GuardedRanges (build spring cse n ops) :=
  build_induction spring cse n GuardedRanges (construct_guardedRanges spring cse n)
    apply_guardedRanges ops

end MassSpringProblem2DSparse

/-! ## Facts about derivatives of the assembled energy -/

/-- A sum over a list of functions that each have a derivative at `0` has the sum
of the derivatives as its derivative. -/
theorem hasDerivAt_list_sum {ι : Type} (l : List ι) (F : ι → ℚ → ℚ) (D : ι → ℚ)
    (h : ∀ i ∈ l, HasDerivAt (F i) (D i) 0) :
    HasDerivAt (fun t => (l.map (fun i => F i t)).sum) (l.map D).sum 0 := by
  induction l with
  | nil => simpa using hasDerivAt_const (0 : ℚ) (0 : ℚ)
  | cons a l ih =>
    have h1 := h a (List.mem_cons_self a l)
    have h2 := ih (fun i hi => h i (List.mem_cons_of_mem a hi))
    simpa using h1.add h2

/-- A function with derivative `D` at `0` has central differences that tend to `D`. -/
theorem central_difference_tendsto (E : ℚ → ℚ) (D : ℚ) (h : HasDerivAt E D 0) :
    Filter.Tendsto (fun s : ℚ => (E s - E (-s)) / (2 * s)) (nhdsWithin 0 {0}ᶜ) (nhds D) := by
  have hneg : HasDerivAt (fun s : ℚ => E (-s)) (-D) 0 := by
    have h0 : HasDerivAt E D (-(0 : ℚ)) := by simpa using h
    have := HasDerivAt.comp (0 : ℚ) h0 (hasDerivAt_neg (0 : ℚ))
    simpa using this
  have hsub : HasDerivAt (fun s : ℚ => E s - E (-s)) (D - -D) 0 := h.sub hneg
  have hs := hasDerivAt_iff_tendsto_slope.1 hsub
  have hhalf : Filter.Tendsto (fun s : ℚ => slope (fun s : ℚ => E s - E (-s)) 0 s / 2)
      (nhdsWithin 0 {0}ᶜ) (nhds ((D - -D) / 2)) := hs.div_const 2
  have hD : (D - -D) / 2 = D := by ring
  rw [hD] at hhalf
  refine hhalf.congr ?_
  intro s
  simp only [slope, vsub_eq_sub, sub_zero, neg_zero, sub_self, smul_eq_mul]
  by_cases hs0 : s = 0
  · subst hs0; simp
  · field_simp
    left
    ring

namespace MassSpringProblem2DSparse

/-- The coordinates that an element reads from `x` after `x[m] += t`. -/
theorem map_get_addAtD (x : Vec) (m : Int) (t : ℚ) (h0 : 0 ≤ m) (h1 : m < x.length)
    (sl : List Int) :
    sl.map (Vec.get (addAtD x m t)) =
      List.zipWith (fun u v => u + t * v) (sl.map (Vec.get x))
        (sl.map (fun s => if m = s then (1 : ℚ) else 0)) := by
  induction sl with
  | nil => rfl
  | cons s sl ih =>
    simp only [List.map_cons, List.zipWith_cons_cons, ih, get_addAtD x m s t h0 h1]
    congr 1
    split <;> ring

/-- Along the coordinate `m` the energy sum has the gradient sum as its derivative,
when both local elements are consistent. -/
theorem energy_sum_hasDerivAt (P : MassSpringProblem2DSparse) (x : Vec) (m : Int)
    (h0 : 0 ≤ m) (h1 : m < x.length)
    (hs : Consistent P.func_ 4) (ha : Consistent P.cse_ 2) :
    HasDerivAt (fun t => energy_sum P (addAtD x m t)) (gradient_sum P x m) 0 := by
  unfold energy_sum gradient_sum
  refine HasDerivAt.add ?_ ?_
  · refine hasDerivAt_list_sum _
      (fun i t => P.func_.eval_f (P.spring_xe (addAtD x m t) i) (P.spring_coeff i)) _ ?_
    intro i _
    have hc := hs (P.spring_xe x i) ((P.spring_slots i).map (fun s => if m = s then (1 : ℚ) else 0))
      (P.spring_coeff i) (by simp [spring_xe, spring_slots]) (by simp [spring_slots])
    have e : (fun t => P.func_.eval_f (P.spring_xe (addAtD x m t) i) (P.spring_coeff i)) =
        fun t : ℚ => P.func_.eval_f (List.zipWith (fun u v => u + t * v) (P.spring_xe x i)
          ((P.spring_slots i).map (fun s => if m = s then (1 : ℚ) else 0))) (P.spring_coeff i) := by
      funext t
      simp only [spring_xe, map_get_addAtD x m t h0 h1]
    show HasDerivAt (fun t => P.func_.eval_f (P.spring_xe (addAtD x m t) i) (P.spring_coeff i))
      _ 0
    rw [e]
    convert hc using 1
    simp [slot_sum, spring_slots, List.range_succ, eq_comm]
  · refine hasDerivAt_list_sum _
      (fun i t => P.cse_.eval_f (P.anchor_xe (addAtD x m t) i) (P.anchor_coeff i)) _ ?_
    intro i _
    have hc := ha (P.anchor_xe x i) ((P.anchor_slots i).map (fun s => if m = s then (1 : ℚ) else 0))
      (P.anchor_coeff i) (by simp [anchor_xe, anchor_slots]) (by simp [anchor_slots])
    have e : (fun t => P.cse_.eval_f (P.anchor_xe (addAtD x m t) i) (P.anchor_coeff i)) =
        fun t : ℚ => P.cse_.eval_f (List.zipWith (fun u v => u + t * v) (P.anchor_xe x i)
          ((P.anchor_slots i).map (fun s => if m = s then (1 : ℚ) else 0))) (P.anchor_coeff i) := by
      funext t
      simp only [anchor_xe, map_get_addAtD x m t h0 h1]
    show HasDerivAt (fun t => P.cse_.eval_f (P.anchor_xe (addAtD x m t) i) (P.anchor_coeff i))
      _ 0
    rw [e]
    convert hc using 1
    simp [slot_sum, anchor_slots, List.range_succ, eq_comm]

end MassSpringProblem2DSparse

/-- A quadratic `A + B t + C t^2` has derivative `B` at `0`. -/
theorem hasDerivAt_quadratic (A B C : ℚ) :
    HasDerivAt (fun t : ℚ => A + B * t + C * t ^ 2) B 0 := by
  have h1 : HasDerivAt (fun t : ℚ => A + B * t) (B * 1) 0 :=
    ((hasDerivAt_id (0 : ℚ)).const_mul B).const_add A
  have h2 : HasDerivAt (fun t : ℚ => C * t ^ 2) (C * (2 * (0 : ℚ) ^ 1 * 1)) 0 := by
    have := ((hasDerivAt_id (0 : ℚ)).pow 2).const_mul C
    simpa using this
  have h := h1.add h2
  simpa using h

theorem sample_spring_consistent : Consistent sample_spring 4 := by
  intro xe d coeff hxe hd
  rcases xe with _ | ⟨a0, _ | ⟨a1, _ | ⟨a2, _ | ⟨a3, _ | ⟨a4, r⟩⟩⟩⟩⟩ <;>
    simp at hxe
  rcases d with _ | ⟨d0, _ | ⟨d1, _ | ⟨d2, _ | ⟨d3, _ | ⟨d4, r⟩⟩⟩⟩⟩ <;>
    simp at hd
  have e : (fun t : ℚ => sample_spring.eval_f
      (List.zipWith (fun u v => u + t * v) [a0, a1, a2, a3] [d0, d1, d2, d3]) coeff) =
      fun t : ℚ => coeff.getD 0 0 / 2 * ((a0 - a2) ^ 2 + (a1 - a3) ^ 2) +
        coeff.getD 0 0 * ((a0 - a2) * (d0 - d2) + (a1 - a3) * (d1 - d3)) * t +
        coeff.getD 0 0 / 2 * ((d0 - d2) ^ 2 + (d1 - d3) ^ 2) * t ^ 2 := by
    funext t
    simp [sample_spring]
    ring
  rw [e]
  convert hasDerivAt_quadratic _ _ _ using 1
  simp [sample_spring, List.range_succ]
  ring

theorem sample_anchor_consistent : Consistent sample_anchor 2 := by
  intro xe d coeff hxe hd
  rcases xe with _ | ⟨a0, _ | ⟨a1, _ | ⟨a2, r⟩⟩⟩ <;> simp at hxe
  rcases d with _ | ⟨d0, _ | ⟨d1, _ | ⟨d2, r⟩⟩⟩ <;> simp at hd
  have e : (fun t : ℚ => sample_anchor.eval_f
      (List.zipWith (fun u v => u + t * v) [a0, a1] [d0, d1]) coeff) =
      fun t : ℚ => coeff.getD 0 0 / 2 * (a0 ^ 2 + a1 ^ 2) +
        coeff.getD 0 0 * (a0 * d0 + a1 * d1) * t +
        coeff.getD 0 0 / 2 * (d0 ^ 2 + d1 ^ 2) * t ^ 2 := by
    funext t
    simp [sample_anchor]
    ring
  rw [e]
  convert hasDerivAt_quadratic _ _ _ using 1
  simp [sample_anchor, List.range_succ]
  ring

/-! ## Facts about the steps of the line search -/

/-- The loop from `t`, when the Armijo test first holds after `K` shrinks: with more
than `K` units of fuel it returns `t * tau ^ K`, with at most `K` it runs out. -/
theorem backtracking_loop_least (problem : Problem) (x g dx : Vec) (alpha tau : ℚ)
    (hx : x.length = dx.length) (K : Nat) :
    ∀ t, armijo problem x g dx alpha (t * tau ^ K) →
      (∀ k, k < K → ¬ armijo problem x g dx alpha (t * tau ^ k)) →
      (∀ fuel, K < fuel →
        backtracking_loop problem x dx (problem.eval_f x)
          (List.zipWith (fun u v => u * v) g dx).sum alpha tau fuel t =
            Except.ok (t * tau ^ K)) ∧
      (∀ fuel, fuel ≤ K →
        backtracking_loop problem x dx (problem.eval_f x)
          (List.zipWith (fun u v => u * v) g dx).sum alpha tau fuel t =
            Except.error Fault.fuel) := by
  have hadd : ∀ t : ℚ, Vec.add x (Vec.smul t dx) =
      Except.ok (List.zipWith (fun u v => u + v) x (Vec.smul t dx)) := by
    intro t
    simp [Vec.add, Vec.smul_length, hx]
  induction K with
  | zero =>
    intro t hK _
    simp only [pow_zero, mul_one] at hK
    constructor
    · intro fuel hf
      obtain ⟨f, rfl⟩ : ∃ f, fuel = f + 1 := ⟨fuel - 1, by omega⟩
      simp only [backtracking_loop, hadd, ok_bind, pow_zero, mul_one]
      exact if_pos hK
    · intro fuel hf
      have : fuel = 0 := by omega
      subst this
      rfl
  | succ K ih =>
    intro t hK hmin
    have h0 : ¬ armijo problem x g dx alpha t := by
      have := hmin 0 (Nat.succ_pos K)
      simpa using this
    simp only [armijo] at h0
    have hK1 : armijo problem x g dx alpha (t * tau * tau ^ K) := by
      have e : t * tau * tau ^ K = t * tau ^ (K + 1) := by ring
      rw [e]
      exact hK
    have hmin1 : ∀ k, k < K → ¬ armijo problem x g dx alpha (t * tau * tau ^ k) := by
      intro k hk
      have e : t * tau * tau ^ k = t * tau ^ (k + 1) := by ring
      rw [e]
      exact hmin (k + 1) (Nat.succ_lt_succ hk)
    obtain ⟨ih1, ih2⟩ := ih (t * tau) hK1 hmin1
    constructor
    · intro fuel hf
      obtain ⟨f, rfl⟩ : ∃ f, fuel = f + 1 := ⟨fuel - 1, by omega⟩
      simp only [backtracking_loop, hadd, ok_bind]
      rw [if_neg h0, ih1 f (by omega)]
      congr 1
      ring
    · intro fuel hf
      cases fuel with
      | zero => rfl
      | succ f =>
        simp only [backtracking_loop, hadd, ok_bind]
        rw [if_neg h0]
        exact ih2 f (by omega)

/-- The line search on operands of one size is its loop from `t0`. -/
theorem backtracking_line_search_eq_loop (fuel : Nat) (problem : Problem) (x g dx : Vec)
    (t0 alpha tau : ℚ) (hg : g.length = dx.length) :
    backtracking_line_search fuel problem x g dx t0 alpha tau =
      backtracking_loop problem x dx (problem.eval_f x)
        (List.zipWith (fun u v => u * v) g dx).sum alpha tau fuel t0 := by
  simp [backtracking_line_search, Vec.dot, hg, ok_bind]

theorem line_search_steps_append (l1 l2 : List Event) :
    line_search_steps (l1 ++ l2) = line_search_steps l1 ++ line_search_steps l2 := by
  induction l1 with
  | nil => rfl
  | cons e l ih =>
    cases e <;> simp [line_search_steps, ih]

theorem line_search_steps_pass (problem : Problem) (s : SolveState) (alpha : ℚ) (x1 : Vec) :
    line_search_steps (pass_log problem s alpha x1) =
      line_search_steps s.log ++ [(s.alpha, alpha)] := by
  simp [pass_log, line_search_steps_append, line_search_steps]

theorem warm_started_append (l : List (ℚ × ℚ)) (t0 r : ℚ) :
    ∀ start, warm_started start l → t0 = last_step start l →
      warm_started start (l ++ [(t0, r)]) ∧ last_step start (l ++ [(t0, r)]) = r := by
  induction l with
  | nil =>
    intro start _ h
    exact ⟨⟨h, trivial⟩, rfl⟩
  | cons a l ih =>
    intro start hw h
    obtain ⟨h1, h2⟩ := ih a.2 hw.2 h
    exact ⟨⟨hw.1, h1⟩, h2⟩

/-- In a warm-started list every search but the first starts from the step returned
by the search before it. -/
theorem warm_started_chain (l : List (ℚ × ℚ)) :
    ∀ start, warm_started start l →
      (∀ a, l[0]? = some a → a.1 = start) ∧
      ∀ (m : Nat) (a b : ℚ × ℚ), l[m]? = some a → l[m + 1]? = some b → b.1 = a.2 := by
  induction l with
  | nil =>
    intro start _
    constructor
    · intro a h
      simp at h
    · intro m a b h
      simp at h
  | cons c l ih =>
    intro start hw
    obtain ⟨ih0, ih1⟩ := ih c.2 hw.2
    constructor
    · intro a h
      simp only [List.getElem?_cons_zero, Option.some.injEq] at h
      rw [← h]
      exact hw.1
    · intro m a b ha hb
      simp only [List.getElem?_cons_succ] at hb
      cases m with
      | zero =>
        simp only [List.getElem?_cons_zero, Option.some.injEq] at ha
        rw [← ha]
        exact ih0 b hb
      | succ m =>
        simp only [List.getElem?_cons_succ] at ha
        exact ih1 m a b ha hb

/-- The loop of `solve` keeps its line searches warm-started, and `alpha` is the step
returned by the last of them. -/
theorem solve_loop_warm (lsFuel : Nat) (problem : Problem) (e2 : ℚ) (n : Nat) :
    ∀ s r, solve_loop lsFuel problem e2 n s = Except.ok r →
      warm_started 1 (line_search_steps s.log) →
      last_step 1 (line_search_steps s.log) = s.alpha →
      warm_started 1 (line_search_steps r.log) ∧
        last_step 1 (line_search_steps r.log) = r.alpha := by
  induction n with
  | zero =>
    intro s r h hw hl
    simp only [solve_loop] at h
    injection h with h
    subst h
    exact ⟨hw, hl⟩
  | succ n ih =>
    intro s r h hw hl
    rw [solve_loop_succ] at h
    obtain ⟨p, hp, h⟩ := bind_eq_ok h
    obtain ⟨b, s1⟩ := p
    cases b with
    | true =>
      simp only [if_true] at h
      injection h with h
      subst h
      obtain ⟨_, hs1⟩ := solve_body_break lsFuel problem e2 s s1 hp
      subst hs1
      simp only [line_search_steps_append, line_search_steps, List.append_nil]
      exact ⟨hw, hl⟩
    | false =>
      simp only [Bool.false_eq_true, if_false] at h
      obtain ⟨_, alpha, x1, _, _, hs1⟩ := solve_body_continue lsFuel problem e2 s s1 hp
      have hstep := warm_started_append (line_search_steps s.log) s.alpha alpha 1 hw hl.symm
      refine ih s1 r h ?_ ?_
      · rw [hs1]
        simp only [line_search_steps_pass]
        exact hstep.1
      · rw [hs1]
        simp only [line_search_steps_pass]
        exact hstep.2

/-- On `ramp` from `x = 0` along `dx = 1` the Armijo test fails at every positive
step. -/
theorem ramp_armijo_fails (t : ℚ) (ht : 0 < t) :
    ¬ armijo ramp [0] [1] [1] default_alpha t := by
  simp only [armijo, ramp, Vec.smul, default_alpha]
  norm_num
  linarith

/-- On `ramp` the loop runs out of every amount of fuel, from every positive step. -/
theorem ramp_loop_no_return (fuel : Nat) :
    ∀ t : ℚ, 0 < t →
      backtracking_loop ramp [0] [1] (ramp.eval_f [0]) 1 default_alpha default_tau fuel t =
        Except.error Fault.fuel := by
  induction fuel with
  | zero => intro t _; rfl
  | succ f ih =>
    intro t ht
    have hadd : Vec.add [0] (Vec.smul t [1]) = Except.ok [t] := by
      simp [Vec.add, Vec.smul]
    have hno : ¬ (ramp.eval_f [t] ≤ ramp.eval_f [0] + default_alpha * t * 1) := by
      simp only [ramp, default_alpha]
      norm_num
      linarith
    simp only [backtracking_loop, hadd, ok_bind]
    rw [if_neg hno]
    exact ih (t * default_tau) (by simp only [default_tau]; positivity)

/-- The first pass of `solve` on `half_quad` from `x = -4`. -/
theorem half_quad_warm_pass1 :
    solve_body 4 half_quad (1 / 100 * (1 / 100)) (solve_init [-4]) =
      Except.ok (false, warm_pass1) := by
  have hc : ¬ Vec.squaredNorm (half_quad.eval_gradient (solve_init [-4]).x) <
      1 / 100 * (1 / 100) := by
    norm_num [Vec.squaredNorm, half_quad, solve_init]
  have hls : backtracking_line_search 4 half_quad (solve_init [-4]).x
      (half_quad.eval_gradient (solve_init [-4]).x) [half_quad.eval_f (solve_init [-4]).x]
      (solve_init [-4]).alpha default_alpha default_tau = Except.ok (27 / 64) := by
    simp [backtracking_line_search, backtracking_loop, Vec.dot, Vec.add, Vec.smul, half_quad,
      ok_bind, default_alpha, default_tau, solve_init]
    norm_num
  rw [solve_body_go 4 half_quad _ _ hc, hls, ok_bind]
  norm_num [Vec.sub, Vec.smul, half_quad, solve_init, ok_bind, warm_pass1]

/-- The second pass of `solve` on `half_quad` from `x = -4`. -/
theorem half_quad_warm_pass2 :
    solve_body 4 half_quad (1 / 100 * (1 / 100)) warm_pass1 =
      Except.ok (false, warm_pass2) := by
  have hc : ¬ Vec.squaredNorm (half_quad.eval_gradient warm_pass1.x) <
      1 / 100 * (1 / 100) := by
    norm_num [Vec.squaredNorm, half_quad, warm_pass1]
  have hls : backtracking_line_search 4 half_quad warm_pass1.x
      (half_quad.eval_gradient warm_pass1.x) [half_quad.eval_f warm_pass1.x]
      warm_pass1.alpha default_alpha default_tau = Except.ok (27 / 64) := by
    simp [backtracking_line_search, backtracking_loop, Vec.dot, Vec.add, Vec.smul, half_quad,
      ok_bind, default_alpha, default_tau, warm_pass1]
    norm_num
  rw [solve_body_go 4 half_quad _ _ hc, hls, ok_bind]
  norm_num [Vec.sub, Vec.smul, half_quad, ok_bind, warm_pass1, warm_pass2]

/-- The run of `solve` on `half_quad` from `x = -4` with two passes allowed. -/
theorem half_quad_warm_run :
    solve_logged 4 half_quad [-4] (1 / 100) 2 = Except.ok warm_pass2 := by
  rw [solve_logged_eq]
  show solve_loop 4 half_quad (1 / 100 * (1 / 100)) (1 + 1) (solve_init [-4]) = _
  rw [solve_loop_succ, half_quad_warm_pass1, ok_bind]
  simp only [Bool.false_eq_true, if_false]
  rw [solve_loop_succ, half_quad_warm_pass2, ok_bind]
  simp only [Bool.false_eq_true, if_false]
  rfl

/-- Passes of `solve` that continue keep the line searches warm-started, and `alpha`
is the step returned by the last of them. -/
theorem passes_warm (lsFuel : Nat) (problem : Problem) (e2 : ℚ) (k : Nat) :
    ∀ s sk, passes lsFuel problem e2 k s = Except.ok (some sk) →
      warm_started 1 (line_search_steps s.log) →
      last_step 1 (line_search_steps s.log) = s.alpha →
      warm_started 1 (line_search_steps sk.log) ∧
        last_step 1 (line_search_steps sk.log) = sk.alpha := by
  induction k with
  | zero =>
    intro s sk h hw hl
    simp only [passes] at h
    injection h with h
    injection h with h
    subst h
    exact ⟨hw, hl⟩
  | succ k ih =>
    intro s sk h hw hl
    rw [passes_succ] at h
    obtain ⟨p, hp, h⟩ := bind_eq_ok h
    obtain ⟨b, s1⟩ := p
    cases b with
    | true => simp at h
    | false =>
      simp only [Bool.false_eq_true, if_false] at h
      obtain ⟨_, alpha, x1, _, _, hs1⟩ := solve_body_continue lsFuel problem e2 s s1 hp
      have hstep := warm_started_append (line_search_steps s.log) s.alpha alpha 1 hw hl.symm
      refine ih s1 sk h ?_ ?_
      · rw [hs1]
        simp only [line_search_steps_pass]
        exact hstep.1
      · rw [hs1]
        simp only [line_search_steps_pass]
        exact hstep.2

/-! ## Facts about the accepted step lengths -/

/-- A step returned by the loop is the starting step times a power of `tau`. -/
theorem backtracking_loop_power (problem : Problem) (x dx : Vec)
    (f_x grad_dot_dx alpha tau : ℚ) (fuel : Nat) :
    ∀ t0 t, backtracking_loop problem x dx f_x grad_dot_dx alpha tau fuel t0 = Except.ok t →
      ∃ K : Nat, t = t0 * tau ^ K := by
  induction fuel with
  | zero => intro t0 t h; simp [backtracking_loop] at h
  | succ n ih =>
    intro t0 t h
    simp only [backtracking_loop] at h
    obtain ⟨x_new, _, h⟩ := bind_eq_ok h
    split at h
    · injection h with h
      subst h
      exact ⟨0, by simp⟩
    · obtain ⟨K, hK⟩ := ih _ _ h
      exact ⟨K + 1, by rw [hK]; ring⟩

/-- A step returned by the line search is the starting step times a power of `tau`. -/
theorem backtracking_line_search_power (fuel : Nat) (problem : Problem) (x g dx : Vec)
    (t0 alpha tau t : ℚ)
    (h : backtracking_line_search fuel problem x g dx t0 alpha tau = Except.ok t) :
    ∃ K : Nat, t = t0 * tau ^ K := by
  simp only [backtracking_line_search] at h
  obtain ⟨gd, _, h⟩ := bind_eq_ok h
  exact backtracking_loop_power problem x dx _ gd alpha tau fuel t0 t h

/-- A pass of `solve` that continues appends one search to the log; the search
starts from `alpha` and returns `alpha` times a power of `tau`. -/
theorem solve_body_continue_steps (lsFuel : Nat) (problem : Problem) (e2 : ℚ)
    (s s1 : SolveState) (h : solve_body lsFuel problem e2 s = Except.ok (false, s1)) :
    line_search_steps s1.log = line_search_steps s.log ++ [(s.alpha, s1.alpha)] ∧
      ∃ K : Nat, s1.alpha = s.alpha * default_tau ^ K := by
  obtain ⟨_, alpha, x1, hls, _, hs1⟩ := solve_body_continue lsFuel problem e2 s s1 h
  obtain ⟨K, hK⟩ := backtracking_line_search_power lsFuel problem s.x _ _ s.alpha
    default_alpha default_tau alpha hls
  rw [hs1]
  exact ⟨line_search_steps_pass problem s alpha x1, K, hK⟩

/-- A pass of `solve` that leaves the loop appends no search to the log. -/
theorem solve_body_break_steps (lsFuel : Nat) (problem : Problem) (e2 : ℚ)
    (s s1 : SolveState) (h : solve_body lsFuel problem e2 s = Except.ok (true, s1)) :
    line_search_steps s1.log = line_search_steps s.log := by
  obtain ⟨_, hs1⟩ := solve_body_break lsFuel problem e2 s s1 h
  rw [hs1]
  simp [line_search_steps_append, line_search_steps]

/-- Every search in the log of the loop of `solve` returns its starting step times a
power of `tau`. -/
theorem solve_loop_shrunk (lsFuel : Nat) (problem : Problem) (e2 : ℚ) (n : Nat) :
    ∀ s r, solve_loop lsFuel problem e2 n s = Except.ok r →
      (∀ p ∈ line_search_steps s.log, ∃ K : Nat, p.2 = p.1 * default_tau ^ K) →
      ∀ p ∈ line_search_steps r.log, ∃ K : Nat, p.2 = p.1 * default_tau ^ K := by
  induction n with
  | zero =>
    intro s r h hs
    simp only [solve_loop] at h
    injection h with h
    subst h
    exact hs
  | succ n ih =>
    intro s r h hs
    rw [solve_loop_succ] at h
    obtain ⟨p, hp, h⟩ := bind_eq_ok h
    obtain ⟨b, s1⟩ := p
    cases b with
    | true =>
      simp only [if_true] at h
      injection h with h
      subst h
      rw [solve_body_break_steps lsFuel problem e2 s s1 hp]
      exact hs
    | false =>
      simp only [Bool.false_eq_true, if_false] at h
      obtain ⟨hlog, hK⟩ := solve_body_continue_steps lsFuel problem e2 s s1 hp
      refine ih s1 r h ?_
      intro q hq
      rw [hlog] at hq
      rcases List.mem_append.1 hq with h1 | h1
      · exact hs q h1
      · rw [List.mem_singleton] at h1
        subst h1
        exact hK

/-- Every search in the log after passes that continue returns its starting step
times a power of `tau`. -/
theorem passes_shrunk (lsFuel : Nat) (problem : Problem) (e2 : ℚ) (k : Nat) :
    ∀ s sk, passes lsFuel problem e2 k s = Except.ok (some sk) →
      (∀ p ∈ line_search_steps s.log, ∃ K : Nat, p.2 = p.1 * default_tau ^ K) →
      ∀ p ∈ line_search_steps sk.log, ∃ K : Nat, p.2 = p.1 * default_tau ^ K := by
  induction k with
  | zero =>
    intro s sk h hs
    simp only [passes] at h
    injection h with h
    injection h with h
    subst h
    exact hs
  | succ k ih =>
    intro s sk h hs
    rw [passes_succ] at h
    obtain ⟨p, hp, h⟩ := bind_eq_ok h
    obtain ⟨b, s1⟩ := p
    cases b with
    | true => simp at h
    | false =>
      simp only [Bool.false_eq_true, if_false] at h
      obtain ⟨hlog, hK⟩ := solve_body_continue_steps lsFuel problem e2 s s1 hp
      refine ih s1 sk h ?_
      intro q hq
      rw [hlog] at hq
      rcases List.mem_append.1 hq with h1 | h1
      · exact hs q h1
      · rw [List.mem_singleton] at h1
        subst h1
        exact hK

/-- In a warm-started list whose searches each return their starting step times a
power of `3/4`, started from a power of `3/4`: every returned step is a positive
power of `3/4` not above the start, and no returned step is above an earlier one. -/
theorem warm_shrunk_steps (l : List (ℚ × ℚ)) :
    ∀ (start : ℚ) (m0 : Nat), start = (3 / 4 : ℚ) ^ m0 → warm_started start l →
      (∀ p ∈ l, ∃ K : Nat, p.2 = p.1 * default_tau ^ K) →
      (∀ p ∈ l, p.2 ≤ start ∧ 0 < p.2 ∧ ∃ m : Nat, p.2 = (3 / 4 : ℚ) ^ m) ∧
        l.Pairwise (fun a b => b.2 ≤ a.2) := by
  induction l with
  | nil =>
    intro start m0 _ _ _
    exact ⟨fun p hp => absurd hp (List.not_mem_nil p), List.Pairwise.nil⟩
  | cons c l ih =>
    intro start m0 hstart hw hs
    obtain ⟨K, hK⟩ := hs c (List.mem_cons_self c l)
    have hc1 : c.1 = start := hw.1
    have hpow : c.2 = (3 / 4 : ℚ) ^ (m0 + K) := by
      rw [hK, hc1, hstart, default_tau, pow_add]
    have hpos : (0 : ℚ) < start := by rw [hstart]; positivity
    have hle : c.2 ≤ start := by
      rw [hK, hc1, default_tau]
      have h1 : ((3 / 4 : ℚ)) ^ K ≤ 1 := pow_le_one₀ (by norm_num) (by norm_num)
      nlinarith
    obtain ⟨ih1, ih2⟩ := ih c.2 (m0 + K) hpow hw.2
      (fun p hp => hs p (List.mem_cons_of_mem c hp))
    constructor
    · intro p hp
      rcases List.mem_cons.1 hp with h1 | h1
      · subst h1
        exact ⟨hle, by rw [hpow]; positivity, m0 + K, hpow⟩
      · obtain ⟨a1, a2, a3⟩ := ih1 p h1
        exact ⟨le_trans a1 hle, a2, a3⟩
    · exact List.Pairwise.cons (fun p hp => (ih1 p hp).1) ih2

/-- The four facts about accepted steps, for a warm-started list of searches that
each return their starting step times a power of `tau`. -/
theorem warm_shrunk_steps_indexed (l : List (ℚ × ℚ)) (hw : warm_started 1 l)
    (hs : ∀ p ∈ l, ∃ K : Nat, p.2 = p.1 * default_tau ^ K) :
    (∀ a, l[0]? = some a → a.2 ≤ 1) ∧
    (∀ (k : Nat) (a b : ℚ × ℚ), l[k]? = some a → l[k + 1]? = some b → b.2 ≤ a.2) ∧
    (∀ (i j : Nat) (a b : ℚ × ℚ), i < j → l[i]? = some a → l[j]? = some b → b.2 ≤ a.2) ∧
    (∀ a ∈ l, 0 < a.2 ∧ ∃ m : Nat, a.2 = (3 / 4 : ℚ) ^ m) := by
  obtain ⟨h1, h2⟩ := warm_shrunk_steps l 1 0 (by simp) hw hs
  have hpair : ∀ (i j : Nat) (a b : ℚ × ℚ), i < j → l[i]? = some a → l[j]? = some b →
      b.2 ≤ a.2 := by
    intro i j a b hij ha hb
    obtain ⟨hi, rfl⟩ := List.getElem?_eq_some_iff.1 ha
    obtain ⟨hj, rfl⟩ := List.getElem?_eq_some_iff.1 hb
    exact List.pairwise_iff_getElem.1 h2 i j hi hj hij
  refine ⟨?_, ?_, hpair, ?_⟩
  · intro a ha
    exact (h1 a (List.getElem?_mem ha)).1
  · intro k a b ha hb
    exact hpair k (k + 1) a b (Nat.lt_succ_self k) ha hb
  · intro a ha
    exact (h1 a ha).2

/-! ## Facts about target points and aligned lists -/

namespace MassSpringProblem2DSparse

/-- The evaluators do not read `desired_points_`. -/
theorem eval_desired_points (P : MassSpringProblem2DSparse) (d : Vec) (x : Vec) :
    eval_f { P with desired_points_ := d } x = eval_f P x ∧
    eval_gradient { P with desired_points_ := d } x = eval_gradient P x ∧
    eval_hessian { P with desired_points_ := d } x = eval_hessian P x :=
  ⟨rfl, rfl, rfl⟩

/-- Calls that agree in everything but the target point lead to states that agree in
everything but `desired_points_`. -/
theorem apply_same_but_target (P Q : MassSpringProblem2DSparse) (a b : Op)
    (h : Op.same_but_target a b)
    (hPQ : Q = { P with desired_points_ := Q.desired_points_ }) :
    Q.apply b = { P.apply a with desired_points_ := (Q.apply b).desired_points_ } := by
  cases a with
  | spring i j k l =>
    cases b with
    | spring i2 j2 k2 l2 =>
      obtain ⟨rfl, rfl, rfl, rfl⟩ := h
      rw [hPQ]
      simp only [apply, add_spring_element]
      split <;> rfl
    | anchor i2 w2 px2 py2 => exact absurd h id
  | anchor i w px py =>
    cases b with
    | spring i2 j2 k2 l2 => exact absurd h id
    | anchor i2 w2 px2 py2 =>
      obtain ⟨rfl, rfl⟩ := h
      rw [hPQ]
      simp only [apply, add_constrained_spring_element]
      split <;> rfl

/-- Sequences of calls that agree in everything but the target points build states
that agree in everything but `desired_points_`. -/
theorem build_same_but_target (spring cse : ParametricFunctionBase) (n : Int)
    (ops ops2 : List Op) (h : List.Forall₂ Op.same_but_target ops ops2) :
    build spring cse n ops2 =
      { build spring cse n ops with
        desired_points_ := (build spring cse n ops2).desired_points_ } := by
  unfold build
  have key : ∀ (P Q : MassSpringProblem2DSparse),
      Q = { P with desired_points_ := Q.desired_points_ } →
      List.foldl apply Q ops2 = { List.foldl apply P ops with
        desired_points_ := (List.foldl apply Q ops2).desired_points_ } := by
    induction h with
    | nil => intro P Q hPQ; exact hPQ
    | cons hab _ ih =>
      intro P Q hPQ
      exact ih (P.apply _) (Q.apply _) (apply_same_but_target P Q _ _ hab hPQ)
  exact key _ _ rfl

theorem construct_aligned (spring cse : ParametricFunctionBase) (n : Int) :
    Aligned (construct spring cse n) :=
  ⟨rfl, rfl, rfl, rfl⟩

/-- Each insertion keeps the parallel lists aligned. -/
theorem apply_aligned (P : MassSpringProblem2DSparse) (op : Op) (h : Aligned P) :
    Aligned (P.apply op) := by
  obtain ⟨h1, h2, h3, h4⟩ := h
  cases op with
  | spring i j k l =>
    simp only [apply, add_spring_element]
    split
    · exact ⟨h1, h2, h3, h4⟩
    · refine ⟨?_, ?_, h3, h4⟩
      · simp only [List.length_append, List.length_singleton, h1]
      · simp only [List.length_append, List.length_singleton, h2]
  | anchor i w px py =>
    simp only [apply, add_constrained_spring_element]
    split
    · exact ⟨h1, h2, h3, h4⟩
    · refine ⟨h1, h2, ?_, ?_⟩
      · simp only [List.length_append, List.length_singleton, h3]
      · simp only [List.length_append, List.length_singleton, h4]
        omega

/-- Every built state has aligned lists. -/
theorem build_aligned (spring cse : ParametricFunctionBase) (n : Int) (ops : List Op) :
    Aligned (build spring cse n ops) :=
  build_induction spring cse n Aligned (construct_aligned spring cse n) apply_aligned ops

end MassSpringProblem2DSparse

theorem idx_in_range {α : Type} (l : List α) (i : Nat) (h : i < l.length) :
    ∃ a, idx l i = Except.ok a := by
  refine ⟨l[i], ?_⟩
  simp [idx, h]

/-- With sized anchor buffers the anchored two-vertex problem has energy `3` at
`x = (1, 0, 0, 2)`, whatever its list of target points. -/
theorem sized_anchored_eval_f (d : Vec) :
    MassSpringProblem2DSparse.eval_f { sized_anchored_problem with desired_points_ := d }
      [1, 0, 0, 2] = Except.ok 3 := by
  simp [MassSpringProblem2DSparse.eval_f, MassSpringProblem2DSparse.eval_f_spring,
    MassSpringProblem2DSparse.eval_f_anchor, MassSpringProblem2DSparse.load_spring,
    MassSpringProblem2DSparse.load_anchor, sized_anchored_problem, anchored_problem,
    two_vertex_problem, MassSpringProblem2DSparse.construct,
    MassSpringProblem2DSparse.add_spring_element,
    MassSpringProblem2DSparse.add_constrained_spring_element, sample_spring, sample_anchor,
    Vec.read, Vec.write, idx, ok_bind, pure_eq_ok, List.range_succ, int32_def]
  norm_num

/-! ## Facts about `add_constrained_spring_elements` -/

namespace MassSpringSystemT

theorem add_edges_succ (sg : SpringGraph) (k l : Nat → ℚ) (n : Nat)
    (P : MassSpringProblem2DSparse) :
    add_edges sg k l (n + 1) P =
      (add_edges sg k l n P).add_spring_element (sg.from_vertex n) (sg.to_vertex n)
        (k n) (l n) := by
  simp [add_edges, List.range_succ, List.foldl_append]

/-- Adding the edges leaves `n_` and the anchor lists as they are. -/
theorem add_edges_frame (sg : SpringGraph) (k l : Nat → ℚ) (n : Nat)
    (P : MassSpringProblem2DSparse) :
    (add_edges sg k l n P).n_ = P.n_ ∧
    (add_edges sg k l n P).attached_node_indices_ = P.attached_node_indices_ ∧
    (add_edges sg k l n P).weights_ = P.weights_ ∧
    (add_edges sg k l n P).desired_points_ = P.desired_points_ := by
  induction n with
  | zero => exact ⟨rfl, rfl, rfl, rfl⟩
  | succ n ih =>
    obtain ⟨h1, h2, h3, h4⟩ := ih
    rw [add_edges_succ]
    simp only [MassSpringProblem2DSparse.add_spring_element]
    split
    · exact ⟨h1, h2, h3, h4⟩
    · exact ⟨h1, h2, h3, h4⟩

/-- Adding edges whose vertices are in range appends one spring per edge, in order. -/
theorem add_edges_valid (sg : SpringGraph) (k l : Nat → ℚ) (P : MassSpringProblem2DSparse)
    (n : Nat)
    (hvalid : ∀ i, i < n → 0 ≤ sg.from_vertex i ∧ 2 * sg.from_vertex i < P.n_ ∧
      0 ≤ sg.to_vertex i ∧ 2 * sg.to_vertex i < P.n_) :
    (add_edges sg k l n P).springs_ =
      P.springs_ ++ (List.range n).map (fun i => (sg.from_vertex i, sg.to_vertex i)) ∧
    (add_edges sg k l n P).ks_ = P.ks_ ++ (List.range n).map k ∧
    (add_edges sg k l n P).ls_ = P.ls_ ++ (List.range n).map l := by
  induction n with
  | zero => simp [add_edges]
  | succ n ih =>
    obtain ⟨h1, h2, h3⟩ := ih (fun i hi => hvalid i (Nat.lt_succ_of_lt hi))
    have hn := (add_edges_frame sg k l n P).1
    have hv := hvalid n (Nat.lt_succ_self n)
    rw [add_edges_succ, MassSpringProblem2DSparse.add_spring_element_accepted _ _ _ _ _
      (by rw [hn, int32_def, int32_def]; omega)]
    simp only [h1, h2, h3, List.range_succ, List.map_append, List.map_cons, List.map_nil,
      List.append_assoc]
    exact ⟨trivial, trivial, trivial⟩

/-- The loop over the edges, when `msp_` points to `P`, returns the system whose
problem is `P` with the edges added. -/
theorem add_loop_some (kf lf : SpringGraph → Nat → ℚ) (n : Nat) (S : MassSpringSystemT)
    (P : MassSpringProblem2DSparse) (hmsp : S.msp_ = some P) :
    (List.range n).foldlM (fun (S : MassSpringSystemT) i =>
      S.msp_add_spring_element (S.sg_.from_vertex i) (S.sg_.to_vertex i)
        (kf S.sg_ i) (lf S.sg_ i)) S =
      some { sg_ := S.sg_, msp_ := some (add_edges S.sg_ (kf S.sg_) (lf S.sg_) n P) } := by
  induction n with
  | zero =>
    obtain ⟨sg, msp⟩ := S
    simp only at hmsp
    subst hmsp
    rfl
  | succ n ih =>
    rw [List.range_succ, List.foldlM_append, ih]
    simp [msp_add_spring_element, add_edges_succ]

/-- Whatever the method returns, the spring graph is the one before the call, and
the problem, if there is one, has the anchor lists it had before the call. -/
theorem add_loop_frame (kf lf : SpringGraph → Nat → ℚ) (n : Nat) :
    ∀ (S S2 : MassSpringSystemT),
      (List.range n).foldlM (fun (S : MassSpringSystemT) i =>
        S.msp_add_spring_element (S.sg_.from_vertex i) (S.sg_.to_vertex i)
          (kf S.sg_ i) (lf S.sg_ i)) S = some S2 →
      S2.sg_ = S.sg_ ∧
      S2.msp_.map (fun Q => (Q.attached_node_indices_, Q.weights_, Q.desired_points_)) =
        S.msp_.map (fun Q => (Q.attached_node_indices_, Q.weights_, Q.desired_points_)) := by
  intro S S2 h
  obtain ⟨sg, msp⟩ := S
  cases msp with
  | none =>
    cases n with
    | zero =>
      simp at h
      subst h
      exact ⟨rfl, rfl⟩
    | succ n =>
      exfalso
      have h1 : ∀ m, (List.range m).foldlM (fun (S : MassSpringSystemT) i =>
          S.msp_add_spring_element (S.sg_.from_vertex i) (S.sg_.to_vertex i)
            (kf S.sg_ i) (lf S.sg_ i)) ({ sg_ := sg, msp_ := none } : MassSpringSystemT) =
          if m = 0 then some { sg_ := sg, msp_ := none } else none := by
        intro m
        induction m with
        | zero => rfl
        | succ m ihm =>
          rw [List.range_succ, List.foldlM_append, ihm]
          by_cases hm : m = 0
          · subst hm
            rfl
          · simp [hm]
      rw [h1 (n + 1)] at h
      simp at h
  | some P =>
    rw [add_loop_some kf lf n { sg_ := sg, msp_ := some P } P rfl] at h
    injection h with h
    subst h
    obtain ⟨_, h2, h3, h4⟩ := add_edges_frame sg (kf sg) (lf sg) n P
    simp [h2, h3, h4]

end MassSpringSystemT

theorem sample_system_valid : ∀ i, i < sample_system.sg_.n_edges →
    0 ≤ sample_system.sg_.from_vertex i ∧
    2 * sample_system.sg_.from_vertex i < anchored_problem.n_unknowns ∧
    0 ≤ sample_system.sg_.to_vertex i ∧
    2 * sample_system.sg_.to_vertex i < anchored_problem.n_unknowns := by
  intro i hi
  have h2 : i < 2 := hi
  have hn : anchored_problem.n_unknowns = 4 := rfl
  rw [hn]
  show 0 ≤ (i : Int) ∧ 2 * (i : Int) < 4 ∧ 0 ≤ 1 - (i : Int) ∧ 2 * (1 - (i : Int)) < 4
  omega

/-! ## The claims -/

/-- Claim C1 fails on the code.  `eval_gradient` yields no gradient for a problem that
holds an anchor: the anchor loop writes `cs_xe_[0]`, and the constructor, which
resizes `xe_`, `ge_` and `he_`, leaves `cs_xe_` empty.  It yields none either for
the spring `(1, 0)` on two unknowns, which the guard `2 * _v_idx0 > n_` of
`add_spring_element` lets in and whose coordinates `x[2]`, `x[3]` do not exist.
No state that holds an anchor and has `cs_xe_` empty, as the constructor leaves
it, gets a gradient.  On every evaluable state and every `x` of length
`n_unknowns()` it returns a vector of that length whose entry `m` is the scatter
sum of the claim. -/
theorem eval_gradient_faults :
    anchored_problem.eval_gradient [0, 0, 0, 2] = Except.error Fault.bounds ∧
    edge_problem.eval_gradient [0, 0] = Except.error Fault.bounds ∧
    (∀ (P : MassSpringProblem2DSparse) (x : Vec), P.cs_xe_ = [] →
      P.attached_node_indices_ ≠ [] → ∀ g, P.eval_gradient x ≠ Except.ok g) ∧
    ∀ (P : MassSpringProblem2DSparse) (x : Vec), P.Evaluable → (x.length : Int) = P.n_ →
      ∃ g, P.eval_gradient x = Except.ok g ∧ (g.length : Int) = P.n_unknowns ∧
        ∀ m, Vec.get g m = P.gradient_sum x m :=
  ⟨rfl, rfl, fun P x hc ha => (MassSpringProblem2DSparse.anchor_faults P x hc ha).2.1,
    fun P x hP hx => MassSpringProblem2DSparse.eval_gradient_ok P hP x hx⟩

theorem eval_gradient_faults_witness :
    ∃ g, two_vertex_problem.eval_gradient [0, 0, 0, 2] = Except.ok g ∧
      (g.length : Int) = two_vertex_problem.n_unknowns ∧
      ∀ m, Vec.get g m = two_vertex_problem.gradient_sum [0, 0, 0, 2] m :=
  eval_gradient_faults.2.2.2 two_vertex_problem [0, 0, 0, 2] two_vertex_evaluable rfl

/-- Claim C2 fails on the code.  `eval_f` yields no energy for a problem that holds an
anchor (the write `cs_xe_[0]` goes to a vector that was never resized) nor for
the spring `(1, 0)` on two unknowns, which `add_spring_element` lets in.  No
state that holds an anchor and has `cs_xe_` empty gets an energy.  On every
evaluable state and every `x` of length `n_unknowns()` it returns the sum of the
local energies of the stored springs and anchors, which is `0` when nothing is
stored. -/
theorem eval_f_faults :
    anchored_problem.eval_f [0, 0, 0, 2] = Except.error Fault.bounds ∧
    edge_problem.eval_f [0, 0] = Except.error Fault.bounds ∧
    (∀ (P : MassSpringProblem2DSparse) (x : Vec), P.cs_xe_ = [] →
      P.attached_node_indices_ ≠ [] → ∀ e, P.eval_f x ≠ Except.ok e) ∧
    (∀ (P : MassSpringProblem2DSparse) (x : Vec), P.Evaluable → (x.length : Int) = P.n_ →
      P.eval_f x = Except.ok (P.energy_sum x)) ∧
    (∀ (P : MassSpringProblem2DSparse) (x : Vec), P.springs_ = [] →
      P.attached_node_indices_ = [] → P.energy_sum x = 0) ∧
    ∀ (spring cse : ParametricFunctionBase) (n : Int) (x : Vec),
      (MassSpringProblem2DSparse.construct spring cse n).eval_f x = Except.ok 0 :=
  ⟨rfl, rfl, fun P x hc ha => (MassSpringProblem2DSparse.anchor_faults P x hc ha).1,
    fun P x hP hx => MassSpringProblem2DSparse.eval_f_ok P hP x hx,
    fun P x hs ha => by simp [MassSpringProblem2DSparse.energy_sum, hs, ha],
    fun _ _ _ _ => rfl⟩

theorem eval_f_faults_witness :
    two_vertex_problem.eval_f [0, 0, 0, 2] =
      Except.ok (two_vertex_problem.energy_sum [0, 0, 0, 2]) ∧
    two_vertex_problem.energy_sum [0, 0, 0, 2] = 2 :=
  ⟨eval_f_faults.2.2.2.1 two_vertex_problem [0, 0, 0, 2] two_vertex_evaluable rfl, by
    have hxe : two_vertex_problem.spring_xe [0, 0, 0, 2] 0 = [0, 0, 0, 2] := rfl
    have hco : two_vertex_problem.spring_coeff 0 = [1, 1] := rfl
    have hs : two_vertex_problem.springs_.length = 1 := rfl
    have ha : two_vertex_problem.attached_node_indices_.length = 0 := rfl
    have hf : two_vertex_problem.func_ = sample_spring := rfl
    rw [MassSpringProblem2DSparse.energy_sum, hs, ha, hf]
    simp only [List.range_succ, List.range_zero, List.nil_append, List.map_cons, List.map_nil,
      List.sum_cons, List.sum_nil, hxe, hco]
    norm_num [sample_spring]⟩

/-- Claim C3 fails on the code.  `eval_hessian` yields no matrix for a problem that
holds an anchor (the write `cs_xe_[0]` goes to a vector that was never resized)
nor for the spring `(1, 0)` on two unknowns, which `add_spring_element` lets in.
No state that holds an anchor and has `cs_xe_` empty gets a matrix.
On every evaluable state and every `x` of length `n_unknowns()` it emits the
sixteen triplets of every stored spring and the four of every stored anchor and
returns the `n x n` matrix whose coefficient at `(r, c)` is the sum of the values
of the emitted triplets at `(r, c)`; the triplets of an element are all
`(slot[p], slot[q], he(p, q))`. -/
theorem eval_hessian_faults :
    anchored_problem.eval_hessian [0, 0, 0, 2] = Except.error Fault.bounds ∧
    edge_problem.eval_hessian [0, 0] = Except.error Fault.bounds ∧
    (∀ (P : MassSpringProblem2DSparse) (x : Vec), P.cs_xe_ = [] →
      P.attached_node_indices_ ≠ [] → ∀ H, P.eval_hessian x ≠ Except.ok H) ∧
    (∀ (P : MassSpringProblem2DSparse) (x : Vec), P.Evaluable → (x.length : Int) = P.n_ →
      P.eval_hessian_triplets x = Except.ok (P.triplets_all x) ∧
      (P.triplets_all x).length =
        16 * P.springs_.length + 4 * P.attached_node_indices_.length ∧
      ∃ H, P.eval_hessian x = Except.ok H ∧ H.rows = P.n_unknowns.toNat ∧
        H.cols = P.n_unknowns.toNat ∧
        ∀ r c, H.coeff r c = tripletSum (P.triplets_all x) r c) ∧
    ∀ (P : MassSpringProblem2DSparse) (x : Vec) (i : Nat),
      P.spring_block x i = (List.range 4).flatMap (fun p => (List.range 4).map (fun q =>
        ({ row := (P.spring_slots i).getD p 0, col := (P.spring_slots i).getD q 0,
           value := P.func_.eval_hessian (P.spring_xe x i) (P.spring_coeff i) p q } : T))) ∧
      P.anchor_block x i = (List.range 2).flatMap (fun p => (List.range 2).map (fun q =>
        ({ row := (P.anchor_slots i).getD p 0, col := (P.anchor_slots i).getD q 0,
           value := P.cse_.eval_hessian (P.anchor_xe x i) (P.anchor_coeff i) p q } : T))) :=
  ⟨rfl, rfl, fun P x hc ha => (MassSpringProblem2DSparse.anchor_faults P x hc ha).2.2,
    fun P x hP hx =>
    ⟨MassSpringProblem2DSparse.eval_hessian_triplets_ok P hP x hx,
      MassSpringProblem2DSparse.triplets_all_length P x,
      MassSpringProblem2DSparse.eval_hessian_ok P hP x hx⟩,
    fun P x i => ⟨MassSpringProblem2DSparse.spring_block_entries P x i,
      MassSpringProblem2DSparse.anchor_block_entries P x i⟩⟩

theorem eval_hessian_faults_witness :
    two_vertex_problem.eval_hessian_triplets [0, 0, 0, 2] =
      Except.ok (two_vertex_problem.triplets_all [0, 0, 0, 2]) ∧
    (two_vertex_problem.triplets_all [0, 0, 0, 2]).length =
      16 * two_vertex_problem.springs_.length +
        4 * two_vertex_problem.attached_node_indices_.length ∧
    ∃ H, two_vertex_problem.eval_hessian [0, 0, 0, 2] = Except.ok H ∧
      H.rows = two_vertex_problem.n_unknowns.toNat ∧
      H.cols = two_vertex_problem.n_unknowns.toNat ∧
      ∀ r c, H.coeff r c = tripletSum (two_vertex_problem.triplets_all [0, 0, 0, 2]) r c :=
  eval_hessian_faults.2.2.2.1 two_vertex_problem [0, 0, 0, 2] two_vertex_evaluable rfl

/-- Claim C5: whenever `backtracking_line_search` returns a step `t`, the operands had
matching sizes and the Armijo condition
`f(x + t * dx) <= f(x) + alpha * t * (g . dx)` holds at `t`; and the step does not
depend on the fuel of the model: any larger fuel returns the same `t`. -/
theorem backtracking_line_search_armijo (fuel : Nat) (problem : Problem) (x g dx : Vec)
    (t0 alpha tau t : ℚ)
    (h : backtracking_line_search fuel problem x g dx t0 alpha tau = Except.ok t) :
    (∃ gd x_new, Vec.dot g dx = Except.ok gd ∧
      Vec.add x (Vec.smul t dx) = Except.ok x_new ∧
      problem.eval_f x_new ≤ problem.eval_f x + alpha * t * gd) ∧
    ∀ more, backtracking_line_search (fuel + more) problem x g dx t0 alpha tau = Except.ok t := by
  simp only [backtracking_line_search] at h ⊢
  obtain ⟨gd, hgd, h⟩ := bind_eq_ok h
  obtain ⟨x_new, hx, hle⟩ := backtracking_loop_armijo problem x dx _ gd alpha tau fuel t0 t h
  refine ⟨⟨gd, x_new, hgd, hx, hle⟩, fun more => ?_⟩
  rw [hgd, ok_bind]
  exact backtracking_loop_mono problem x dx _ gd alpha tau fuel t0 t h more

theorem backtracking_line_search_armijo_witness :
    backtracking_line_search 6 quad [1] [4] [-4] 1 (1 / 2) (3 / 4) = Except.ok (243 / 1024) ∧
    (∃ gd x_new, Vec.dot [4] [-4] = Except.ok gd ∧
      Vec.add [1] (Vec.smul (243 / 1024) [-4]) = Except.ok x_new ∧
      quad.eval_f x_new ≤ quad.eval_f [1] + 1 / 2 * (243 / 1024) * gd) ∧
    ∀ more, backtracking_line_search (6 + more) quad [1] [4] [-4] 1 (1 / 2) (3 / 4) =
      Except.ok (243 / 1024) :=
  ⟨quad_line_search,
    backtracking_line_search_armijo 6 quad [1] [4] [-4] 1 (1 / 2) (3 / 4) (243 / 1024)
      quad_line_search⟩

/-- Claim C6 fails on the code.  `solve` passes the one-entry vector `f_x_vec = [f(x)]`
as the search direction, not the gradient.  On `f(x) = 2 x^2` from `x = -1` the
logged call has direction `[2]` while the gradient is `[-4]`; on an objective
with two unknowns the direction has the wrong size and the first line search
faults, whatever fuel it is given.  In general every pass that continues has
logged a line search with direction `[f(x)]`, and a pass can continue only when
`x` and the gradient have exactly one entry. -/
theorem solve_line_search_direction :
    solve_logged 4 quad [-1] (1 / 100) 1 =
      Except.ok { x := [11 / 16], alpha := 27 / 64,
                  log := [Event.eval_f [-1], Event.eval_gradient [-1], Event.eval_f [-1],
                    Event.line_search [-1] [-4] [2] 1 (1 / 2) (3 / 4) (27 / 64),
                    Event.eval_f [11 / 16]] } ∧
    (∀ lsFuel, solve lsFuel bowl [1, 0] (1 / 100) 10 = Except.error Fault.bounds) ∧
    ∀ lsFuel (problem : Problem) (e2 : ℚ) (s s1 : SolveState),
      solve_body lsFuel problem e2 s = Except.ok (false, s1) →
      (∃ alpha, s1.log = s.log ++ [Event.eval_gradient s.x, Event.eval_f s.x,
          Event.line_search s.x (problem.eval_gradient s.x) [problem.eval_f s.x] s.alpha
            default_alpha default_tau alpha, Event.eval_f s1.x]) ∧
        s.x.length = 1 ∧ (problem.eval_gradient s.x).length = 1 := by
  refine ⟨?_, ?_, ?_⟩
  · have hc : ¬ Vec.squaredNorm (quad.eval_gradient (solve_init [-1]).x) < 1 / 100 * (1 / 100) := by
      norm_num [Vec.squaredNorm, quad, solve_init]
    have hls : backtracking_line_search 4 quad (solve_init [-1]).x
        (quad.eval_gradient (solve_init [-1]).x) [quad.eval_f (solve_init [-1]).x]
        (solve_init [-1]).alpha default_alpha default_tau = Except.ok (27 / 64) := by
      have e1 : quad.eval_gradient (solve_init [-1]).x = [-4] := by
        norm_num [quad, solve_init]
      have e2 : quad.eval_f (solve_init [-1]).x = 2 := by
        norm_num [quad, solve_init]
      rw [e1, e2]
      exact quad_line_search_neg
    rw [solve_logged_eq]
    show solve_loop 4 quad (1 / 100 * (1 / 100)) 1 (solve_init [-1]) = _
    rw [solve_loop_succ, solve_body_go 4 quad _ _ hc, hls, ok_bind]
    norm_num [Vec.sub, Vec.smul, quad, solve_init, ok_bind, solve_loop, pass_log,
      default_alpha, default_tau]
  · intro lsFuel
    have hc : ¬ Vec.squaredNorm (bowl.eval_gradient (solve_init [1, 0]).x) <
        1 / 100 * (1 / 100) := by
      norm_num [Vec.squaredNorm, bowl, solve_init]
    rw [solve_eq, solve_logged_eq]
    show (solve_loop lsFuel bowl (1 / 100 * (1 / 100)) (9 + 1) (solve_init [1, 0]) >>= _) = _
    rw [solve_loop_succ, solve_body_go lsFuel bowl _ _ hc]
    simp [backtracking_line_search, Vec.dot, bowl, solve_init, error_bind]
  · intro lsFuel problem e2 s s1 h
    obtain ⟨_, alpha, x1, hls, _, hs1⟩ := solve_body_continue lsFuel problem e2 s s1 h
    obtain ⟨hg, hx⟩ := backtracking_line_search_lengths _ _ _ _ _ _ _ _ _ hls
    refine ⟨⟨alpha, ?_⟩, hx, hg⟩
    rw [hs1]
    simp [pass_log]

/-- Claim C7: in a pass of the loop of `solve` that does not stop on the convergence
test, if the line search of that pass returns `alpha`, the pass continues with
next iterate exactly `x - alpha * g`, entry by entry and of the same length, where
`g` is the gradient at `x`; the step kept for the next pass is `alpha`. -/
theorem solve_body_next_iterate (lsFuel : Nat) (problem : Problem) (e2 : ℚ) (s : SolveState)
    (alpha : ℚ)
    (hnc : ¬ Vec.squaredNorm (problem.eval_gradient s.x) < e2)
    (hls : backtracking_line_search lsFuel problem s.x (problem.eval_gradient s.x)
      [problem.eval_f s.x] s.alpha default_alpha default_tau = Except.ok alpha) :
    ∃ s1, solve_body lsFuel problem e2 s = Except.ok (false, s1) ∧
      s1.x = List.zipWith (fun u v => u - v) s.x (Vec.smul alpha (problem.eval_gradient s.x)) ∧
      s1.x.length = s.x.length ∧
      (∀ i, i < s.x.length →
        s1.x.getD i 0 = s.x.getD i 0 - alpha * (problem.eval_gradient s.x).getD i 0) ∧
      s1.alpha = alpha := by
  obtain ⟨hg, hx⟩ := backtracking_line_search_lengths _ _ _ _ _ _ _ _ _ hls
  have hlen : s.x.length = (problem.eval_gradient s.x).length := by rw [hx, hg]
  have hsub := Vec.sub_ok s.x (Vec.smul alpha (problem.eval_gradient s.x))
    (by rw [Vec.smul_length]; exact hlen)
  refine ⟨{ x := List.zipWith (fun u v => u - v) s.x (Vec.smul alpha (problem.eval_gradient s.x)),
            alpha := alpha,
            log := pass_log problem s alpha
              (List.zipWith (fun u v => u - v) s.x (Vec.smul alpha (problem.eval_gradient s.x))) },
    ?_, rfl, ?_, ?_, rfl⟩
  · rw [solve_body_go lsFuel problem e2 s hnc, hls, ok_bind, hsub, ok_bind]
  · simp [Vec.smul, hlen]
  · intro i hi
    have hi2 : i < (problem.eval_gradient s.x).length := hlen ▸ hi
    simp [Vec.smul, List.getD_eq_getElem?_getD, List.getElem?_zipWith, hi, hi2]

theorem solve_body_next_iterate_witness :
    ∃ s1, solve_body 4 quad (1 / 10000) (solve_init [-1]) = Except.ok (false, s1) ∧
      s1.x = List.zipWith (fun u v => u - v) (solve_init [-1]).x
        (Vec.smul (27 / 64) (quad.eval_gradient (solve_init [-1]).x)) ∧
      s1.x.length = (solve_init [-1]).x.length ∧
      (∀ i, i < (solve_init [-1]).x.length →
        s1.x.getD i 0 = (solve_init [-1]).x.getD i 0 -
          27 / 64 * (quad.eval_gradient (solve_init [-1]).x).getD i 0) ∧
      s1.alpha = 27 / 64 :=
  solve_body_next_iterate 4 quad (1 / 10000) (solve_init [-1]) (27 / 64)
    (by norm_num [Vec.squaredNorm, quad, solve_init])
    quad_line_search_init

/-- Claim C8: `solve` tests `||g||^2 < eps^2` before every step.  If `k < max_iters`
passes continue from `initial_x` (so none of the first `k` iterates passes the
test) and the iterate `x_k` they reach passes it, `solve` returns `x_k`; if
`initial_x` itself passes it and `max_iters >= 1`, the run is the energy
evaluation and one gradient evaluation, with no line search, and returns
`initial_x`; and a pass whose gradient has `||g||^2 = eps^2` never breaks. -/
theorem solve_stops_at_first_converged (lsFuel : Nat) (problem : Problem) (initial_x : Vec)
    (eps : ℚ) (max_iters : Int) :
    (∀ (k : Nat) (sk : SolveState), (k : Int) < max_iters →
      passes lsFuel problem (eps * eps) k (solve_init initial_x) = Except.ok (some sk) →
      Vec.squaredNorm (problem.eval_gradient sk.x) < eps * eps →
      solve lsFuel problem initial_x eps max_iters = Except.ok sk.x ∧
        ∀ j, j < k → ∃ sj,
          passes lsFuel problem (eps * eps) j (solve_init initial_x) = Except.ok (some sj) ∧
          ¬ Vec.squaredNorm (problem.eval_gradient sj.x) < eps * eps) ∧
    (1 ≤ max_iters → Vec.squaredNorm (problem.eval_gradient initial_x) < eps * eps →
      solve_logged lsFuel problem initial_x eps max_iters =
        Except.ok { x := initial_x, alpha := 1,
                    log := [Event.eval_f initial_x, Event.eval_gradient initial_x] }) ∧
    (∀ s r, Vec.squaredNorm (problem.eval_gradient s.x) = eps * eps →
      solve_body lsFuel problem (eps * eps) s = Except.ok r → r.1 = false) := by
  refine ⟨?_, ?_, ?_⟩
  · intro k sk hk hp hc
    refine ⟨?_, passes_not_converged lsFuel problem _ k _ sk hp⟩
    obtain ⟨n, hn⟩ : ∃ n, max_iters.toNat = k + (n + 1) := ⟨max_iters.toNat - k - 1, by omega⟩
    rw [solve_eq, solve_logged_eq, hn, solve_loop_passes lsFuel problem _ k _ sk (n + 1) hp,
      solve_loop_succ, solve_body_stop lsFuel problem _ sk hc]
    rfl
  · intro h1 hc
    obtain ⟨n, hn⟩ : ∃ n, max_iters.toNat = n + 1 := ⟨max_iters.toNat - 1, by omega⟩
    rw [solve_logged_eq, hn, solve_loop_succ,
      solve_body_stop lsFuel problem _ (solve_init initial_x) hc]
    rfl
  · intro s r hs hr
    have hnc : ¬ Vec.squaredNorm (problem.eval_gradient s.x) < eps * eps := by
      rw [hs]; exact lt_irrefl _
    obtain ⟨b, s1⟩ := r
    cases b with
    | false => rfl
    | true => exact absurd (solve_body_break lsFuel problem _ s s1 hr).1 hnc

theorem solve_stops_at_first_converged_witness :
    solve 1 half_quad [-1] (1 / 100) 5 = Except.ok [0] :=
  ((solve_stops_at_first_converged 1 half_quad [-1] (1 / 100) 5).1 1
    { x := [0], alpha := 1, log := pass_log half_quad (solve_init [-1]) 1 [0] }
    (by norm_num) half_quad_passes (by norm_num [Vec.squaredNorm, half_quad])).1

/-- Claim C9: if `max_iters` passes continue from `initial_x` (every line search
returned and no iterate before the last passed the test), `solve` returns the
iterate reached after exactly `max_iters` updates, converged or not; for
`max_iters <= 0` it returns `initial_x` and the run evaluates no gradient; a run
that returns made at most `max_iters` line search calls; and a run that does not
return stopped, after fewer than `max_iters` updates, in a line search call that
did not return. -/
theorem solve_terminates_within_max_iters (lsFuel : Nat) (problem : Problem)
    (initial_x : Vec) (eps : ℚ) (max_iters : Int) :
    (∀ sN, passes lsFuel problem (eps * eps) max_iters.toNat (solve_init initial_x) =
        Except.ok (some sN) →
      solve lsFuel problem initial_x eps max_iters = Except.ok sN.x) ∧
    (max_iters ≤ 0 →
      solve_logged lsFuel problem initial_x eps max_iters =
        Except.ok { x := initial_x, alpha := 1, log := [Event.eval_f initial_x] }) ∧
    (∀ s, solve_logged lsFuel problem initial_x eps max_iters = Except.ok s →
      line_search_count s.log ≤ max_iters.toNat) ∧
    (∀ e, solve_logged lsFuel problem initial_x eps max_iters = Except.error e →
      ∃ k sk, k < max_iters.toNat ∧
        passes lsFuel problem (eps * eps) k (solve_init initial_x) = Except.ok (some sk) ∧
        backtracking_line_search lsFuel problem sk.x (problem.eval_gradient sk.x)
          [problem.eval_f sk.x] sk.alpha default_alpha default_tau = Except.error e) := by
  refine ⟨?_, ?_, ?_, ?_⟩
  · intro sN hp
    have := solve_loop_passes lsFuel problem (eps * eps) max_iters.toNat _ sN 0 hp
    rw [solve_eq, solve_logged_eq]
    rw [Nat.add_zero] at this
    rw [this]
    rfl
  · intro h0
    have hn : max_iters.toNat = 0 := by omega
    rw [solve_logged_eq, hn]
    rfl
  · intro s hs
    rw [solve_logged_eq] at hs
    have := solve_loop_count lsFuel problem _ _ _ _ hs
    simpa [solve_init, line_search_count, Event.isLineSearch] using this
  · intro e he
    rw [solve_logged_eq] at he
    obtain ⟨k, sk, hk, hp, hb⟩ := solve_loop_error lsFuel problem _ _ _ _ he
    exact ⟨k, sk, hk, hp, (solve_body_error lsFuel problem _ sk e hb).2⟩

theorem solve_terminates_within_max_iters_witness :
    solve 4 quad [-1] (1 / 100) 1 = Except.ok [11 / 16] ∧
      ¬ Vec.squaredNorm (quad.eval_gradient [11 / 16]) < 1 / 100 * (1 / 100) :=
  ⟨(solve_terminates_within_max_iters 4 quad [-1] (1 / 100) 1).1
      { x := [11 / 16], alpha := 27 / 64,
        log := pass_log quad (solve_init [-1]) (27 / 64) [11 / 16] } quad_passes,
    by norm_num [Vec.squaredNorm, quad]⟩

/-- Claim C10 fails on the code.  On `f(x) = 2 x^2` at `x = -1/4` the line search of
`solve` (run along `[f(x)]`, see C6) accepts the step `1`, the update
`x - 1 * g` moves to `3/4`, and the energy rises from `1/8` to `9/8`. -/
theorem solve_step_increases_energy :
    backtracking_line_search 1 quad [-1 / 4] (quad.eval_gradient [-1 / 4])
      [quad.eval_f [-1 / 4]] 1 default_alpha default_tau = Except.ok 1 ∧
    solve 1 quad [-1 / 4] (1 / 100) 1 = Except.ok [3 / 4] ∧
    quad.eval_f [-1 / 4] < quad.eval_f [3 / 4] := by
  have hls : backtracking_line_search 1 quad [-1 / 4] (quad.eval_gradient [-1 / 4])
      [quad.eval_f [-1 / 4]] 1 default_alpha default_tau = Except.ok 1 := by
    simp [backtracking_line_search, backtracking_loop, Vec.dot, Vec.add, Vec.smul, quad,
      ok_bind, default_alpha, default_tau]
    norm_num
  have hc : ¬ Vec.squaredNorm (quad.eval_gradient (solve_init [-1 / 4]).x) <
      1 / 100 * (1 / 100) := by
    norm_num [Vec.squaredNorm, quad, solve_init]
  refine ⟨hls, ?_, by norm_num [quad]⟩
  rw [solve_eq, solve_logged_eq]
  show (solve_loop 1 quad (1 / 100 * (1 / 100)) 1 (solve_init [-1 / 4]) >>= _) = _
  rw [solve_loop_succ, solve_body_go 1 quad _ _ hc]
  have hls2 : backtracking_line_search 1 quad (solve_init [-1 / 4]).x
      (quad.eval_gradient (solve_init [-1 / 4]).x) [quad.eval_f (solve_init [-1 / 4]).x]
      (solve_init [-1 / 4]).alpha default_alpha default_tau = Except.ok 1 := hls
  rw [hls2, ok_bind]
  norm_num [Vec.sub, Vec.smul, quad, solve_init, ok_bind, solve_loop, pass_log]

/-- Claim C11 fails on the code.  The claim: whenever `i < 0`, `j < 0`, `2 * i ≥ n` or
`2 * j ≥ n`, the call `add_spring_element(i, j, k, l)` inserts nothing.  The guard
deviates in two ways.  It tests the first vertex with `2 * _v_idx0 > n_`, so the call
is accepted when `2 * i = n`: on two unknowns `add_spring_element(1, 0)` stores the
spring `(1, 0)` with its stiffness and rest length.  And it doubles the vertices in
32-bit `int`, so a vertex from `2^30` on doubles to a negative number and passes: on
four unknowns `add_spring_element(2^30, 0)` and `add_spring_element(0, 2^30)` are
stored.  What holds: a call with a negative vertex returns the state unchanged; a
call with both vertices below `2^30` returns the state unchanged when `2 * i > n` or
`2 * j ≥ n`; a call inserts when `2 * i = n`, `0 ≤ j` and `2 * j < n`; and on
`n ≥ 0` a call with vertices in `0 .. 2^31 - 1` inserts when the first vertex has
`2 * i ≤ n` or is from `2^30` on and the second has `2 * j < n` or is from `2^30` on. -/
theorem add_spring_element_first_vertex_guard :
    (2 * (1 : Int) ≥ (MassSpringProblem2DSparse.construct sample_spring sample_anchor 2).n_unknowns ∧
      ((MassSpringProblem2DSparse.construct sample_spring sample_anchor 2).add_spring_element
        1 0 1 1).springs_ = [(1, 0)] ∧
      ((MassSpringProblem2DSparse.construct sample_spring sample_anchor 2).add_spring_element
        1 0 1 1).ks_ = [1] ∧
      ((MassSpringProblem2DSparse.construct sample_spring sample_anchor 2).add_spring_element
        1 0 1 1).ls_ = [1]) ∧
    (int32 (2 * 2 ^ 30) = -2 ^ 31 ∧
      ((MassSpringProblem2DSparse.construct sample_spring sample_anchor 4).add_spring_element
        (2 ^ 30) 0 1 1).springs_ = [(2 ^ 30, 0)] ∧
      ((MassSpringProblem2DSparse.construct sample_spring sample_anchor 4).add_spring_element
        0 (2 ^ 30) 1 1).springs_ = [(0, 2 ^ 30)]) ∧
    (∀ (P : MassSpringProblem2DSparse) (i j : Int) (k l : ℚ),
      (i < 0 ∨ j < 0) → P.add_spring_element i j k l = P) ∧
    (∀ (P : MassSpringProblem2DSparse) (i j : Int) (k l : ℚ),
      i < 2 ^ 30 → j < 2 ^ 30 → (2 * i > P.n_unknowns ∨ 2 * j ≥ P.n_unknowns) →
        P.add_spring_element i j k l = P) ∧
    (∀ (P : MassSpringProblem2DSparse) (i j : Int) (k l : ℚ),
      2 * i = P.n_unknowns → 0 ≤ j → 2 * j < P.n_unknowns →
        (P.add_spring_element i j k l).springs_ = P.springs_ ++ [(i, j)] ∧
        (P.add_spring_element i j k l).ks_ = P.ks_ ++ [k] ∧
        (P.add_spring_element i j k l).ls_ = P.ls_ ++ [l]) ∧
    (∀ (P : MassSpringProblem2DSparse) (i j : Int) (k l : ℚ),
      0 ≤ P.n_unknowns → 0 ≤ i → i < 2 ^ 31 → 0 ≤ j → j < 2 ^ 31 →
      (2 * i ≤ P.n_unknowns ∨ 2 ^ 30 ≤ i) → (2 * j < P.n_unknowns ∨ 2 ^ 30 ≤ j) →
        (P.add_spring_element i j k l).springs_ = P.springs_ ++ [(i, j)] ∧
        (P.add_spring_element i j k l).ks_ = P.ks_ ++ [k] ∧
        (P.add_spring_element i j k l).ls_ = P.ls_ ++ [l]) := by
  refine ⟨⟨by decide, rfl, rfl, rfl⟩, ⟨rfl, rfl, rfl⟩, ?_, ?_, ?_, ?_⟩
  · intro P i j k l h
    apply MassSpringProblem2DSparse.add_spring_element_rejected
    omega
  · intro P i j k l hi hj h
    apply MassSpringProblem2DSparse.add_spring_element_rejected
    simp only [MassSpringProblem2DSparse.n_unknowns] at h
    rw [int32_def, int32_def]
    norm_num at hi hj
    omega
  · intro P i j k l hi hj hj2
    simp only [MassSpringProblem2DSparse.n_unknowns] at hi hj2
    rw [MassSpringProblem2DSparse.add_spring_element_accepted P i j k l
      (by rw [int32_def, int32_def]; omega)]
    exact ⟨rfl, rfl, rfl⟩
  · intro P i j k l hn hi0 hi1 hj0 hj1 hi hj
    simp only [MassSpringProblem2DSparse.n_unknowns] at hn hi hj
    norm_num at hi1 hj1 hi hj
    rw [MassSpringProblem2DSparse.add_spring_element_accepted P i j k l
      (by rw [int32_def, int32_def]; omega)]
    exact ⟨rfl, rfl, rfl⟩

/-- Claim C12 fails on the code.  The claim: whenever `idx < 0` or `2 * idx ≥ n`, the
call `add_constrained_spring_element(idx, w, px, py)` inserts nothing.  The guard
deviates in two ways.  It is `2 * _v_idx > n_`, so the call is accepted when
`2 * idx = n`: on two unknowns `add_constrained_spring_element(1)` stores the anchor
index `1`, its weight and its target point.  And it doubles the index in 32-bit
`int`, so an index from `2^30` on doubles to a negative number and passes: on four
unknowns `add_constrained_spring_element(2^30)` is stored.  What holds: a call with
a negative index returns the state unchanged; a call with an index below `2^30`
returns the state unchanged when `2 * idx > n`; a call inserts when `0 ≤ idx` and
`2 * idx = n`; and on `n ≥ 0` a call with an index in `0 .. 2^31 - 1` inserts when
`2 * idx ≤ n` or the index is from `2^30` on. -/
theorem add_constrained_spring_element_guard :
    (2 * (1 : Int) ≥ (MassSpringProblem2DSparse.construct sample_spring sample_anchor 2).n_unknowns ∧
      ((MassSpringProblem2DSparse.construct sample_spring
        sample_anchor 2).add_constrained_spring_element 1 1 0 0).attached_node_indices_ = [1] ∧
      ((MassSpringProblem2DSparse.construct sample_spring
        sample_anchor 2).add_constrained_spring_element 1 1 0 0).weights_ = [1] ∧
      ((MassSpringProblem2DSparse.construct sample_spring
        sample_anchor 2).add_constrained_spring_element 1 1 0 0).desired_points_ = [0, 0]) ∧
    (int32 (2 * 2 ^ 30) = -2 ^ 31 ∧
      ((MassSpringProblem2DSparse.construct sample_spring
        sample_anchor 4).add_constrained_spring_element (2 ^ 30) 1 0 0).attached_node_indices_ =
          [2 ^ 30]) ∧
    (∀ (P : MassSpringProblem2DSparse) (idx : Int) (w px py : ℚ),
      idx < 0 → P.add_constrained_spring_element idx w px py = P) ∧
    (∀ (P : MassSpringProblem2DSparse) (idx : Int) (w px py : ℚ),
      idx < 2 ^ 30 → 2 * idx > P.n_unknowns →
        P.add_constrained_spring_element idx w px py = P) ∧
    (∀ (P : MassSpringProblem2DSparse) (idx : Int) (w px py : ℚ),
      0 ≤ idx → 2 * idx = P.n_unknowns →
        (P.add_constrained_spring_element idx w px py).attached_node_indices_ =
          P.attached_node_indices_ ++ [idx] ∧
        (P.add_constrained_spring_element idx w px py).weights_ = P.weights_ ++ [w] ∧
        (P.add_constrained_spring_element idx w px py).desired_points_ =
          P.desired_points_ ++ [px, py]) ∧
    (∀ (P : MassSpringProblem2DSparse) (idx : Int) (w px py : ℚ),
      0 ≤ P.n_unknowns → 0 ≤ idx → idx < 2 ^ 31 → (2 * idx ≤ P.n_unknowns ∨ 2 ^ 30 ≤ idx) →
        (P.add_constrained_spring_element idx w px py).attached_node_indices_ =
          P.attached_node_indices_ ++ [idx] ∧
        (P.add_constrained_spring_element idx w px py).weights_ = P.weights_ ++ [w] ∧
        (P.add_constrained_spring_element idx w px py).desired_points_ =
          P.desired_points_ ++ [px, py]) := by
  refine ⟨⟨by decide, rfl, rfl, rfl⟩, ⟨rfl, rfl⟩, ?_, ?_, ?_, ?_⟩
  · intro P idx w px py h
    apply MassSpringProblem2DSparse.add_constrained_spring_element_rejected
    omega
  · intro P idx w px py hi h
    apply MassSpringProblem2DSparse.add_constrained_spring_element_rejected
    simp only [MassSpringProblem2DSparse.n_unknowns] at h
    rw [int32_def]
    norm_num at hi
    omega
  · intro P idx w px py h0 h2
    simp only [MassSpringProblem2DSparse.n_unknowns] at h2
    rw [MassSpringProblem2DSparse.add_constrained_spring_element_accepted P idx w px py
      (by rw [int32_def]; omega)]
    exact ⟨rfl, rfl, by simp⟩
  · intro P idx w px py hn h0 h1 h
    simp only [MassSpringProblem2DSparse.n_unknowns] at hn h
    norm_num at h1 h
    rw [MassSpringProblem2DSparse.add_constrained_spring_element_accepted P idx w px py
      (by rw [int32_def]; omega)]
    exact ⟨rfl, rfl, by simp⟩

/-- Claim C13 fails on the code.  The claim: in every state reachable from
construction with `n_unknowns = 2 * n_vertices` every stored spring has both
vertices in `[0, n_vertices)` and every stored anchor index is in `[0, n_vertices)`,
so every coordinate read of the evaluators is in range.  The guards compare the
first spring vertex and the anchor index with `>`: with one vertex,
`add_spring_element(1, 0)` stores the spring `(1, 0)` and
`add_constrained_spring_element(1)` stores the anchor `1`, the read `x[2]` on an `x`
of length `2` is out of range and all three evaluators fault.  The guards also
double the vertices in 32-bit `int`: with two vertices, `add_spring_element(2^30, 0)`
stores the spring `(2^30, 0)` and `add_constrained_spring_element(2^30)` stores the
anchor `2^30`, and the evaluators fault on an `x` of length `4`.  What holds in
every reachable state: no stored vertex is negative; a first spring vertex or an
anchor index below `2^30` is in `[0, n_vertices]`, and a second spring vertex below
`2^30` is in `[0, n_vertices)`. -/
theorem reachable_vertex_ranges :
    ((MassSpringProblem2DSparse.build sample_spring sample_anchor (2 * 1)
        [Op.spring 1 0 1 1]).springs_ = [(1, 0)] ∧
      (MassSpringProblem2DSparse.build sample_spring sample_anchor (2 * 1)
        [Op.anchor 1 1 0 0]).attached_node_indices_ = [1] ∧
      Vec.read [0, 0] (2 * 1) = Except.error Fault.bounds ∧
      (MassSpringProblem2DSparse.build sample_spring sample_anchor (2 * 1)
        [Op.spring 1 0 1 1]).eval_f [0, 0] = Except.error Fault.bounds ∧
      (MassSpringProblem2DSparse.build sample_spring sample_anchor (2 * 1)
        [Op.spring 1 0 1 1]).eval_gradient [0, 0] = Except.error Fault.bounds ∧
      (MassSpringProblem2DSparse.build sample_spring sample_anchor (2 * 1)
        [Op.spring 1 0 1 1]).eval_hessian [0, 0] = Except.error Fault.bounds) ∧
    ((MassSpringProblem2DSparse.build sample_spring sample_anchor (2 * 2)
        [Op.spring (2 ^ 30) 0 1 1]).springs_ = [(2 ^ 30, 0)] ∧
      (MassSpringProblem2DSparse.build sample_spring sample_anchor (2 * 2)
        [Op.spring 0 (2 ^ 30) 1 1]).springs_ = [(0, 2 ^ 30)] ∧
      (MassSpringProblem2DSparse.build sample_spring sample_anchor (2 * 2)
        [Op.anchor (2 ^ 30) 1 0 0]).attached_node_indices_ = [2 ^ 30] ∧
      (MassSpringProblem2DSparse.build sample_spring sample_anchor (2 * 2)
        [Op.spring (2 ^ 30) 0 1 1]).eval_f [0, 0, 0, 0] = Except.error Fault.bounds ∧
      (MassSpringProblem2DSparse.build sample_spring sample_anchor (2 * 2)
        [Op.spring (2 ^ 30) 0 1 1]).eval_gradient [0, 0, 0, 0] = Except.error Fault.bounds ∧
      (MassSpringProblem2DSparse.build sample_spring sample_anchor (2 * 2)
        [Op.spring (2 ^ 30) 0 1 1]).eval_hessian [0, 0, 0, 0] = Except.error Fault.bounds) ∧
    ∀ (spring cse : ParametricFunctionBase) (n_vertices : Int) (ops : List Op),
      (∀ s ∈ (MassSpringProblem2DSparse.build spring cse (2 * n_vertices) ops).springs_,
        0 ≤ s.1 ∧ 0 ≤ s.2 ∧ (s.1 < 2 ^ 30 → s.1 ≤ n_vertices) ∧
          (s.2 < 2 ^ 30 → s.2 < n_vertices)) ∧
      ∀ v ∈ (MassSpringProblem2DSparse.build spring cse
          (2 * n_vertices) ops).attached_node_indices_,
        0 ≤ v ∧ (v < 2 ^ 30 → v ≤ n_vertices) := by
  refine ⟨⟨rfl, rfl, rfl, rfl, rfl, rfl⟩, ⟨rfl, rfl, rfl, rfl, rfl, rfl⟩, ?_⟩
  intro spring cse n_vertices ops
  obtain ⟨hs, ha⟩ := MassSpringProblem2DSparse.build_guardedRanges spring cse
    (2 * n_vertices) ops
  have hn := (MassSpringProblem2DSparse.build_frame spring cse (2 * n_vertices) ops).1
  rw [hn] at hs ha
  constructor
  · intro s hmem
    obtain ⟨h1, h2, h3, h4⟩ := hs s hmem
    rw [int32_def] at h2 h4
    refine ⟨h1, h3, ?_, ?_⟩
    · intro hlt
      norm_num at hlt
      omega
    · intro hlt
      norm_num at hlt
      omega
  · intro v hmem
    obtain ⟨h1, h2⟩ := ha v hmem
    rw [int32_def] at h2
    refine ⟨h1, ?_⟩
    intro hlt
    norm_num at hlt
    omega

/-- Claim C14.  For vertices `i`, `j` with `0 ≤ i`, `0 ≤ j`, `2 * i < n` and
`2 * j < n` the call `add_spring_element(i, j, k, l)` appends exactly one element:
the spring list becomes `old ++ [(i, j)]`, the stiffness list `old ++ [k]` and the
rest-length list `old ++ [l]`; with the default arguments the appended stiffness and
rest length are `1`; and every position below the old lengths holds the spring,
stiffness and rest length it held before. -/
theorem add_spring_element_appends (P : MassSpringProblem2DSparse) (i j : Int) (k l : ℚ)
    (hi : 0 ≤ i) (hj : 0 ≤ j) (hi2 : 2 * i < P.n_unknowns) (hj2 : 2 * j < P.n_unknowns) :
    (P.add_spring_element i j k l).springs_ = P.springs_ ++ [(i, j)] ∧
    (P.add_spring_element i j k l).ks_ = P.ks_ ++ [k] ∧
    (P.add_spring_element i j k l).ls_ = P.ls_ ++ [l] ∧
    (P.add_spring_element i j default_k default_l).springs_ = P.springs_ ++ [(i, j)] ∧
    (P.add_spring_element i j default_k default_l).ks_ = P.ks_ ++ [1] ∧
    (P.add_spring_element i j default_k default_l).ls_ = P.ls_ ++ [1] ∧
    (P.add_spring_element i j k l).springs_.length = P.springs_.length + 1 ∧
    (∀ m : Nat, m < P.springs_.length →
      (P.add_spring_element i j k l).springs_[m]? = P.springs_[m]?) ∧
    (∀ m : Nat, m < P.ks_.length → (P.add_spring_element i j k l).ks_[m]? = P.ks_[m]?) ∧
    (∀ m : Nat, m < P.ls_.length → (P.add_spring_element i j k l).ls_[m]? = P.ls_[m]?) := by
  simp only [MassSpringProblem2DSparse.n_unknowns] at hi2 hj2
  have hg : ¬ (int32 (2 * i) > P.n_ ∨ i < 0 ∨ int32 (2 * j) ≥ P.n_ ∨ j < 0) := by
    rw [int32_def, int32_def]
    omega
  rw [MassSpringProblem2DSparse.add_spring_element_accepted P i j k l hg,
    MassSpringProblem2DSparse.add_spring_element_accepted P i j default_k default_l hg]
  refine ⟨rfl, rfl, rfl, rfl, rfl, rfl, ?_, ?_, ?_, ?_⟩
  · simp
  · intro m hm
    exact List.getElem?_append_left hm
  · intro m hm
    exact List.getElem?_append_left hm
  · intro m hm
    exact List.getElem?_append_left hm

theorem add_spring_element_appends_witness :
    (two_vertex_problem.add_spring_element 1 1 2 1).springs_ =
        two_vertex_problem.springs_ ++ [(1, 1)] ∧
    (two_vertex_problem.add_spring_element 1 1 2 1).ks_ = two_vertex_problem.ks_ ++ [2] ∧
    (two_vertex_problem.add_spring_element 1 1 2 1).ls_ = two_vertex_problem.ls_ ++ [1] ∧
    (two_vertex_problem.add_spring_element 1 1 default_k default_l).springs_ =
        two_vertex_problem.springs_ ++ [(1, 1)] ∧
    (two_vertex_problem.add_spring_element 1 1 default_k default_l).ks_ =
        two_vertex_problem.ks_ ++ [1] ∧
    (two_vertex_problem.add_spring_element 1 1 default_k default_l).ls_ =
        two_vertex_problem.ls_ ++ [1] ∧
    (two_vertex_problem.add_spring_element 1 1 2 1).springs_.length =
        two_vertex_problem.springs_.length + 1 ∧
    (∀ m : Nat, m < two_vertex_problem.springs_.length →
      (two_vertex_problem.add_spring_element 1 1 2 1).springs_[m]? =
        two_vertex_problem.springs_[m]?) ∧
    (∀ m : Nat, m < two_vertex_problem.ks_.length →
      (two_vertex_problem.add_spring_element 1 1 2 1).ks_[m]? = two_vertex_problem.ks_[m]?) ∧
    (∀ m : Nat, m < two_vertex_problem.ls_.length →
      (two_vertex_problem.add_spring_element 1 1 2 1).ls_[m]? = two_vertex_problem.ls_[m]?) :=
  add_spring_element_appends two_vertex_problem 1 1 2 1 (by decide) (by decide) (by decide)
    (by decide)

/-- Claim C15.  The method `n_unknowns()` returns the value passed to the
constructor in every state built by insertions; neither insertion method changes
it; `add_spring_element` leaves the anchor lists (indices, weights, target points)
as they are and `add_constrained_spring_element` leaves the spring lists (vertex
pairs, stiffnesses, rest lengths) as they are. -/
theorem n_unknowns_and_lists_frame :
    (∀ (spring cse : ParametricFunctionBase) (n : Int) (ops : List Op),
      (MassSpringProblem2DSparse.build spring cse n ops).n_unknowns = n) ∧
    (∀ (P : MassSpringProblem2DSparse) (i j : Int) (k l : ℚ),
      (P.add_spring_element i j k l).n_unknowns = P.n_unknowns ∧
      (P.add_spring_element i j k l).attached_node_indices_ = P.attached_node_indices_ ∧
      (P.add_spring_element i j k l).weights_ = P.weights_ ∧
      (P.add_spring_element i j k l).desired_points_ = P.desired_points_) ∧
    (∀ (P : MassSpringProblem2DSparse) (idx : Int) (w px py : ℚ),
      (P.add_constrained_spring_element idx w px py).n_unknowns = P.n_unknowns ∧
      (P.add_constrained_spring_element idx w px py).springs_ = P.springs_ ∧
      (P.add_constrained_spring_element idx w px py).ks_ = P.ks_ ∧
      (P.add_constrained_spring_element idx w px py).ls_ = P.ls_) := by
  refine ⟨?_, ?_, ?_⟩
  · intro spring cse n ops
    exact (MassSpringProblem2DSparse.build_frame spring cse n ops).1
  · intro P i j k l
    simp only [MassSpringProblem2DSparse.add_spring_element,
      MassSpringProblem2DSparse.n_unknowns]
    split <;> exact ⟨rfl, rfl, rfl, rfl⟩
  · intro P idx w px py
    simp only [MassSpringProblem2DSparse.add_constrained_spring_element,
      MassSpringProblem2DSparse.n_unknowns]
    split <;> exact ⟨rfl, rfl, rfl, rfl⟩

/-- Claim C16 fails on the code.  The claim: for every assembled problem, spring-only
or spring+anchor, with consistent local elements, the vector of `eval_gradient` at
`x` is the exact gradient of `eval_f` at `x`.  For the spring+anchor assembly no
gradient and no energy is produced: with the consistent sample elements, the
two-vertex problem with one anchor faults in `eval_gradient` and in `eval_f`, at the
write `cs_xe_[0]` to the scratch vector that the constructor never resizes.  On
every evaluable state, `x` of length `n_unknowns()` and coordinate `m`, with local
elements that are consistent along lines: `eval_gradient` returns `g`, `eval_f`
returns the energy at every `x + t * e_m`, that energy has derivative `g[m]` in `t`
at `0`, and the central differences `(f(x + h e_m) - f(x - h e_m)) / (2 h)` tend to
`g[m]` as `h` tends to `0`. -/
theorem eval_gradient_is_derivative :
    (Consistent sample_spring 4 ∧ Consistent sample_anchor 2 ∧
      anchored_problem.eval_gradient [0, 0, 0, 2] = Except.error Fault.bounds ∧
      anchored_problem.eval_f [0, 0, 0, 2] = Except.error Fault.bounds) ∧
    ∀ (P : MassSpringProblem2DSparse) (x : Vec), P.Evaluable → (x.length : Int) = P.n_ →
      Consistent P.func_ 4 → Consistent P.cse_ 2 →
      ∃ g, P.eval_gradient x = Except.ok g ∧ (g.length : Int) = P.n_unknowns ∧
        ∀ m : Int, 0 ≤ m → m < P.n_unknowns →
          (∀ t, P.eval_f (MassSpringProblem2DSparse.addAtD x m t) =
            Except.ok (P.energy_sum (MassSpringProblem2DSparse.addAtD x m t))) ∧
          HasDerivAt (fun t => P.energy_sum (MassSpringProblem2DSparse.addAtD x m t))
            (Vec.get g m) 0 ∧
          Filter.Tendsto
            (fun h : ℚ => (P.energy_sum (MassSpringProblem2DSparse.addAtD x m h) -
              P.energy_sum (MassSpringProblem2DSparse.addAtD x m (-h))) / (2 * h))
            (nhdsWithin 0 {0}ᶜ) (nhds (Vec.get g m)) := by
  refine ⟨⟨sample_spring_consistent, sample_anchor_consistent, rfl, rfl⟩, ?_⟩
  intro P x hP hx hs ha
  obtain ⟨g, hg, hlen, hget⟩ := MassSpringProblem2DSparse.eval_gradient_ok P hP x hx
  refine ⟨g, hg, hlen, ?_⟩
  intro m h0 h1
  have hm : m < (x.length : Int) := by
    rw [hx]
    exact h1
  have hd : HasDerivAt (fun t => P.energy_sum (MassSpringProblem2DSparse.addAtD x m t))
      (Vec.get g m) 0 := by
    rw [hget m]
    exact MassSpringProblem2DSparse.energy_sum_hasDerivAt P x m h0 hm hs ha
  refine ⟨?_, hd, ?_⟩
  · intro t
    apply MassSpringProblem2DSparse.eval_f_ok P hP
    rw [MassSpringProblem2DSparse.addAtD_length]
    exact hx
  · exact central_difference_tendsto
      (fun t => P.energy_sum (MassSpringProblem2DSparse.addAtD x m t)) (Vec.get g m) hd

theorem eval_gradient_is_derivative_witness :
    ∃ g, two_vertex_problem.eval_gradient [0, 0, 0, 2] = Except.ok g ∧
      (g.length : Int) = two_vertex_problem.n_unknowns ∧
      ∀ m : Int, 0 ≤ m → m < two_vertex_problem.n_unknowns →
        (∀ t, two_vertex_problem.eval_f (MassSpringProblem2DSparse.addAtD [0, 0, 0, 2] m t) =
          Except.ok (two_vertex_problem.energy_sum
            (MassSpringProblem2DSparse.addAtD [0, 0, 0, 2] m t))) ∧
        HasDerivAt (fun t => two_vertex_problem.energy_sum
            (MassSpringProblem2DSparse.addAtD [0, 0, 0, 2] m t)) (Vec.get g m) 0 ∧
        Filter.Tendsto
          (fun h : ℚ => (two_vertex_problem.energy_sum
              (MassSpringProblem2DSparse.addAtD [0, 0, 0, 2] m h) -
            two_vertex_problem.energy_sum
              (MassSpringProblem2DSparse.addAtD [0, 0, 0, 2] m (-h))) / (2 * h))
          (nhdsWithin 0 {0}ᶜ) (nhds (Vec.get g m)) :=
  eval_gradient_is_derivative.2 two_vertex_problem [0, 0, 0, 2] two_vertex_evaluable rfl
    sample_spring_consistent sample_anchor_consistent

/-- Claim C17.  In every run of `solve` that returns, the first line search call
receives the starting step `1`, every later call receives the step that the call
before it returned, and the variable `alpha`, which the next call would receive, is
the step returned by the last call (`1` when there was none): the starting step is
threaded from pass to pass and never reset.  The same holds after any number of
passes of a run, whether or not the run goes on to return. -/
theorem solve_warm_starts (lsFuel : Nat) (problem : Problem) (initial_x : Vec) (eps : ℚ)
    (max_iters : Int) (s : SolveState)
    (h : solve_logged lsFuel problem initial_x eps max_iters = Except.ok s) :
    ((∀ a, (line_search_steps s.log)[0]? = some a → a.1 = 1) ∧
      (∀ (m : Nat) (a b : ℚ × ℚ), (line_search_steps s.log)[m]? = some a →
        (line_search_steps s.log)[m + 1]? = some b → b.1 = a.2) ∧
      s.alpha = last_step 1 (line_search_steps s.log)) ∧
    ∀ (k : Nat) (sk : SolveState),
      passes lsFuel problem (eps * eps) k (solve_init initial_x) = Except.ok (some sk) →
        (∀ a, (line_search_steps sk.log)[0]? = some a → a.1 = 1) ∧
        (∀ (m : Nat) (a b : ℚ × ℚ), (line_search_steps sk.log)[m]? = some a →
          (line_search_steps sk.log)[m + 1]? = some b → b.1 = a.2) ∧
        sk.alpha = last_step 1 (line_search_steps sk.log) := by
  constructor
  · rw [solve_logged_eq] at h
    obtain ⟨hw, hl⟩ := solve_loop_warm lsFuel problem (eps * eps) max_iters.toNat
      (solve_init initial_x) s h trivial rfl
    obtain ⟨h0, h1⟩ := warm_started_chain (line_search_steps s.log) 1 hw
    exact ⟨h0, h1, hl.symm⟩
  · intro k sk hk
    obtain ⟨hw, hl⟩ := passes_warm lsFuel problem (eps * eps) k (solve_init initial_x) sk hk
      trivial rfl
    obtain ⟨h0, h1⟩ := warm_started_chain (line_search_steps sk.log) 1 hw
    exact ⟨h0, h1, hl.symm⟩

theorem solve_warm_starts_witness :
    solve_logged 4 half_quad [-4] (1 / 100) 2 = Except.ok warm_pass2 ∧
    line_search_steps warm_pass2.log = [(1, 27 / 64), (27 / 64, 27 / 64)] ∧
    (∀ a, (line_search_steps warm_pass2.log)[0]? = some a → a.1 = 1) ∧
    (∀ (m : Nat) (a b : ℚ × ℚ), (line_search_steps warm_pass2.log)[m]? = some a →
      (line_search_steps warm_pass2.log)[m + 1]? = some b → b.1 = a.2) ∧
    warm_pass2.alpha = last_step 1 (line_search_steps warm_pass2.log) :=
  ⟨half_quad_warm_run, rfl,
    (solve_warm_starts 4 half_quad [-4] (1 / 100) 2 warm_pass2 half_quad_warm_run).1⟩

/-- Claim C18.  For operands of one size: if the Armijo condition
`f(x + t * dx) ≤ f(x) + alpha * t * (g . dx)` holds at `t = t0 * tau ^ k` for some
`k`, then there is a least such `K`, the line search returns `t0 * tau ^ K` with
every amount of fuel above `K`, and it has not returned after `K` passes of its loop
(it runs out of every amount of fuel up to `K`), so `t` was shrunk exactly `K` times;
when the condition holds at `t0` it returns `t0`. -/
theorem backtracking_line_search_least_step (problem : Problem) (x g dx : Vec)
    (t0 alpha tau : ℚ) (hg : g.length = dx.length) (hx : x.length = dx.length)
    (hex : ∃ k : Nat, armijo problem x g dx alpha (t0 * tau ^ k)) :
    ∃ K : Nat, armijo problem x g dx alpha (t0 * tau ^ K) ∧
      (∀ k, k < K → ¬ armijo problem x g dx alpha (t0 * tau ^ k)) ∧
      (∀ fuel, K < fuel →
        backtracking_line_search fuel problem x g dx t0 alpha tau =
          Except.ok (t0 * tau ^ K)) ∧
      (∀ fuel, fuel ≤ K →
        backtracking_line_search fuel problem x g dx t0 alpha tau =
          Except.error Fault.fuel) ∧
      (armijo problem x g dx alpha t0 → ∀ fuel, 0 < fuel →
        backtracking_line_search fuel problem x g dx t0 alpha tau = Except.ok t0) := by
  classical
  refine ⟨Nat.find hex, Nat.find_spec hex, fun k hk => Nat.find_min hex hk, ?_, ?_, ?_⟩
  · intro fuel hf
    rw [backtracking_line_search_eq_loop fuel problem x g dx t0 alpha tau hg]
    exact (backtracking_loop_least problem x g dx alpha tau hx (Nat.find hex) t0
      (Nat.find_spec hex) (fun k hk => Nat.find_min hex hk)).1 fuel hf
  · intro fuel hf
    rw [backtracking_line_search_eq_loop fuel problem x g dx t0 alpha tau hg]
    exact (backtracking_loop_least problem x g dx alpha tau hx (Nat.find hex) t0
      (Nat.find_spec hex) (fun k hk => Nat.find_min hex hk)).2 fuel hf
  · intro h0 fuel hf
    rw [backtracking_line_search_eq_loop fuel problem x g dx t0 alpha tau hg]
    have h := (backtracking_loop_least problem x g dx alpha tau hx 0 t0
      (by simpa using h0) (fun k hk => absurd hk (Nat.not_lt_zero k))).1 fuel hf
    simpa using h

theorem backtracking_line_search_least_step_witness :
    (∃ k : Nat, armijo quad [1] [4] [-4] (1 / 2) (1 * (3 / 4) ^ k)) ∧
    ∃ K : Nat, armijo quad [1] [4] [-4] (1 / 2) (1 * (3 / 4) ^ K) ∧
      (∀ k, k < K → ¬ armijo quad [1] [4] [-4] (1 / 2) (1 * (3 / 4) ^ k)) ∧
      (∀ fuel, K < fuel →
        backtracking_line_search fuel quad [1] [4] [-4] 1 (1 / 2) (3 / 4) =
          Except.ok (1 * (3 / 4) ^ K)) ∧
      (∀ fuel, fuel ≤ K →
        backtracking_line_search fuel quad [1] [4] [-4] 1 (1 / 2) (3 / 4) =
          Except.error Fault.fuel) ∧
      (armijo quad [1] [4] [-4] (1 / 2) 1 → ∀ fuel, 0 < fuel →
        backtracking_line_search fuel quad [1] [4] [-4] 1 (1 / 2) (3 / 4) = Except.ok 1) :=
  ⟨⟨5, by norm_num [armijo, quad, Vec.smul]⟩,
    backtracking_line_search_least_step quad [1] [4] [-4] 1 (1 / 2) (3 / 4) rfl rfl
      ⟨5, by norm_num [armijo, quad, Vec.smul]⟩⟩

/-- Claim C19.  The line search has no bound on its passes: on the objective
`f(x) = x` at `x = 0` with gradient `g = 1`, direction `dx = 1` (so `g . dx = 1 ≥ 0`),
starting step `t0 = 1 > 0` and the default `alpha = 0.5`, `tau = 0.75`, the Armijo
condition fails at `t0 * tau ^ k` for every `k`, and the search runs out of every
amount of fuel: it never returns. -/
theorem backtracking_line_search_never_returns :
    ramp.eval_gradient [0] = [1] ∧
    Vec.dot [1] [1] = Except.ok 1 ∧ (0 : ℚ) ≤ 1 ∧ (0 : ℚ) < 1 ∧
    default_alpha = 1 / 2 ∧ default_tau = 3 / 4 ∧
    (∀ k : Nat, ¬ armijo ramp [0] [1] [1] default_alpha (1 * default_tau ^ k)) ∧
    (∀ fuel, backtracking_line_search fuel ramp [0] [1] [1] 1 default_alpha default_tau =
      Except.error Fault.fuel) ∧
    ∀ fuel t, backtracking_line_search fuel ramp [0] [1] [1] 1 default_alpha default_tau ≠
      Except.ok t := by
  have hrun : ∀ fuel,
      backtracking_line_search fuel ramp [0] [1] [1] 1 default_alpha default_tau =
        Except.error Fault.fuel := by
    intro fuel
    rw [backtracking_line_search_eq_loop fuel ramp [0] [1] [1] 1 default_alpha default_tau rfl]
    have e : (List.zipWith (fun u v => u * v) ([1] : Vec) [1]).sum = 1 := by norm_num
    rw [e]
    exact ramp_loop_no_return fuel 1 one_pos
  refine ⟨rfl, by norm_num [Vec.dot], zero_le_one, one_pos, rfl, rfl, ?_, hrun, ?_⟩
  · intro k
    apply ramp_armijo_fails
    simp only [default_tau]
    positivity
  · intro fuel t h
    rw [hrun fuel] at h
    cases h

/-- Claim C20 fails on the code.  The claim: after construction with a spring element of
four local unknowns, `xe_` and `ge_` have 4 entries, `he_` is 4x4, `cs_xe_` and
`cs_ge_` have 2 entries and `cs_he_` is 2x2, so every scratch write is in bounds,
also with an anchor.  The constructor resizes `xe_`, `ge_` and `he_` only: the
spring buffers have the claimed sizes and the writes `xe_[0..3]` are in bounds, but
`cs_xe_` and `cs_ge_` have no entry and `cs_he_` is 0x0, no insertion changes a
buffer, the write `cs_xe_[0]` is out of bounds, and on every built state that holds
an anchor none of the three evaluators returns; on the two-vertex problem with one
anchor each of them faults. -/
theorem construct_scratch_sizes :
    (∀ (spring cse : ParametricFunctionBase) (n : Int) (ops : List Op),
      spring.n_unknowns = 4 →
        (MassSpringProblem2DSparse.build spring cse n ops).xe_.length = 4 ∧
        (MassSpringProblem2DSparse.build spring cse n ops).ge_.length = 4 ∧
        (MassSpringProblem2DSparse.build spring cse n ops).he_ = (4, 4) ∧
        (∀ (p : Int) (a : ℚ), 0 ≤ p → p < 4 →
          ∃ xe, Vec.write (MassSpringProblem2DSparse.build spring cse n ops).xe_ p a =
            Except.ok xe)) ∧
    (∀ (spring cse : ParametricFunctionBase) (n : Int) (ops : List Op),
        (MassSpringProblem2DSparse.build spring cse n ops).cs_xe_.length = 0 ∧
        (MassSpringProblem2DSparse.build spring cse n ops).cs_ge_.length = 0 ∧
        (MassSpringProblem2DSparse.build spring cse n ops).cs_he_ = (0, 0) ∧
        (∀ a : ℚ, Vec.write (MassSpringProblem2DSparse.build spring cse n ops).cs_xe_ 0 a =
          Except.error Fault.bounds)) ∧
    (∀ (spring cse : ParametricFunctionBase) (n : Int) (ops : List Op) (x : Vec),
      (MassSpringProblem2DSparse.build spring cse n ops).attached_node_indices_ ≠ [] →
        (∀ e, (MassSpringProblem2DSparse.build spring cse n ops).eval_f x ≠ Except.ok e) ∧
        (∀ g, (MassSpringProblem2DSparse.build spring cse n ops).eval_gradient x ≠
          Except.ok g) ∧
        (∀ H, (MassSpringProblem2DSparse.build spring cse n ops).eval_hessian x ≠
          Except.ok H)) ∧
    (MassSpringProblem2DSparse.build sample_spring sample_anchor 4
        [Op.spring 0 1 1 1, Op.anchor 0 1 0 0] = anchored_problem ∧
      anchored_problem.eval_f [0, 0, 0, 2] = Except.error Fault.bounds ∧
      anchored_problem.eval_gradient [0, 0, 0, 2] = Except.error Fault.bounds ∧
      anchored_problem.eval_hessian [0, 0, 0, 2] = Except.error Fault.bounds) := by
  refine ⟨?_, ?_, ?_, ⟨rfl, rfl, rfl, rfl⟩⟩
  · intro spring cse n ops h4
    obtain ⟨_, _, _, hxe, hge, hhe, _, _, _⟩ :=
      MassSpringProblem2DSparse.build_frame spring cse n ops
    rw [hxe, hge, hhe, h4]
    refine ⟨by simp, by simp, rfl, ?_⟩
    intro p a h0 h1
    refine ⟨_, Vec.write_ok _ p a h0 ?_⟩
    simpa using h1
  · intro spring cse n ops
    obtain ⟨_, _, _, _, _, _, hcx, hcg, hch⟩ :=
      MassSpringProblem2DSparse.build_frame spring cse n ops
    rw [hcx, hcg, hch]
    exact ⟨rfl, rfl, rfl, fun a => rfl⟩
  · intro spring cse n ops x ha
    exact MassSpringProblem2DSparse.anchor_faults _ x
      (MassSpringProblem2DSparse.build_frame spring cse n ops).2.2.2.2.2.2.1 ha

theorem construct_scratch_sizes_witness :
    ((MassSpringProblem2DSparse.build sample_spring sample_anchor 4 []).xe_.length = 4 ∧
      (MassSpringProblem2DSparse.build sample_spring sample_anchor 4 []).ge_.length = 4 ∧
      (MassSpringProblem2DSparse.build sample_spring sample_anchor 4 []).he_ = (4, 4) ∧
      (∀ (p : Int) (a : ℚ), 0 ≤ p → p < 4 →
        ∃ xe, Vec.write (MassSpringProblem2DSparse.build sample_spring sample_anchor 4 []).xe_
          p a = Except.ok xe)) ∧
    ((MassSpringProblem2DSparse.build sample_spring sample_anchor 4 []).cs_xe_.length = 0 ∧
      (MassSpringProblem2DSparse.build sample_spring sample_anchor 4 []).cs_ge_.length = 0 ∧
      (MassSpringProblem2DSparse.build sample_spring sample_anchor 4 []).cs_he_ = (0, 0) ∧
      (∀ a : ℚ,
        Vec.write (MassSpringProblem2DSparse.build sample_spring sample_anchor 4 []).cs_xe_ 0 a =
          Except.error Fault.bounds)) :=
  ⟨construct_scratch_sizes.1 sample_spring sample_anchor 4 [] rfl,
    construct_scratch_sizes.2.1 sample_spring sample_anchor 4 []⟩

/-- Claim C21.  In every run of `solve` that returns, over exact arithmetic with
`tau = 0.75`: the first accepted step is at most `1`, each accepted step is at most
the one before it, no accepted step is above any earlier one (a step once shrunk is
never restored), and every accepted step is positive and equals `0.75 ^ m` for some
natural `m`.  The same holds after any number of passes of a run, whether or not
the run goes on to return. -/
theorem solve_steps_never_grow (lsFuel : Nat) (problem : Problem) (initial_x : Vec) (eps : ℚ)
    (max_iters : Int) (s : SolveState)
    (h : solve_logged lsFuel problem initial_x eps max_iters = Except.ok s) :
    default_tau = 3 / 4 ∧
    ((∀ a, (line_search_steps s.log)[0]? = some a → a.2 ≤ 1) ∧
      (∀ (k : Nat) (a b : ℚ × ℚ), (line_search_steps s.log)[k]? = some a →
        (line_search_steps s.log)[k + 1]? = some b → b.2 ≤ a.2) ∧
      (∀ (i j : Nat) (a b : ℚ × ℚ), i < j → (line_search_steps s.log)[i]? = some a →
        (line_search_steps s.log)[j]? = some b → b.2 ≤ a.2) ∧
      (∀ a ∈ line_search_steps s.log, 0 < a.2 ∧ ∃ m : Nat, a.2 = (3 / 4 : ℚ) ^ m)) ∧
    ∀ (n : Nat) (sn : SolveState),
      passes lsFuel problem (eps * eps) n (solve_init initial_x) = Except.ok (some sn) →
        (∀ a, (line_search_steps sn.log)[0]? = some a → a.2 ≤ 1) ∧
        (∀ (k : Nat) (a b : ℚ × ℚ), (line_search_steps sn.log)[k]? = some a →
          (line_search_steps sn.log)[k + 1]? = some b → b.2 ≤ a.2) ∧
        (∀ (i j : Nat) (a b : ℚ × ℚ), i < j → (line_search_steps sn.log)[i]? = some a →
          (line_search_steps sn.log)[j]? = some b → b.2 ≤ a.2) ∧
        (∀ a ∈ line_search_steps sn.log, 0 < a.2 ∧ ∃ m : Nat, a.2 = (3 / 4 : ℚ) ^ m) := by
  have hnil : ∀ p ∈ line_search_steps (solve_init initial_x).log,
      ∃ K : Nat, p.2 = p.1 * default_tau ^ K := by
    intro p hp
    simp [solve_init, line_search_steps] at hp
  refine ⟨rfl, ?_, ?_⟩
  · rw [solve_logged_eq] at h
    exact warm_shrunk_steps_indexed (line_search_steps s.log)
      (solve_loop_warm lsFuel problem (eps * eps) max_iters.toNat (solve_init initial_x) s h
        trivial rfl).1
      (solve_loop_shrunk lsFuel problem (eps * eps) max_iters.toNat (solve_init initial_x) s h
        hnil)
  · intro n sn hn
    exact warm_shrunk_steps_indexed (line_search_steps sn.log)
      (passes_warm lsFuel problem (eps * eps) n (solve_init initial_x) sn hn trivial rfl).1
      (passes_shrunk lsFuel problem (eps * eps) n (solve_init initial_x) sn hn hnil)

theorem solve_steps_never_grow_witness :
    solve_logged 4 half_quad [-4] (1 / 100) 2 = Except.ok warm_pass2 ∧
    line_search_steps warm_pass2.log = [(1, 27 / 64), (27 / 64, 27 / 64)] ∧
    (27 / 64 : ℚ) = (3 / 4) ^ 3 ∧
    (∀ a, (line_search_steps warm_pass2.log)[0]? = some a → a.2 ≤ 1) ∧
    (∀ (k : Nat) (a b : ℚ × ℚ), (line_search_steps warm_pass2.log)[k]? = some a →
      (line_search_steps warm_pass2.log)[k + 1]? = some b → b.2 ≤ a.2) ∧
    (∀ (i j : Nat) (a b : ℚ × ℚ), i < j → (line_search_steps warm_pass2.log)[i]? = some a →
      (line_search_steps warm_pass2.log)[j]? = some b → b.2 ≤ a.2) ∧
    (∀ a ∈ line_search_steps warm_pass2.log, 0 < a.2 ∧ ∃ m : Nat, a.2 = (3 / 4 : ℚ) ^ m) :=
  ⟨half_quad_warm_run, rfl, by norm_num,
    (solve_steps_never_grow 4 half_quad [-4] (1 / 100) 2 warm_pass2 half_quad_warm_run).2.1⟩

/-- Claim C22.  The anchor target point never influences the objective.  For two
sequences of insertion calls that agree in everything but the `(px, py)` arguments
of `add_constrained_spring_element`, the built problems agree in every member but
`desired_points_`, and for every `x` the outcomes of `eval_f`, `eval_gradient` and
`eval_hessian` on the two problems are equal (the same value, or the same fault).
More generally the outcome of each evaluator is the same on any two states that
differ in `desired_points_` only, also on states whose anchor buffers are sized and
on which the evaluators return values. -/
theorem target_point_never_read (spring cse : ParametricFunctionBase) (n : Int)
    (ops ops2 : List Op) (h : List.Forall₂ Op.same_but_target ops ops2) (x : Vec) :
    (MassSpringProblem2DSparse.build spring cse n ops2 =
      { MassSpringProblem2DSparse.build spring cse n ops with
        desired_points_ := (MassSpringProblem2DSparse.build spring cse n ops2).desired_points_ }) ∧
    (MassSpringProblem2DSparse.build spring cse n ops).eval_f x =
      (MassSpringProblem2DSparse.build spring cse n ops2).eval_f x ∧
    (MassSpringProblem2DSparse.build spring cse n ops).eval_gradient x =
      (MassSpringProblem2DSparse.build spring cse n ops2).eval_gradient x ∧
    (MassSpringProblem2DSparse.build spring cse n ops).eval_hessian x =
      (MassSpringProblem2DSparse.build spring cse n ops2).eval_hessian x ∧
    ∀ (P : MassSpringProblem2DSparse) (d : Vec) (y : Vec),
      MassSpringProblem2DSparse.eval_f { P with desired_points_ := d } y = P.eval_f y ∧
      MassSpringProblem2DSparse.eval_gradient { P with desired_points_ := d } y =
        P.eval_gradient y ∧
      MassSpringProblem2DSparse.eval_hessian { P with desired_points_ := d } y =
        P.eval_hessian y := by
  have hb := MassSpringProblem2DSparse.build_same_but_target spring cse n ops ops2 h
  refine ⟨hb, ?_, ?_, ?_, MassSpringProblem2DSparse.eval_desired_points⟩
  · rw [hb]
    exact (MassSpringProblem2DSparse.eval_desired_points _ _ x).1.symm
  · rw [hb]
    exact (MassSpringProblem2DSparse.eval_desired_points _ _ x).2.1.symm
  · rw [hb]
    exact (MassSpringProblem2DSparse.eval_desired_points _ _ x).2.2.symm

theorem target_point_never_read_witness :
    List.Forall₂ Op.same_but_target [Op.spring 0 1 1 1, Op.anchor 0 1 0 0]
      [Op.spring 0 1 1 1, Op.anchor 0 1 5 7] ∧
    (MassSpringProblem2DSparse.build sample_spring sample_anchor 4
      [Op.spring 0 1 1 1, Op.anchor 0 1 5 7]).desired_points_ = [5, 7] ∧
    sized_anchored_problem.eval_f [1, 0, 0, 2] = Except.ok 3 ∧
    MassSpringProblem2DSparse.eval_f
      { sized_anchored_problem with desired_points_ := [5, 7] } [1, 0, 0, 2] = Except.ok 3 ∧
    ((MassSpringProblem2DSparse.build sample_spring sample_anchor 4
        [Op.spring 0 1 1 1, Op.anchor 0 1 5 7] =
      { MassSpringProblem2DSparse.build sample_spring sample_anchor 4
          [Op.spring 0 1 1 1, Op.anchor 0 1 0 0] with
        desired_points_ := (MassSpringProblem2DSparse.build sample_spring sample_anchor 4
          [Op.spring 0 1 1 1, Op.anchor 0 1 5 7]).desired_points_ }) ∧
    (MassSpringProblem2DSparse.build sample_spring sample_anchor 4
        [Op.spring 0 1 1 1, Op.anchor 0 1 0 0]).eval_f [1, 0, 0, 2] =
      (MassSpringProblem2DSparse.build sample_spring sample_anchor 4
        [Op.spring 0 1 1 1, Op.anchor 0 1 5 7]).eval_f [1, 0, 0, 2] ∧
    (MassSpringProblem2DSparse.build sample_spring sample_anchor 4
        [Op.spring 0 1 1 1, Op.anchor 0 1 0 0]).eval_gradient [1, 0, 0, 2] =
      (MassSpringProblem2DSparse.build sample_spring sample_anchor 4
        [Op.spring 0 1 1 1, Op.anchor 0 1 5 7]).eval_gradient [1, 0, 0, 2] ∧
    (MassSpringProblem2DSparse.build sample_spring sample_anchor 4
        [Op.spring 0 1 1 1, Op.anchor 0 1 0 0]).eval_hessian [1, 0, 0, 2] =
      (MassSpringProblem2DSparse.build sample_spring sample_anchor 4
        [Op.spring 0 1 1 1, Op.anchor 0 1 5 7]).eval_hessian [1, 0, 0, 2] ∧
    ∀ (P : MassSpringProblem2DSparse) (d : Vec) (y : Vec),
      MassSpringProblem2DSparse.eval_f { P with desired_points_ := d } y = P.eval_f y ∧
      MassSpringProblem2DSparse.eval_gradient { P with desired_points_ := d } y =
        P.eval_gradient y ∧
      MassSpringProblem2DSparse.eval_hessian { P with desired_points_ := d } y =
        P.eval_hessian y) :=
  ⟨List.Forall₂.cons ⟨rfl, rfl, rfl, rfl⟩ (List.Forall₂.cons ⟨rfl, rfl⟩ List.Forall₂.nil),
    rfl, sized_anchored_eval_f sized_anchored_problem.desired_points_,
    sized_anchored_eval_f [5, 7],
    target_point_never_read sample_spring sample_anchor 4
      [Op.spring 0 1 1 1, Op.anchor 0 1 0 0] [Op.spring 0 1 1 1, Op.anchor 0 1 5 7]
      (List.Forall₂.cons ⟨rfl, rfl, rfl, rfl⟩ (List.Forall₂.cons ⟨rfl, rfl⟩ List.Forall₂.nil))
      [1, 0, 0, 2]⟩

/-- Claim C23.  In every state built from the constructor by insertion calls the
parallel lists are aligned: `springs_`, `ks_` and `ls_` have one length,
`attached_node_indices_` and `weights_` have one length, and `desired_points_` has
twice that length.  Hence the loop of `eval_hessian` over `ks_.size()` runs over the
same indices as the loops of `eval_f` and `eval_gradient` over `springs_.size()`,
and every read `springs_[i]`, `ks_[i]`, `ls_[i]` of a spring loop and every read
`attached_node_indices_[i]`, `weights_[i]` of an anchor loop is in range. -/
theorem build_lists_aligned (spring cse : ParametricFunctionBase) (n : Int) (ops : List Op) :
    ((MassSpringProblem2DSparse.build spring cse n ops).springs_.length =
        (MassSpringProblem2DSparse.build spring cse n ops).ks_.length ∧
      (MassSpringProblem2DSparse.build spring cse n ops).ks_.length =
        (MassSpringProblem2DSparse.build spring cse n ops).ls_.length ∧
      (MassSpringProblem2DSparse.build spring cse n ops).attached_node_indices_.length =
        (MassSpringProblem2DSparse.build spring cse n ops).weights_.length ∧
      (MassSpringProblem2DSparse.build spring cse n ops).desired_points_.length =
        2 * (MassSpringProblem2DSparse.build spring cse n ops).attached_node_indices_.length) ∧
    List.range (MassSpringProblem2DSparse.build spring cse n ops).ks_.length =
      List.range (MassSpringProblem2DSparse.build spring cse n ops).springs_.length ∧
    (∀ i, i < (MassSpringProblem2DSparse.build spring cse n ops).springs_.length →
      (∃ s, idx (MassSpringProblem2DSparse.build spring cse n ops).springs_ i = Except.ok s) ∧
      (∃ k, idx (MassSpringProblem2DSparse.build spring cse n ops).ks_ i = Except.ok k) ∧
      (∃ l, idx (MassSpringProblem2DSparse.build spring cse n ops).ls_ i = Except.ok l)) ∧
    (∀ i, i < (MassSpringProblem2DSparse.build spring cse n ops).ks_.length →
      (∃ s, idx (MassSpringProblem2DSparse.build spring cse n ops).springs_ i = Except.ok s) ∧
      (∃ k, idx (MassSpringProblem2DSparse.build spring cse n ops).ks_ i = Except.ok k) ∧
      (∃ l, idx (MassSpringProblem2DSparse.build spring cse n ops).ls_ i = Except.ok l)) ∧
    (∀ i, i < (MassSpringProblem2DSparse.build spring cse n ops).attached_node_indices_.length →
      (∃ v, idx (MassSpringProblem2DSparse.build spring cse n ops).attached_node_indices_ i =
        Except.ok v) ∧
      (∃ w, idx (MassSpringProblem2DSparse.build spring cse n ops).weights_ i =
        Except.ok w)) := by
  obtain ⟨h1, h2, h3, h4⟩ := MassSpringProblem2DSparse.build_aligned spring cse n ops
  refine ⟨⟨h1, h2, h3, h4⟩, by rw [h1], ?_, ?_, ?_⟩
  · intro i hi
    exact ⟨idx_in_range _ i hi, idx_in_range _ i (by omega), idx_in_range _ i (by omega)⟩
  · intro i hi
    exact ⟨idx_in_range _ i (by omega), idx_in_range _ i hi, idx_in_range _ i (by omega)⟩
  · intro i hi
    exact ⟨idx_in_range _ i hi, idx_in_range _ i (by omega)⟩

/-- Claim C24.  `MassSpringSystemT::add_constrained_spring_elements` never adds an
anchor.  On a system whose `msp_` points to a problem and whose edges have their
vertices in range: for scenario 1 the problem gets, for every edge `i` in order, one
further spring `(from_vertex(i), to_vertex(i))` with stiffness `1.5 * coefficient(i)`
and rest length `length(i)`; for scenario 2 one further spring per edge with stiffness
`2 * coefficient(i)` and rest length `0.8 * length(i)`; in both the anchor lists and
`n_` stay as they are; for any other scenario the system is returned unchanged.
Whatever the system and the scenario, a call that returns leaves the anchor lists of
the problem as they were. -/
theorem add_constrained_spring_elements_adds_springs (S : MassSpringSystemT)
    (P : MassSpringProblem2DSparse) (hmsp : S.msp_ = some P)
    (hvalid : ∀ i, i < S.sg_.n_edges →
      0 ≤ S.sg_.from_vertex i ∧ 2 * S.sg_.from_vertex i < P.n_unknowns ∧
      0 ≤ S.sg_.to_vertex i ∧ 2 * S.sg_.to_vertex i < P.n_unknowns) :
    (∃ Q, S.add_constrained_spring_elements 1 = some { sg_ := S.sg_, msp_ := some Q } ∧
      Q.springs_ = P.springs_ ++
        (List.range S.sg_.n_edges).map (fun i => (S.sg_.from_vertex i, S.sg_.to_vertex i)) ∧
      Q.ks_ = P.ks_ ++ (List.range S.sg_.n_edges).map (fun i => 3 / 2 * S.sg_.coefficient i) ∧
      Q.ls_ = P.ls_ ++ (List.range S.sg_.n_edges).map (fun i => S.sg_.length i) ∧
      Q.attached_node_indices_ = P.attached_node_indices_ ∧ Q.weights_ = P.weights_ ∧
      Q.desired_points_ = P.desired_points_ ∧ Q.n_unknowns = P.n_unknowns) ∧
    (∃ Q, S.add_constrained_spring_elements 2 = some { sg_ := S.sg_, msp_ := some Q } ∧
      Q.springs_ = P.springs_ ++
        (List.range S.sg_.n_edges).map (fun i => (S.sg_.from_vertex i, S.sg_.to_vertex i)) ∧
      Q.ks_ = P.ks_ ++ (List.range S.sg_.n_edges).map (fun i => 2 * S.sg_.coefficient i) ∧
      Q.ls_ = P.ls_ ++ (List.range S.sg_.n_edges).map (fun i => 4 / 5 * S.sg_.length i) ∧
      Q.attached_node_indices_ = P.attached_node_indices_ ∧ Q.weights_ = P.weights_ ∧
      Q.desired_points_ = P.desired_points_ ∧ Q.n_unknowns = P.n_unknowns) ∧
    (∀ scenario : Int, scenario ≠ 1 → scenario ≠ 2 →
      S.add_constrained_spring_elements scenario = some S) ∧
    ∀ (S0 S2 : MassSpringSystemT) (scenario : Int),
      S0.add_constrained_spring_elements scenario = some S2 →
        S2.sg_ = S0.sg_ ∧
        S2.msp_.map (fun Q => (Q.attached_node_indices_, Q.weights_, Q.desired_points_)) =
          S0.msp_.map (fun Q => (Q.attached_node_indices_, Q.weights_, Q.desired_points_)) := by
  refine ⟨?_, ?_, ?_, ?_⟩
  · refine ⟨MassSpringSystemT.add_edges S.sg_ (fun i => S.sg_.coefficient i * (3 / 2))
      (fun i => S.sg_.length i) S.sg_.n_edges P, ?_, ?_⟩
    · simp only [MassSpringSystemT.add_constrained_spring_elements, if_true]
      exact MassSpringSystemT.add_loop_some (fun sg i => sg.coefficient i * (3 / 2))
        (fun sg i => sg.length i) S.sg_.n_edges S P hmsp
    · obtain ⟨h1, h2, h3⟩ := MassSpringSystemT.add_edges_valid S.sg_
        (fun i => S.sg_.coefficient i * (3 / 2)) (fun i => S.sg_.length i) P S.sg_.n_edges hvalid
      obtain ⟨f1, f2, f3, f4⟩ := MassSpringSystemT.add_edges_frame S.sg_
        (fun i => S.sg_.coefficient i * (3 / 2)) (fun i => S.sg_.length i) S.sg_.n_edges P
      refine ⟨h1, ?_, h3, f2, f3, f4, f1⟩
      rw [h2]
      congr 1
      apply List.map_congr_left
      intro i _
      ring
  · refine ⟨MassSpringSystemT.add_edges S.sg_ (fun i => S.sg_.coefficient i * 2)
      (fun i => S.sg_.length i * (4 / 5)) S.sg_.n_edges P, ?_, ?_⟩
    · unfold MassSpringSystemT.add_constrained_spring_elements
      rw [if_neg (by decide), if_pos rfl]
      exact MassSpringSystemT.add_loop_some (fun sg i => sg.coefficient i * 2)
        (fun sg i => sg.length i * (4 / 5)) S.sg_.n_edges S P hmsp
    · obtain ⟨h1, h2, h3⟩ := MassSpringSystemT.add_edges_valid S.sg_
        (fun i => S.sg_.coefficient i * 2) (fun i => S.sg_.length i * (4 / 5)) P
        S.sg_.n_edges hvalid
      obtain ⟨f1, f2, f3, f4⟩ := MassSpringSystemT.add_edges_frame S.sg_
        (fun i => S.sg_.coefficient i * 2) (fun i => S.sg_.length i * (4 / 5)) S.sg_.n_edges P
      refine ⟨h1, ?_, ?_, f2, f3, f4, f1⟩
      · rw [h2]
        congr 1
        apply List.map_congr_left
        intro i _
        ring
      · rw [h3]
        congr 1
        apply List.map_congr_left
        intro i _
        ring
  · intro scenario h1 h2
    simp only [MassSpringSystemT.add_constrained_spring_elements, if_neg h1, if_neg h2]
  · intro S0 S2 scenario h
    simp only [MassSpringSystemT.add_constrained_spring_elements] at h
    split at h
    · exact MassSpringSystemT.add_loop_frame (fun sg i => sg.coefficient i * (3 / 2))
        (fun sg i => sg.length i) S0.sg_.n_edges S0 S2 h
    · split at h
      · exact MassSpringSystemT.add_loop_frame (fun sg i => sg.coefficient i * 2)
          (fun sg i => sg.length i * (4 / 5)) S0.sg_.n_edges S0 S2 h
      · injection h with h
        subst h
        exact ⟨rfl, rfl⟩

theorem add_constrained_spring_elements_adds_springs_witness :
    sample_system.msp_ = some anchored_problem ∧
    anchored_problem.springs_ = [(0, 1)] ∧ anchored_problem.ks_ = [1] ∧
    anchored_problem.ls_ = [1] ∧
    (∃ Q, sample_system.add_constrained_spring_elements 1 =
        some { sg_ := sample_graph, msp_ := some Q } ∧
      Q.springs_ = [(0, 1), (0, 1), (1, 0)] ∧ Q.ks_ = [1, 3, 6] ∧ Q.ls_ = [1, 1, 5] ∧
      Q.attached_node_indices_ = [0] ∧ Q.weights_ = [1] ∧ Q.desired_points_ = [0, 0] ∧
      Q.n_unknowns = 4) ∧
    (∃ Q, sample_system.add_constrained_spring_elements 2 =
        some { sg_ := sample_graph, msp_ := some Q } ∧
      Q.springs_ = [(0, 1), (0, 1), (1, 0)] ∧ Q.ks_ = [1, 4, 8] ∧ Q.ls_ = [1, 4 / 5, 4] ∧
      Q.attached_node_indices_ = [0] ∧ Q.weights_ = [1] ∧ Q.desired_points_ = [0, 0] ∧
      Q.n_unknowns = 4) ∧
    sample_system.add_constrained_spring_elements 3 = some sample_system := by
  have h := add_constrained_spring_elements_adds_springs sample_system anchored_problem rfl
    sample_system_valid
  obtain ⟨⟨Q1, a0, a1, a2, a3, a4, a5, a6, a7⟩, ⟨Q2, b0, b1, b2, b3, b4, b5, b6, b7⟩, h3, _⟩ := h
  refine ⟨rfl, rfl, rfl, rfl, ⟨Q1, a0, ?_, ?_, ?_, ?_, ?_, ?_, ?_⟩,
    ⟨Q2, b0, ?_, ?_, ?_, ?_, ?_, ?_, ?_⟩, h3 3 (by decide) (by decide)⟩
  · rw [a1]; rfl
  · rw [a2]
    have e : anchored_problem.ks_ = [1] := rfl
    rw [e]
    norm_num [sample_system, sample_graph, List.range_succ]
  · rw [a3]
    have e : anchored_problem.ls_ = [1] := rfl
    rw [e]
    norm_num [sample_system, sample_graph, List.range_succ]
  · rw [a4]; rfl
  · rw [a5]; rfl
  · rw [a6]; rfl
  · rw [a7]; rfl
  · rw [b1]; rfl
  · rw [b2]
    have e : anchored_problem.ks_ = [1] := rfl
    rw [e]
    norm_num [sample_system, sample_graph, List.range_succ]
  · rw [b3]
    have e : anchored_problem.ls_ = [1] := rfl
    rw [e]
    norm_num [sample_system, sample_graph, List.range_succ]
  · rw [b4]; rfl
  · rw [b5]; rfl
  · rw [b6]; rfl
  · rw [b7]; rfl

end AOPT
